import Mathlib

/-!
Verification of the RDAT (DXIL runtime metadata) codec from
`renderdoc/driver/shaders/dxil/dxil_metadata.cpp`.

The development embeds the codec shallowly:

* byte buffers are `List Nat` (each element one byte; little-endian u32/u16
  fields are written and read explicitly, with the `% 2^32` truncation of the
  C++ `uint32_t` casts made explicit);
* the intern tables (`StringBuffer`, `IndexArrays`, the byte-blob lookup
  `MakeBytesRef`) are pure functions threading their backing buffer;
* the decoder `GetRuntimeData` and the encoder `SetRuntimeData` are total
  functions over byte lists.  Non-fatal `RDCASSERT`/`RDCWARN` calls in the
  decoder are modelled as a list of `Diag` values accompanying the result
  (in the C++ they log and continue).

The in-memory data model (`RDATData`, `ResourceInfo`, `FunctionInfo2`,
`SubobjectInfo`) is declared in `dxil_metadata.h`, which is not part of the
sources under study; those structures are modelled from the spec (sections 3
and 4 of `spec.md`), with a comment at each such definition.
-/

namespace RDATSpec

/-- The sentinel reference `~0U` (0xFFFFFFFF) denoting "absent". -/
def SENTINEL : Nat := 4294967295

/-! ### Little-endian field primitives

The C++ serialises records with `memcpy` of packed structs; we make the
little-endian byte layout explicit.  `writeU32` performs the truncation a
`uint32_t` store performs; reads of out-of-range positions yield 0 (the
in-bounds cases are the ones exercised by well-formed buffers). -/

/-- Little-endian bytes of a `uint32_t` store (truncating like the C++ cast). -/
def writeU32 (n : Nat) : List Nat :=
  [n % 256, n / 256 % 256, n / 65536 % 256, n / 16777216 % 256]

/-- Little-endian bytes of a `uint16_t` store. -/
def writeU16 (n : Nat) : List Nat :=
  [n % 256, n / 256 % 256]

/-- Read a byte (`uint8_t`). -/
def readU8 (b : List Nat) (o : Nat) : Nat := b.getD o 0

/-- Read a little-endian `uint16_t`. -/
def readU16 (b : List Nat) (o : Nat) : Nat :=
  b.getD o 0 + 256 * b.getD (o + 1) 0

/-- Read a little-endian `uint32_t`. -/
def readU32 (b : List Nat) (o : Nat) : Nat :=
  b.getD o 0 + 256 * b.getD (o + 1) 0 + 65536 * b.getD (o + 2) 0 +
    16777216 * b.getD (o + 3) 0

/-- Read `n` consecutive bytes starting at `o`. -/
def readBytes (b : List Nat) (o n : Nat) : List Nat :=
  (List.range n).map fun i => b.getD (o + i) 0

/-- Read `n` consecutive u32 words starting at element index `o` of a word
buffer (used for the `IndexArrays` backing store, whose elements are u32
values). -/
def readWords (b : List Nat) (o n : Nat) : List Nat :=
  (List.range n).map fun i => b.getD (o + i) 0

/-- Serialise a list of u32 words to bytes (the `IndexArrays` blob layout). -/
def wordsToBytes (ws : List Nat) : List Nat :=
  ws.flatMap writeU32

/-- Parse a byte blob of `sz` bytes into `sz / 4` u32 words
(`IndexArrays::Load`). -/
def bytesToWords (b : List Nat) (sz : Nat) : List Nat :=
  (List.range (sz / 4)).map fun i => readU32 b (4 * i)

/-- `AlignUp4` from the C++ sources. -/
def AlignUp4 (n : Nat) : Nat := (n + 3) / 4 * 4

/-- Pad a byte list with zero bytes up to 4-byte alignment (the `resize`
zero-fill in `BakeRuntimePart`). -/
def pad4 (l : List Nat) : List Nat :=
  l ++ List.replicate (AlignUp4 l.length - l.length) 0

theorem length_writeU32 (n : Nat) : (writeU32 n).length = 4 := rfl

theorem length_writeU16 (n : Nat) : (writeU16 n).length = 2 := rfl

theorem length_readBytes (b : List Nat) (o n : Nat) :
    (readBytes b o n).length = n := by
  simp [readBytes]

theorem length_readWords (b : List Nat) (o n : Nat) :
    (readWords b o n).length = n := by
  simp [readWords]

theorem getD_append_lt (a c : List Nat) (i : Nat) (h : i < a.length) :
    (a ++ c).getD i 0 = a.getD i 0 :=
  List.getD_append a c 0 i h

theorem getD_append_ge (a c : List Nat) (i : Nat) (h : a.length ≤ i) :
    (a ++ c).getD i 0 = c.getD (i - a.length) 0 :=
  List.getD_append_right a c 0 i h

theorem getD_append_skip (a c : List Nat) (i : Nat) :
    (a ++ c).getD (a.length + i) 0 = c.getD i 0 := by
  rw [getD_append_ge a c _ (by omega)]
  congr 1
  omega

theorem readU8_append_lt (a c : List Nat) (o : Nat) (h : o < a.length) :
    readU8 (a ++ c) o = readU8 a o := by
  unfold readU8
  rw [getD_append_lt _ _ _ h]

theorem readU16_append_lt (a c : List Nat) (o : Nat) (h : o + 2 ≤ a.length) :
    readU16 (a ++ c) o = readU16 a o := by
  unfold readU16
  rw [getD_append_lt _ _ _ (by omega : o < a.length),
    getD_append_lt _ _ _ (by omega : o + 1 < a.length)]

theorem readU32_append_lt (a c : List Nat) (o : Nat) (h : o + 4 ≤ a.length) :
    readU32 (a ++ c) o = readU32 a o := by
  unfold readU32
  rw [getD_append_lt _ _ _ (by omega : o < a.length),
    getD_append_lt _ _ _ (by omega : o + 1 < a.length),
    getD_append_lt _ _ _ (by omega : o + 2 < a.length),
    getD_append_lt _ _ _ (by omega : o + 3 < a.length)]

theorem readU8_append_skip (a c : List Nat) (k : Nat) :
    readU8 (a ++ c) (a.length + k) = readU8 c k := by
  unfold readU8
  rw [getD_append_skip]

theorem readU16_append_skip (a c : List Nat) (k : Nat) :
    readU16 (a ++ c) (a.length + k) = readU16 c k := by
  unfold readU16
  rw [show a.length + k + 1 = a.length + (k + 1) by omega,
    getD_append_skip, getD_append_skip]

theorem readU32_append_skip (a c : List Nat) (k : Nat) :
    readU32 (a ++ c) (a.length + k) = readU32 c k := by
  unfold readU32
  rw [show a.length + k + 1 = a.length + (k + 1) by omega,
    show a.length + k + 2 = a.length + (k + 2) by omega,
    show a.length + k + 3 = a.length + (k + 3) by omega,
    getD_append_skip, getD_append_skip, getD_append_skip, getD_append_skip]

theorem readU32_writeU32 (n : Nat) (rest : List Nat) :
    readU32 (writeU32 n ++ rest) 0 = n % 4294967296 := by
  simp only [writeU32, readU32, List.cons_append, List.nil_append,
    List.getD_cons_zero, List.getD_cons_succ]
  omega

theorem readU32_writeU32_exact (n : Nat) (rest : List Nat)
    (h : n < 4294967296) : readU32 (writeU32 n ++ rest) 0 = n := by
  rw [readU32_writeU32]
  omega

theorem readBytes_append_lt (a c : List Nat) (o n : Nat)
    (h : o + n ≤ a.length) : readBytes (a ++ c) o n = readBytes a o n := by
  simp only [readBytes]
  refine List.map_congr_left fun i hi => ?_
  rw [List.mem_range] at hi
  exact getD_append_lt a c _ (by omega)

theorem readBytes_all (a : List Nat) : readBytes a 0 a.length = a := by
  simp only [readBytes]
  apply List.ext_getElem
  · simp
  · intro i h1 h2
    simp only [List.getElem_map, List.getElem_range, Nat.zero_add]
    rw [List.getD_eq_getElem a 0 (by simpa using h2)]

theorem readBytes_append_exact (a c : List Nat) :
    readBytes (a ++ c) 0 a.length = a := by
  rw [readBytes_append_lt a c 0 a.length (by omega), readBytes_all]

theorem readBytes_append_skip (a c : List Nat) (k n : Nat) :
    readBytes (a ++ c) (a.length + k) n = readBytes c k n := by
  simp only [readBytes]
  refine List.map_congr_left fun i _ => ?_
  rw [show a.length + k + i = a.length + (k + i) by omega, getD_append_skip]

theorem drop_append_le (a c : List Nat) (n : Nat) (h : n ≤ a.length) :
    (a ++ c).drop n = a.drop n ++ c := by
  induction a generalizing n with
  | nil =>
    have : n = 0 := by simpa using h
    subst this
    simp
  | cons x xs ih =>
    cases n with
    | zero => simp
    | succ m =>
      simp only [List.cons_append, List.drop_succ_cons]
      exact ih m (by simpa using h)

/-- `takeWhile` stops at a failing element, so everything after the first
failing element is irrelevant. -/
theorem takeWhile_append_stop (p : Nat → Bool) (x : List Nat) (a : Nat)
    (y : List Nat) (ha : p a = false) :
    (x ++ a :: y).takeWhile p = x.takeWhile p := by
  induction x with
  | nil => simp [List.takeWhile_cons, ha]
  | cons z zs ih =>
    simp only [List.cons_append, List.takeWhile_cons]
    cases hz : p z <;> simp [ih]

/-! ### Word-buffer reading

Every table part's payload is a concatenation of u32 words; the following
lemmas read a u32/u16/u8 field of a word inside such a segment of a larger
buffer. -/

theorem wordsToBytes_nil : wordsToBytes [] = [] := rfl

theorem wordsToBytes_cons (w : Nat) (ws : List Nat) :
    wordsToBytes (w :: ws) = writeU32 w ++ wordsToBytes ws := rfl

theorem wordsToBytes_append (x y : List Nat) :
    wordsToBytes (x ++ y) = wordsToBytes x ++ wordsToBytes y := by
  simp [wordsToBytes]

theorem length_wordsToBytes (ws : List Nat) :
    (wordsToBytes ws).length = 4 * ws.length := by
  induction ws with
  | nil => rfl
  | cons w rest ih =>
    rw [wordsToBytes_cons, List.length_append, ih, length_writeU32,
      List.length_cons]
    omega

theorem readU8_writeU32_0 (n : Nat) (r : List Nat) :
    readU8 (writeU32 n ++ r) 0 = n % 256 := rfl

theorem readU8_writeU32_1 (n : Nat) (r : List Nat) :
    readU8 (writeU32 n ++ r) 1 = n / 256 % 256 := rfl

theorem readU16_writeU32_0 (n : Nat) (r : List Nat) :
    readU16 (writeU32 n ++ r) 0 = n % 65536 := by
  show n % 256 + 256 * (n / 256 % 256) = n % 65536
  omega

theorem readU16_writeU32_2 (n : Nat) (r : List Nat) :
    readU16 (writeU32 n ++ r) 2 = n / 65536 % 65536 := by
  show n / 65536 % 256 + 256 * (n / 16777216 % 256) = n / 65536 % 65536
  omega

/-- The word list `W` occupies the buffer `inb` starting at byte `base`. -/
def WordsAt (inb : List Nat) (base : Nat) (W : List Nat) : Prop :=
  ∃ front tail, inb = front ++ wordsToBytes W ++ tail ∧ front.length = base

theorem WordsAt_shift (inb : List Nat) (base : Nat) (W1 W2 : List Nat)
    (h : WordsAt inb base (W1 ++ W2)) :
    WordsAt inb (base + 4 * W1.length) W2 := by
  obtain ⟨front, tail, hb, hl⟩ := h
  rw [wordsToBytes_append, List.append_assoc] at hb
  refine ⟨front ++ wordsToBytes W1, tail, by rw [hb]; simp, ?_⟩
  rw [List.length_append, length_wordsToBytes, hl]

/-- Split a list at index `j` into prefix, the element and suffix. -/
theorem getD_split (W : List Nat) (j : Nat) (hj : j < W.length) :
    W = W.take j ++ W.getD j 0 :: W.drop (j + 1) := by
  rw [List.getD_eq_getElem W 0 hj, List.getElem_cons_drop W j hj,
    List.take_append_drop]

/-- Decompose a word buffer at word index `j`: what lies at byte `4*j` is
`writeU32` of the `j`-th word. -/
theorem WordsAt_word (inb : List Nat) (base : Nat) (W : List Nat) (j : Nat)
    (h : WordsAt inb base W) (hj : j < W.length) :
    ∃ front tail, inb = front ++ writeU32 (W.getD j 0) ++ tail ∧
      front.length = base + 4 * j := by
  obtain ⟨front, tail, hb, hl⟩ := h
  refine ⟨front ++ wordsToBytes (W.take j),
    wordsToBytes (W.drop (j + 1)) ++ tail, ?_, ?_⟩
  · conv_lhs => rw [hb, getD_split W j hj]
    rw [wordsToBytes_append, wordsToBytes_cons]
    simp
  · rw [List.length_append, length_wordsToBytes, List.length_take, hl]
    have : min j W.length = j := by omega
    rw [this]

theorem WordsAt_readU32 (inb : List Nat) (base : Nat) (W : List Nat) (j : Nat)
    (h : WordsAt inb base W) (hj : j < W.length) :
    readU32 inb (base + 4 * j) = W.getD j 0 % 4294967296 := by
  obtain ⟨front, tail, hb, hl⟩ := WordsAt_word inb base W j h hj
  rw [hb, List.append_assoc, show base + 4 * j = front.length + 0 by omega,
    readU32_append_skip]
  exact readU32_writeU32 _ _

theorem WordsAt_readU8_0 (inb : List Nat) (base : Nat) (W : List Nat) (j : Nat)
    (h : WordsAt inb base W) (hj : j < W.length) :
    readU8 inb (base + 4 * j) = W.getD j 0 % 256 := by
  obtain ⟨front, tail, hb, hl⟩ := WordsAt_word inb base W j h hj
  rw [hb, ← hl, List.append_assoc, show front.length = front.length + 0 by omega,
    readU8_append_skip]
  exact readU8_writeU32_0 _ _

theorem WordsAt_readU8_1 (inb : List Nat) (base : Nat) (W : List Nat) (j : Nat)
    (h : WordsAt inb base W) (hj : j < W.length) :
    readU8 inb (base + 4 * j + 1) = W.getD j 0 / 256 % 256 := by
  obtain ⟨front, tail, hb, hl⟩ := WordsAt_word inb base W j h hj
  rw [hb, List.append_assoc, show base + 4 * j + 1 = front.length + 1 by omega,
    readU8_append_skip]
  exact readU8_writeU32_1 _ _

theorem WordsAt_readU16_0 (inb : List Nat) (base : Nat) (W : List Nat) (j : Nat)
    (h : WordsAt inb base W) (hj : j < W.length) :
    readU16 inb (base + 4 * j) = W.getD j 0 % 65536 := by
  obtain ⟨front, tail, hb, hl⟩ := WordsAt_word inb base W j h hj
  rw [hb, ← hl, List.append_assoc, show front.length = front.length + 0 by omega,
    readU16_append_skip]
  exact readU16_writeU32_0 _ _

theorem WordsAt_readU16_2 (inb : List Nat) (base : Nat) (W : List Nat) (j : Nat)
    (h : WordsAt inb base W) (hj : j < W.length) :
    readU16 inb (base + 4 * j + 2) = W.getD j 0 / 65536 % 65536 := by
  obtain ⟨front, tail, hb, hl⟩ := WordsAt_word inb base W j h hj
  rw [hb, List.append_assoc, show base + 4 * j + 2 = front.length + 2 by omega,
    readU16_append_skip]
  exact readU16_writeU32_2 _ _

/-- Flattening a uniform-length record list has length `m * count`. -/
theorem flatten_length_uniform (L : List (List Nat)) (m : Nat)
    (hm : ∀ r ∈ L, r.length = m) : L.flatten.length = m * L.length := by
  induction L with
  | nil => simp
  | cons a rest ih =>
    simp only [List.flatten_cons, List.length_append, List.length_cons]
    rw [hm a (by simp), ih (fun r hr => hm r (by simp [hr]))]
    ring

theorem getD_split_generic (L : List (List Nat)) (i : Nat) (hi : i < L.length) :
    L = L.take i ++ L.getD i [] :: L.drop (i + 1) := by
  rw [List.getD_eq_getElem L [] hi, List.getElem_cons_drop L i hi,
    List.take_append_drop]

/-- Decompose the flattening of a uniform-length record list at record `i`. -/
theorem flatten_uniform_decomp (L : List (List Nat)) (m : Nat)
    (hm : ∀ r ∈ L, r.length = m) (i : Nat) (hi : i < L.length) :
    L.flatten = (L.take i).flatten ++ L.getD i [] ++ (L.drop (i + 1)).flatten ∧
      (L.take i).flatten.length = m * i := by
  constructor
  · conv_lhs => rw [getD_split_generic L i hi]
    simp
  · rw [flatten_length_uniform (L.take i) m
      (fun r hr => hm r (List.mem_of_mem_take hr)), List.length_take]
    have : min i L.length = i := by omega
    rw [this]

/-! ### StringBuffer

The string intern table of `dxil_metadata.cpp` (`struct StringBuffer`).  The
backing blob is a byte list; the constructor seeds it with a single NUL byte
(the empty string); `MakeRef` optionally performs the linear dedup scan and
otherwise appends the string plus a NUL terminator. -/

/-- `true` iff the byte string contains no NUL byte (a C string round-trips
through the blob exactly when this holds). -/
def nulFree (s : List Nat) : Bool := s.all fun c => c != 0

namespace StringBuffer

/-- The freshly constructed buffer: one NUL byte (the empty string). -/
def init : List Nat := [0]

/-- `StringBuffer::GetString`: the NUL-terminated string starting at `offs`.
Out-of-range offsets yield the empty string (the C++ behaviour is undefined
there; well-formed buffers never exercise it). -/
def GetString (stringblob : List Nat) (offs : Nat) : List Nat :=
  (stringblob.drop offs).takeWhile fun c => c != 0

/-- The dedup scan of `StringBuffer::MakeRef`, one iteration of the C++
`while` loop per fuel unit.  Each iteration advances `offs` by at least one,
so `stringblob.length + 1` units of fuel always suffice.  The match test is
`curlen == str.length() && strcmp(curstr, str.c_str()) == 0`: `strcmp`
compares the NUL-terminated prefixes, hence the `takeWhile` on `str`. -/
def FindAux (stringblob str : List Nat) : Nat → Nat → Option Nat
  | 0, _ => none
  | fuel + 1, offs =>
    if offs < stringblob.length then
      let cur := GetString stringblob offs
      if cur.length = str.length ∧ cur = str.takeWhile (fun c => c != 0) then
        some offs
      else
        FindAux stringblob str fuel (offs + cur.length + 1)
    else
      none

/-- The full dedup scan, from offset 0 with sufficient fuel. -/
def Find (stringblob str : List Nat) : Option Nat :=
  FindAux stringblob str (stringblob.length + 1) 0

/-- `StringBuffer::MakeRef`: dedup lookup (when enabled), else append
`str ++ "\0"` and return the prior length as the offset. -/
def MakeRef (dedup : Bool) (stringblob str : List Nat) : Nat × List Nat :=
  match (if dedup then Find stringblob str else none) with
  | some offs => (offs, stringblob)
  | none => (stringblob.length, stringblob ++ str ++ [0])

/-- Concatenation of NUL-terminated strings: the shape of every blob built by
`MakeRef` starting from `init`. -/
def strCat : List (List Nat) → List Nat
  | [] => []
  | s :: rest => s ++ 0 :: strCat rest

/-- Well-formedness of a string blob: it is a concatenation of NUL-terminated
NUL-free strings. -/
def Wf (b : List Nat) : Prop :=
  ∃ strs : List (List Nat), (∀ s ∈ strs, nulFree s = true) ∧ b = strCat strs

theorem strCat_append (x y : List (List Nat)) :
    strCat (x ++ y) = strCat x ++ strCat y := by
  induction x with
  | nil => simp [strCat]
  | cons s rest ih => simp [strCat, ih]

theorem init_wf : Wf init := ⟨[[]], by simp [nulFree], rfl⟩

theorem takeWhile_nulFree (s t : List Nat) (h : nulFree s = true) :
    (s ++ 0 :: t).takeWhile (fun c => c != 0) = s := by
  have := takeWhile_append_stop (fun c => c != 0) s 0 t (by simp)
  rw [this]
  exact List.takeWhile_eq_self_iff.mpr (by simpa [nulFree, List.all_eq_true] using h)

theorem takeWhile_nulFree_self (s : List Nat) (h : nulFree s = true) :
    s.takeWhile (fun c => c != 0) = s :=
  List.takeWhile_eq_self_iff.mpr (by simpa [nulFree, List.all_eq_true] using h)

/-- A nonempty well-formed blob ends in a NUL byte. -/
theorem strCat_ends (strs : List (List Nat)) (h : strs ≠ []) :
    ∃ l, strCat strs = l ++ [0] := by
  induction strs with
  | nil => exact absurd rfl h
  | cons s rest ih =>
    cases rest with
    | nil => exact ⟨s, rfl⟩
    | cons t r =>
      obtain ⟨l, hl⟩ := ih (by simp)
      exact ⟨s ++ 0 :: l, by simp [strCat] at hl ⊢; simp [hl]⟩

/-- Stability: on a well-formed blob, `GetString` at an in-range offset is
unchanged by appending more data. -/
theorem GetString_stable (b ext : List Nat) (offs : Nat) (hb : Wf b)
    (ho : offs < b.length) :
    GetString (b ++ ext) offs = GetString b offs := by
  obtain ⟨strs, -, rfl⟩ := hb
  have hne : strs ≠ [] := by
    rintro rfl
    simp [strCat] at ho
  obtain ⟨l, hl⟩ := strCat_ends strs hne
  rw [hl] at ho ⊢
  have hol : offs ≤ l.length := by
    simp at ho
    omega
  rw [GetString, GetString, List.append_assoc,
    drop_append_le l ([0] ++ ext) offs (by omega),
    drop_append_le l [0] offs (by omega)]
  simp only [List.append_assoc, List.cons_append, List.nil_append]
  rw [takeWhile_append_stop _ _ _ _ (by simp),
    takeWhile_append_stop _ _ _ _ (by simp)]

/-- If the dedup scan reports a hit for a NUL-free string, the hit offset
really holds that string (no well-formedness needed: the match condition is
itself the certificate). -/
theorem FindAux_some (b s : List Nat) (hs : nulFree s = true) :
    ∀ fuel offs o, FindAux b s fuel offs = some o →
      GetString b o = s ∧ o < b.length := by
  intro fuel
  induction fuel with
  | zero => intro offs o h; simp [FindAux] at h
  | succ n ih =>
    intro offs o h
    rw [FindAux] at h
    by_cases hlt : offs < b.length
    · simp only [hlt, if_true] at h
      by_cases hc : (GetString b offs).length = s.length ∧
          GetString b offs = s.takeWhile (fun c => c != 0)
      · rw [if_pos hc] at h
        cases h
        rw [takeWhile_nulFree_self s hs] at hc
        exact ⟨hc.2, hlt⟩
      · rw [if_neg hc] at h
        exact ih _ o h
    · simp [hlt] at h

theorem MakeRef_eq_found_str (dedup : Bool) (b s : List Nat) (o : Nat)
    (h : (if dedup then Find b s else none) = some o) :
    MakeRef dedup b s = (o, b) := by
  unfold MakeRef
  rw [h]

theorem MakeRef_eq_append_str (dedup : Bool) (b s : List Nat)
    (h : (if dedup then Find b s else none) = none) :
    MakeRef dedup b s = (b.length, b ++ s ++ [0]) := by
  unfold MakeRef
  rw [h]

/-- The core specification of `MakeRef`: the returned reference points at the
interned string in the returned blob, the blob only grows, and
well-formedness is preserved. -/
theorem MakeRef_spec (dedup : Bool) (b s : List Nat) (hs : nulFree s = true) :
    (∃ ext, (MakeRef dedup b s).2 = b ++ ext) ∧
      GetString (MakeRef dedup b s).2 (MakeRef dedup b s).1 = s ∧
      (MakeRef dedup b s).1 < (MakeRef dedup b s).2.length ∧
      (Wf b → Wf (MakeRef dedup b s).2) := by
  cases hfind : (if dedup then Find b s else none) with
  | some o =>
    rw [MakeRef_eq_found_str dedup b s o hfind]
    have : Find b s = some o := by
      cases dedup <;> simp_all
    obtain ⟨h1, h2⟩ := FindAux_some b s hs _ _ _ this
    exact ⟨⟨[], by simp⟩, h1, h2, fun hw => hw⟩
  | none =>
    rw [MakeRef_eq_append_str dedup b s hfind]
    refine ⟨⟨s ++ [0], by simp⟩, ?_,
      by simp only [List.length_append, List.length_cons, List.length_nil]; omega, ?_⟩
    · show GetString (b ++ s ++ [0]) b.length = s
      rw [GetString, List.append_assoc, List.drop_left]
      simpa using takeWhile_nulFree s [] hs
    · rintro ⟨strs, hstrs, rfl⟩
      refine ⟨strs ++ [s], ?_, ?_⟩
      · intro t ht
        rcases List.mem_append.mp ht with h | h
        · exact hstrs t h
        · simp at h
          subst h
          exact hs
      · rw [strCat_append]
        simp [strCat]

end StringBuffer

/-! ### IndexArrays

The u32-array intern table (`struct IndexArrays`).  The backing store is a
list of u32 values (serialised to bytes only when the part is baked).  Both
the decoder and the encoder construct it with deduplication and
length-prefixing enabled; the unprefixed mode exists in the component and is
modelled faithfully. -/

namespace IndexArrays

/-- Prefixed-mode `GetSpan` plus the consumer loop over it: the element count
is the length prefix stored at `offs` and the elements follow it. -/
def GetSpan (idxArrays : List Nat) (offs : Nat) : List Nat :=
  readWords idxArrays (offs + 1) (idxArrays.getD offs 0)

/-- The dedup scan of `IndexArrays::MakeRef`, one C++ loop iteration per fuel
unit (`offs` advances by at least one per iteration, so `length + 1` fuel
suffices).  In prefixed mode the candidate length is the stored prefix and a
hit requires exact length equality; in unprefixed mode everything to the end
of the buffer is a candidate and a subset match suffices. -/
def FindAux (pfx : Bool) (idxArrays idxs : List Nat) : Nat → Nat → Option Nat
  | 0, _ => none
  | fuel + 1, offs =>
    if offs < idxArrays.length then
      let curlen := if pfx then idxArrays.getD offs 0 else idxArrays.length - offs
      if (if pfx then curlen = idxs.length else idxs.length ≤ curlen) ∧
          readWords idxArrays (if pfx then offs + 1 else offs) idxs.length = idxs then
        some offs
      else
        FindAux pfx idxArrays idxs fuel (if pfx then offs + 1 + curlen else offs + 1)
    else
      none

/-- The full dedup scan from offset 0. -/
def Find (pfx : Bool) (idxArrays idxs : List Nat) : Option Nat :=
  FindAux pfx idxArrays idxs (idxArrays.length + 1) 0

/-- `IndexArrays::MakeRef`: sentinel for empty-with-empty-is-null, dedup
lookup when enabled, else append (with a length prefix in prefixed mode). -/
def MakeRef (dedup pfx : Bool) (idxArrays idxs : List Nat)
    (emptyIsNull : Bool) : Nat × List Nat :=
  if emptyIsNull ∧ idxs = [] then (SENTINEL, idxArrays)
  else
    match (if dedup then Find pfx idxArrays idxs else none) with
    | some offs => (offs, idxArrays)
    | none =>
      (idxArrays.length,
        idxArrays ++ (if pfx then [idxs.length] else []) ++ idxs)

theorem MakeRef_eq_sentinel (dedup pfx : Bool) (b idxs : List Nat)
    (eIN : Bool) (h : eIN = true ∧ idxs = []) :
    MakeRef dedup pfx b idxs eIN = (SENTINEL, b) := by
  unfold MakeRef
  rw [if_pos h]

theorem MakeRef_eq_found (dedup pfx : Bool) (b idxs : List Nat) (eIN : Bool)
    (o : Nat) (h1 : ¬(eIN = true ∧ idxs = []))
    (h2 : (if dedup then Find pfx b idxs else none) = some o) :
    MakeRef dedup pfx b idxs eIN = (o, b) := by
  unfold MakeRef
  rw [if_neg h1, h2]

theorem MakeRef_eq_append (dedup pfx : Bool) (b idxs : List Nat) (eIN : Bool)
    (h1 : ¬(eIN = true ∧ idxs = []))
    (h2 : (if dedup then Find pfx b idxs else none) = none) :
    MakeRef dedup pfx b idxs eIN =
      (b.length, b ++ (if pfx then [idxs.length] else []) ++ idxs) := by
  unfold MakeRef
  rw [if_neg h1, h2]

theorem MakeRef_eq_append_pfx (dedup : Bool) (b idxs : List Nat) (eIN : Bool)
    (h1 : ¬(eIN = true ∧ idxs = []))
    (h2 : (if dedup then Find true b idxs else none) = none) :
    MakeRef dedup true b idxs eIN = (b.length, b ++ [idxs.length] ++ idxs) := by
  rw [MakeRef_eq_append dedup true b idxs eIN h1 h2]
  simp

theorem MakeRef_eq_append_nopfx (dedup : Bool) (b idxs : List Nat) (eIN : Bool)
    (h1 : ¬(eIN = true ∧ idxs = []))
    (h2 : (if dedup then Find false b idxs else none) = none) :
    MakeRef dedup false b idxs eIN = (b.length, b ++ idxs) := by
  rw [MakeRef_eq_append dedup false b idxs eIN h1 h2]
  simp

/-- The shape of every prefixed buffer built by `MakeRef` from empty:
a concatenation of length-prefixed blocks. -/
def blocksFlat : List (List Nat) → List Nat
  | [] => []
  | a :: rest => a.length :: (a ++ blocksFlat rest)

/-- Well-formedness of a prefixed index-array buffer. -/
def WfIdx (b : List Nat) : Prop := ∃ bs, b = blocksFlat bs

/-- Reference version of the prefixed dedup scan over the block structure:
the returned offset is that of the first block equal to `vals`. -/
def blockScan (bs : List (List Nat)) (vals : List Nat) : Option Nat :=
  match bs with
  | [] => none
  | a :: rest =>
    if a = vals then some 0
    else (blockScan rest vals).map fun o => 1 + a.length + o

theorem blocksFlat_append (x y : List (List Nat)) :
    blocksFlat (x ++ y) = blocksFlat x ++ blocksFlat y := by
  induction x with
  | nil => simp [blocksFlat]
  | cons a rest ih => simp [blocksFlat, ih]

theorem length_blocksFlat_cons (a : List Nat) (rest : List (List Nat)) :
    (blocksFlat (a :: rest)).length = 1 + a.length + (blocksFlat rest).length := by
  simp [blocksFlat]
  omega

theorem blocksFlat_getD_boundary (x : List (List Nat)) (a : List Nat)
    (y : List (List Nat)) :
    (blocksFlat (x ++ a :: y)).getD (blocksFlat x).length 0 = a.length := by
  rw [blocksFlat_append, show (blocksFlat x).length = (blocksFlat x).length + 0 by omega,
    getD_append_skip]
  simp [blocksFlat]

theorem blocksFlat_readWords_boundary (x : List (List Nat)) (a : List Nat)
    (y : List (List Nat)) :
    readWords (blocksFlat (x ++ a :: y)) ((blocksFlat x).length + 1) a.length = a := by
  rw [blocksFlat_append]
  have h1 : readWords (blocksFlat x ++ blocksFlat (a :: y))
      ((blocksFlat x).length + 1) a.length =
      readWords (blocksFlat (a :: y)) 1 a.length := by
    have := readBytes_append_skip (blocksFlat x) (blocksFlat (a :: y)) 1 a.length
    exact this
  rw [h1]
  show readBytes (blocksFlat (a :: y)) 1 a.length = a
  have h2 : blocksFlat (a :: y) = [a.length] ++ (a ++ blocksFlat y) := by
    simp [blocksFlat]
  rw [h2, show (1 : Nat) = ([a.length] : List Nat).length + 0 by simp,
    readBytes_append_skip]
  show readBytes (a ++ blocksFlat y) 0 a.length = a
  exact readBytes_append_exact a (blocksFlat y)

/-- On a well-formed prefixed buffer, the C++ dedup scan agrees with the
block-level reference scan. -/
theorem FindAux_blocksFlat (vals : List Nat) (bs2 : List (List Nat)) :
    ∀ (bs1 : List (List Nat)) (fuel : Nat),
      (blocksFlat bs2).length + 1 ≤ fuel →
      FindAux true (blocksFlat (bs1 ++ bs2)) vals fuel (blocksFlat bs1).length =
        (blockScan bs2 vals).map fun o => (blocksFlat bs1).length + o := by
  induction bs2 with
  | nil =>
    intro bs1 fuel hfuel
    obtain ⟨f, rfl⟩ : ∃ f, fuel = f + 1 := ⟨fuel - 1, by simp [blocksFlat] at hfuel; omega⟩
    rw [FindAux]
    simp [blockScan, List.append_nil]
  | cons a rest ih =>
    intro bs1 fuel hfuel
    rw [length_blocksFlat_cons] at hfuel
    obtain ⟨f, rfl⟩ : ∃ f, fuel = f + 1 := ⟨fuel - 1, by omega⟩
    have hlen : (blocksFlat (bs1 ++ a :: rest)).length =
        (blocksFlat bs1).length + (1 + a.length) + (blocksFlat rest).length := by
      rw [blocksFlat_append, List.length_append, length_blocksFlat_cons]
      omega
    have hofslt : (blocksFlat bs1).length < (blocksFlat (bs1 ++ a :: rest)).length := by
      omega
    have hgd : (blocksFlat (bs1 ++ a :: rest)).getD (blocksFlat bs1).length 0 = a.length :=
      blocksFlat_getD_boundary bs1 a rest
    have hrw : readWords (blocksFlat (bs1 ++ a :: rest))
        ((blocksFlat bs1).length + 1) a.length = a :=
      blocksFlat_readWords_boundary bs1 a rest
    rw [FindAux]
    simp only [hofslt, if_true, hgd]
    have hcond : ((a.length = vals.length) ∧
        readWords (blocksFlat (bs1 ++ a :: rest)) ((blocksFlat bs1).length + 1)
          vals.length = vals) ↔ a = vals := by
      constructor
      · rintro ⟨hl, hr⟩
        rw [← hl, hrw] at hr
        exact hr
      · rintro rfl
        exact ⟨rfl, hrw⟩
    by_cases hav : a = vals
    · rw [if_pos (hcond.mpr hav)]
      rw [blockScan, if_pos hav]
      simp
    · rw [if_neg (fun hx => hav (hcond.mp hx))]
      rw [blockScan, if_neg hav]
      have hstep : (blocksFlat bs1).length + 1 + a.length =
          (blocksFlat (bs1 ++ [a])).length := by
        rw [blocksFlat_append, List.length_append, length_blocksFlat_cons]
        simp [blocksFlat]
        omega
      rw [hstep, show bs1 ++ a :: rest = (bs1 ++ [a]) ++ rest by simp]
      rw [ih (bs1 ++ [a]) f (by omega)]
      cases blockScan rest vals with
      | none => rfl
      | some o =>
        simp only [Option.map_some']
        exact congrArg some (by rw [← hstep]; omega)

theorem Find_blocksFlat (bs : List (List Nat)) (vals : List Nat) :
    Find true (blocksFlat bs) vals = blockScan bs vals := by
  have h := FindAux_blocksFlat vals bs [] ((blocksFlat bs).length + 1) (by omega)
  rw [show ([] : List (List Nat)) ++ bs = bs by simp] at h
  simp only [blocksFlat, List.length_nil] at h
  rw [Find, h]
  cases blockScan bs vals <;> simp

theorem blockScan_some_decomp (bs : List (List Nat)) (vals : List Nat) (o : Nat)
    (h : blockScan bs vals = some o) :
    ∃ x y, bs = x ++ vals :: y ∧ o = (blocksFlat x).length := by
  induction bs generalizing o with
  | nil => simp [blockScan] at h
  | cons a rest ih =>
    rw [blockScan] at h
    by_cases hav : a = vals
    · rw [if_pos hav] at h
      cases h
      exact ⟨[], rest, by simp [hav], by simp [blocksFlat]⟩
    · rw [if_neg hav] at h
      cases hbs : blockScan rest vals with
      | none => rw [hbs] at h; simp at h
      | some o' =>
        rw [hbs] at h
        simp only [Option.map_some'] at h
        have ho : o = 1 + a.length + o' := (Option.some.inj h).symm
        obtain ⟨x, y, hxy, hox⟩ := ih o' hbs
        refine ⟨a :: x, y, by simp [hxy], ?_⟩
        rw [length_blocksFlat_cons, ho, hox]

/-- Specification of prefixed `MakeRef` outside the sentinel case: the
returned reference designates a length-prefixed block holding exactly the
requested values, the buffer only grows (well-formedly). -/
theorem MakeRef_spec_prefixed (dedup : Bool) (b vals : List Nat)
    (eIN : Bool) (hb : WfIdx b) (hne : ¬(eIN = true ∧ vals = [])) :
    (∃ ext, (MakeRef dedup true b vals eIN).2 = b ++ ext) ∧
      WfIdx (MakeRef dedup true b vals eIN).2 ∧
      (MakeRef dedup true b vals eIN).1 + 1 + vals.length ≤
        (MakeRef dedup true b vals eIN).2.length ∧
      (MakeRef dedup true b vals eIN).2.getD (MakeRef dedup true b vals eIN).1 0 =
        vals.length ∧
      GetSpan (MakeRef dedup true b vals eIN).2 (MakeRef dedup true b vals eIN).1 =
        vals := by
  obtain ⟨bs, rfl⟩ := hb
  cases hfind : (if dedup then Find true (blocksFlat bs) vals else none) with
  | some o =>
    rw [MakeRef_eq_found dedup true (blocksFlat bs) vals eIN o hne hfind]
    have hf : Find true (blocksFlat bs) vals = some o := by
      cases dedup <;> simp_all
    rw [Find_blocksFlat] at hf
    obtain ⟨x, y, rfl, rfl⟩ := blockScan_some_decomp bs vals _ hf
    have hlen : (blocksFlat (x ++ vals :: y)).length =
        (blocksFlat x).length + (1 + vals.length) + (blocksFlat y).length := by
      rw [blocksFlat_append, List.length_append, length_blocksFlat_cons]
      omega
    refine ⟨⟨[], by simp⟩, ⟨x ++ vals :: y, rfl⟩, by dsimp only; omega,
      blocksFlat_getD_boundary x vals y, ?_⟩
    rw [GetSpan, blocksFlat_getD_boundary x vals y]
    exact blocksFlat_readWords_boundary x vals y
  | none =>
    rw [MakeRef_eq_append_pfx dedup (blocksFlat bs) vals eIN hne hfind]
    have hshape : blocksFlat bs ++ [vals.length] ++ vals = blocksFlat (bs ++ [vals]) := by
      rw [blocksFlat_append]
      simp [blocksFlat]
    refine ⟨⟨[vals.length] ++ vals, by simp⟩, ⟨bs ++ [vals], by rw [← hshape]⟩,
      ?_, ?_, ?_⟩
    · rw [hshape, blocksFlat_append, List.length_append, length_blocksFlat_cons]
      simp [blocksFlat]
      omega
    · rw [hshape]
      exact blocksFlat_getD_boundary bs vals []
    · rw [hshape, GetSpan, blocksFlat_getD_boundary bs vals []]
      exact blocksFlat_readWords_boundary bs vals []

/-- A successful unprefixed scan returns a subset match: the buffer agrees
with the requested values on the first `vals.length` elements from the
returned offset. -/
theorem FindAux_unprefixed_some (b vals : List Nat) :
    ∀ fuel offs o, FindAux false b vals fuel offs = some o →
      offs ≤ o ∧ o + vals.length ≤ b.length ∧ readWords b o vals.length = vals := by
  intro fuel
  induction fuel with
  | zero => intro offs o h; simp [FindAux] at h
  | succ f ih =>
    intro offs o h
    rw [FindAux] at h
    by_cases hlt : offs < b.length
    · simp only [hlt, if_true] at h
      by_cases hc : vals.length ≤ b.length - offs ∧ readWords b offs vals.length = vals
      · rw [if_pos (by simpa using hc)] at h
        cases h
        exact ⟨Nat.le_refl _, by omega, hc.2⟩
      · rw [if_neg (by simpa using hc)] at h
        obtain ⟨h1, h2, h3⟩ := ih (offs + 1) o h
        exact ⟨by omega, h2, h3⟩
    · simp [hlt] at h

/-- The unprefixed scan tries every offset, so it cannot miss an existing
subset match (completeness). -/
theorem FindAux_unprefixed_complete (b vals : List Nat) (hv : vals ≠ []) :
    ∀ fuel offs o, offs ≤ o → o + vals.length ≤ b.length →
      readWords b o vals.length = vals → o < fuel + offs →
      (FindAux false b vals fuel offs).isSome = true := by
  intro fuel
  induction fuel with
  | zero => intro offs o h1 _ _ h4; omega
  | succ f ih =>
    intro offs o h1 h2 h3 h4
    have hvlen : 1 ≤ vals.length := by
      cases vals with
      | nil => exact absurd rfl hv
      | cons _ _ => simp
    have hofs : offs < b.length := by omega
    rw [FindAux]
    simp only [hofs, if_true]
    by_cases hc : (vals.length ≤ b.length - offs) ∧ readWords b offs vals.length = vals
    · rw [if_pos (by simpa using hc)]
      rfl
    · rw [if_neg (by simpa using hc)]
      have hne : offs ≠ o := by
        rintro rfl
        exact hc ⟨by omega, h3⟩
      exact ih (offs + 1) o (by omega) h2 h3 (by omega)

end IndexArrays

/-! ### Byte-blob table

`MakeBytesRef` interns opaque byte blobs (root-signature bytes) into a list
of individual blobs, deduplicating by whole-blob equality; offsets are
cumulative byte sizes.  The blobs are concatenated into the single `RawBytes`
buffer only at encode finalisation. -/

/-- `rdcarray::indexOf`: index of the first equal blob. -/
def indexOfBlob (bytesblobs : List (List Nat)) (bytes : List Nat) : Option Nat :=
  match bytesblobs with
  | [] => none
  | a :: rest =>
    if a = bytes then some 0 else (indexOfBlob rest bytes).map (· + 1)

/-- Total byte size of a blob list (the cumulative-offset computation). -/
def blobsByteSize : List (List Nat) → Nat
  | [] => 0
  | a :: rest => a.length + blobsByteSize rest

/-- Concatenation of the blob list into the physical `RawBytes` buffer. -/
def catBlobs : List (List Nat) → List Nat
  | [] => []
  | a :: rest => a ++ catBlobs rest

/-- `MakeBytesRef` from `dxil_metadata.cpp`: sentinel for empty bytes, else
whole-blob dedup with cumulative byte offsets. -/
def MakeBytesRef (bytesblobs : List (List Nat)) (bytes : List Nat) :
    (Nat × Nat) × List (List Nat) :=
  if bytes = [] then ((SENTINEL, 0), bytesblobs)
  else
    match indexOfBlob bytesblobs bytes with
    | none => ((blobsByteSize bytesblobs, bytes.length), bytesblobs ++ [bytes])
    | some i => ((blobsByteSize (bytesblobs.take i), bytes.length), bytesblobs)

theorem length_catBlobs (blobs : List (List Nat)) :
    (catBlobs blobs).length = blobsByteSize blobs := by
  induction blobs with
  | nil => rfl
  | cons a rest ih => simp [catBlobs, blobsByteSize, ih]

theorem catBlobs_append (x y : List (List Nat)) :
    catBlobs (x ++ y) = catBlobs x ++ catBlobs y := by
  induction x with
  | nil => simp [catBlobs]
  | cons a rest ih => simp [catBlobs, ih]

theorem blobsByteSize_append (x y : List (List Nat)) :
    blobsByteSize (x ++ y) = blobsByteSize x + blobsByteSize y := by
  induction x with
  | nil => simp [blobsByteSize]
  | cons a rest ih => simp [blobsByteSize, ih]; omega

theorem indexOfBlob_some_decomp (blobs : List (List Nat)) (bytes : List Nat)
    (i : Nat) (h : indexOfBlob blobs bytes = some i) :
    ∃ x y, blobs = x ++ bytes :: y ∧ i = x.length := by
  induction blobs generalizing i with
  | nil => simp [indexOfBlob] at h
  | cons a rest ih =>
    rw [indexOfBlob] at h
    by_cases hab : a = bytes
    · rw [if_pos hab] at h
      cases h
      exact ⟨[], rest, by simp [hab], by simp⟩
    · rw [if_neg hab] at h
      cases hr : indexOfBlob rest bytes with
      | none => rw [hr] at h; simp at h
      | some i' =>
        rw [hr] at h
        simp only [Option.map_some'] at h
        have hi : i = i' + 1 := (Option.some.inj h).symm
        obtain ⟨x, y, hxy, hix⟩ := ih i' hr
        exact ⟨a :: x, y, by simp [hxy], by simp [hi, hix]⟩

/-- Specification of `MakeBytesRef` for nonempty bytes: the returned
`(offset, size)` pair designates exactly the interned bytes within the
concatenated buffer of the returned blob list, and the blob list only
grows. -/
theorem MakeBytesRef_spec (blobs : List (List Nat)) (bytes : List Nat)
    (hb : bytes ≠ []) :
    (∃ ext, (MakeBytesRef blobs bytes).2 = blobs ++ ext) ∧
      (MakeBytesRef blobs bytes).1.2 = bytes.length ∧
      (MakeBytesRef blobs bytes).1.1 + bytes.length ≤
        blobsByteSize (MakeBytesRef blobs bytes).2 ∧
      readBytes (catBlobs (MakeBytesRef blobs bytes).2)
        (MakeBytesRef blobs bytes).1.1 bytes.length = bytes := by
  unfold MakeBytesRef
  rw [if_neg hb]
  cases hidx : indexOfBlob blobs bytes with
  | none =>
    refine ⟨⟨[bytes], rfl⟩, rfl, ?_, ?_⟩
    · dsimp only
      rw [blobsByteSize_append]
      simp only [blobsByteSize]
      omega
    · dsimp only
      rw [catBlobs_append, ← length_catBlobs]
      rw [show catBlobs [bytes] = bytes ++ [] by simp [catBlobs]]
      rw [show (catBlobs blobs).length = (catBlobs blobs).length + 0 by omega,
        readBytes_append_skip]
      exact readBytes_append_exact bytes []
  | some i =>
    obtain ⟨x, y, rfl, rfl⟩ := indexOfBlob_some_decomp blobs bytes i hidx
    have htake : (x ++ bytes :: y).take x.length = x := List.take_left x (bytes :: y)
    refine ⟨⟨[], by simp⟩, rfl, ?_, ?_⟩
    · dsimp only
      rw [htake, blobsByteSize_append]
      simp only [blobsByteSize]
      omega
    · dsimp only
      rw [htake, catBlobs_append, ← length_catBlobs,
        show catBlobs (bytes :: y) = bytes ++ catBlobs y from rfl,
        show (catBlobs x).length = (catBlobs x).length + 0 by omega,
        readBytes_append_skip]
      exact readBytes_append_exact bytes (catBlobs y)

/-- Modelled from the spec: `ResourceInfo` (data model section); the decoded
form of one resource-table record.  `resourceIndex` is the `LinearID` of the
encoded record; `(nspace, resourceIndex)` identifies the resource for
cross-referencing from functions. -/
structure ResourceInfo where
  nspace : Nat
  kind : Nat
  resourceIndex : Nat
  space : Nat
  regStart : Nat
  regEnd : Nat
  name : List Nat
  flags : Nat
deriving DecidableEq

/-- Modelled from the spec: the function-record version tag carried on
`RDATData` (v1 or v2, distinguished on the wire by stride). -/
inductive FunctionInfoVersion where
  | version1
  | version2
deriving DecidableEq

/-- Modelled from the spec: `FunctionInfo2` (data model section); the decoded
form of one function-table record.  The v2-only fields default to zero wave
counts, no behaviour flags and an absent (`SENTINEL`) extra-info reference —
the spec notes the extra-info reference is "currently always absent", and a
v1 decode leaves these fields at their defaults. -/
structure FunctionInfo2 where
  name : List Nat
  unmangledName : List Nat
  globalResources : List (Nat × Nat)
  functionDependencies : List (List Nat)
  type : Nat
  payloadBytes : Nat
  attribBytes : Nat
  featureFlags : Nat
  shaderCompatMask : Nat
  minShaderModel : Nat
  minType : Nat
  minWaveCount : Nat := 0
  maxWaveCount : Nat := 0
  shaderBehaviourFlags : Nat := 0
  extraInfoRef : Nat := SENTINEL
deriving DecidableEq

/-- Modelled from the spec: the subobject payload, "a tagged variant keyed by
`type`" (data model section).  `GlobalRS`/`LocalRS` share the byte-range
payload and `RTPipeConfig`/`RTPipeConfig1` share the config payload, exactly
as the decoder treats them; an unknown type's payload is not decoded. -/
inductive SubobjectPayload where
  | stateConfig (flags : Nat)
  | rs (data : List Nat)
  | assoc (subobject : List Nat) (exports : List (List Nat))
  | rtShaderConfig (maxPayloadBytes maxAttribBytes : Nat)
  | rtPipeConfig (maxRecursion flags : Nat)
  | hitgroup (hgType : Nat) (anyHit closestHit intersection : List Nat)
  | undecoded
deriving DecidableEq

/-- Modelled from the spec: `SubobjectInfo` — a numeric type tag, a name and
the payload variant. -/
structure SubobjectInfo where
  ty : Nat
  name : List Nat
  payload : SubobjectPayload
deriving DecidableEq

/-- Modelled from the spec: the root `RDATData` value. -/
structure RDATData where
  resourceInfo : List ResourceInfo
  functionVersion : FunctionInfoVersion := .version1
  functionInfo : List FunctionInfo2
  subobjectsInfo : List SubobjectInfo
deriving DecidableEq

/-- A default-constructed `RDATData` (what a caller passes to the decoder). -/
def RDATData.empty : RDATData := ⟨[], .version1, [], []⟩

/-! Wire constants.  The numeric values of the part tags, the version word
and the subobject type tags come from `dxil_metadata.h` (not among the
sources); they are modelled from the spec with the DXC values — only their
distinctness is observable in the codec. -/

def partStringBuffer : Nat := 1

def partIndexArrays : Nat := 2

def partResourceTable : Nat := 3

def partFunctionTable : Nat := 4

def partRawBytes : Nat := 5

def partSubobjectTable : Nat := 6

/-- `RDATData::Version1_0`. -/
def Version1_0 : Nat := 16

def subStateConfig : Nat := 0

def subGlobalRS : Nat := 1

def subLocalRS : Nat := 2

def subAssoc : Nat := 8

def subRTShaderConfig : Nat := 9

def subRTPipeConfig : Nat := 10

def subHitgroup : Nat := 11

def subRTPipeConfig1 : Nat := 12

/-! ### Encoded (serialised) records

These mirror `EncodedResourceInfo`, `EncodedFunctionInfo`,
`EncodedFunctionInfo2` and `EncodedSubobjectInfo` of `dxil_metadata.cpp`,
together with their byte layouts (`sizeof` 32, 44, 52 and 24 respectively).
The three padding bytes after the one-byte shader-type field, and the unused
tail of the subobject payload union, are written as zero (the C++ aggregates
value-initialise the union and memcpy the struct). -/

structure EncodedResourceInfo where
  nspace : Nat
  kind : Nat
  LinearID : Nat
  space : Nat
  regStart : Nat
  regEnd : Nat
  name : Nat
  flags : Nat

/-- Word layout of `EncodedResourceInfo` (eight u32 fields). -/
def resourceWords (e : EncodedResourceInfo) : List Nat :=
  [e.nspace, e.kind, e.LinearID, e.space, e.regStart, e.regEnd, e.name, e.flags]

/-- Byte layout of `EncodedResourceInfo` (32 bytes, eight u32 fields). -/
def serializeResource (e : EncodedResourceInfo) : List Nat :=
  wordsToBytes (resourceWords e)

structure EncodedFunctionInfo where
  name : Nat
  unmangledName : Nat
  globalResourcesIndexArrayRef : Nat
  functionDependenciesArrayRef : Nat
  type : Nat
  payloadBytes : Nat
  attribBytes : Nat
  featureFlags0 : Nat
  featureFlags1 : Nat
  shaderCompatMask : Nat
  minShaderModel : Nat
  minType : Nat

/-- Word layout of `EncodedFunctionInfo` (eleven u32 words = 44 bytes): four
u32 refs; the one-byte shader type, its three union-padding bytes zero;
three u32s plus the two-u32 feature flags; and the two u16s
(`minShaderModel`, `minType`) little-endian-packed into the final word. -/
def functionWords (e : EncodedFunctionInfo) : List Nat :=
  [e.name, e.unmangledName, e.globalResourcesIndexArrayRef,
   e.functionDependenciesArrayRef, e.type % 256, e.payloadBytes, e.attribBytes,
   e.featureFlags0, e.featureFlags1, e.shaderCompatMask,
   e.minShaderModel % 65536 + 65536 * (e.minType % 65536)]

/-- Byte layout of `EncodedFunctionInfo` (44 bytes). -/
def serializeFunction (e : EncodedFunctionInfo) : List Nat :=
  wordsToBytes (functionWords e)

structure EncodedFunctionInfo2 where
  info1 : EncodedFunctionInfo
  minWaveCount : Nat
  maxWaveCount : Nat
  shaderBehaviourFlags : Nat
  extraInfoRef : Nat

/-- Word layout of `EncodedFunctionInfo2` (thirteen u32 words = 52 bytes):
the v1 record, then the two u8 wave counts and the u16 behaviour flags
little-endian-packed into one word, then the u32 extra-info ref. -/
def function2Words (e : EncodedFunctionInfo2) : List Nat :=
  functionWords e.info1 ++
    [e.minWaveCount % 256 + 256 * (e.maxWaveCount % 256) +
       65536 * (e.shaderBehaviourFlags % 65536),
     e.extraInfoRef]

/-- Byte layout of `EncodedFunctionInfo2` (52 bytes). -/
def serializeFunction2 (e : EncodedFunctionInfo2) : List Nat :=
  wordsToBytes (function2Words e)

/-- The encoded subobject payload union (16 bytes on the wire). -/
inductive EncodedSubPayload where
  | config (flags : Nat)
  | rs (offset size : Nat)
  | assoc (subobject exports : Nat)
  | rtshaderconfig (maxPayloadBytes maxAttribBytes : Nat)
  | rtpipeconfig (maxRecursion flags : Nat)
  | hitgroup (hgType anyHit closestHit intersection : Nat)
  | zero

/-- Word layout of the 16-byte payload union (four u32 words); inactive
tail words are the value-initialised zeros. -/
def subPayloadWords : EncodedSubPayload → List Nat
  | .config f => [f, 0, 0, 0]
  | .rs o s => [o, s, 0, 0]
  | .assoc a b => [a, b, 0, 0]
  | .rtshaderconfig a b => [a, b, 0, 0]
  | .rtpipeconfig a b => [a, b, 0, 0]
  | .hitgroup t a c i => [t, a, c, i]
  | .zero => [0, 0, 0, 0]

structure EncodedSubobjectInfo where
  ty : Nat
  name : Nat
  payload : EncodedSubPayload

/-- Word layout of `EncodedSubobjectInfo` (six u32 words = 24 bytes: type,
name, 16-byte union). -/
def subobjectWords (e : EncodedSubobjectInfo) : List Nat :=
  [e.ty, e.name] ++ subPayloadWords e.payload

/-- Byte layout of `EncodedSubobjectInfo` (24 bytes). -/
def serializeSubobject (e : EncodedSubobjectInfo) : List Nat :=
  wordsToBytes (subobjectWords e)

/-! ### Encoder (`DXBCContainer::SetRuntimeData`)

The encoder's non-fatal `RDCASSERT`s (a global-resource pair missing from the
resource sequence; a non-sentinel extra-info reference) log and continue in
the C++; the model performs the same data flow without a diagnostic
channel. -/

/-- Intern a list of strings in order, keeping only the final blob (the
dependency pre-pass). -/
def internStrings : List (List Nat) → List Nat → List Nat
  | [], blob => blob
  | s :: rest, blob => internStrings rest (StringBuffer.MakeRef true blob s).2

/-- The pre-pass over function dependencies: intern every dependency name of
every function, before any function's own name is interned. -/
def prepassDeps : List FunctionInfo2 → List Nat → List Nat
  | [], blob => blob
  | f :: rest, blob => prepassDeps rest (internStrings f.functionDependencies blob)

/-- Intern a list of strings in order, collecting the returned offsets (the
per-function dependency array and the per-subobject exports array). -/
def internStringRefs : List (List Nat) → List Nat → List Nat × List Nat
  | [], blob => ([], blob)
  | s :: rest, blob =>
    let r := StringBuffer.MakeRef true blob s
    let rest' := internStringRefs rest r.2
    (r.1 :: rest'.1, rest'.2)

/-- `rdcarray::indexOf` over the resource sequence, comparing on the
`(resourceClass, linearId)` identification pair. -/
def pairIndexOfAux : List ResourceInfo → Nat × Nat → Option Nat
  | [], _ => none
  | ri :: rest, p =>
    if ri.nspace = p.1 ∧ ri.resourceIndex = p.2 then some 0
    else (pairIndexOfAux rest p).map (· + 1)

/-- `indexOf` with the not-found result `-1` pushed through the `uint32_t`
cast (`(uint32_t)(-1) = 0xFFFFFFFF`). -/
def pairIndexOf (resList : List ResourceInfo) (p : Nat × Nat) : Nat :=
  (pairIndexOfAux resList p).getD SENTINEL

/-- Encode the resource table, interning names with dedup in input order. -/
def encodeResources : List ResourceInfo → List Nat →
    List EncodedResourceInfo × List Nat
  | [], blob => ([], blob)
  | r :: rest, blob =>
    let rn := StringBuffer.MakeRef true blob r.name
    let tail := encodeResources rest rn.2
    ({ nspace := r.nspace, kind := r.kind, LinearID := r.resourceIndex,
       space := r.space, regStart := r.regStart, regEnd := r.regEnd,
       name := rn.1, flags := r.flags } :: tail.1, tail.2)

/-- The per-function encoding shared by the v1 and v2 loops: build the
global-resource index array, intern dependency names (again) into offsets,
intern name and unmangled name, intern the two index arrays with
empty-is-null, and split the 64-bit feature flags. -/
def encodeFunctionCommon (resList : List ResourceInfo) (f : FunctionInfo2)
    (blob ibuf : List Nat) : EncodedFunctionInfo × List Nat × List Nat :=
  let globArr := f.globalResources.map (pairIndexOf resList)
  let deps := internStringRefs f.functionDependencies blob
  let rname := StringBuffer.MakeRef true deps.2 f.name
  let runm := StringBuffer.MakeRef true rname.2 f.unmangledName
  let rglob := IndexArrays.MakeRef true true ibuf globArr true
  let rdeps := IndexArrays.MakeRef true true rglob.2 deps.1 true
  ({ name := rname.1, unmangledName := runm.1,
     globalResourcesIndexArrayRef := rglob.1,
     functionDependenciesArrayRef := rdeps.1,
     type := f.type, payloadBytes := f.payloadBytes,
     attribBytes := f.attribBytes,
     featureFlags0 := f.featureFlags % 4294967296,
     featureFlags1 := f.featureFlags / 4294967296,
     shaderCompatMask := f.shaderCompatMask,
     minShaderModel := f.minShaderModel, minType := f.minType },
   runm.2, rdeps.2)

/-- The v1 function-encoding loop. -/
def encodeFunctionsV1 : List FunctionInfo2 → List ResourceInfo →
    List Nat → List Nat → List EncodedFunctionInfo × List Nat × List Nat
  | [], _, blob, ibuf => ([], blob, ibuf)
  | f :: rest, resList, blob, ibuf =>
    let r := encodeFunctionCommon resList f blob ibuf
    let tail := encodeFunctionsV1 rest resList r.2.1 r.2.2
    (r.1 :: tail.1, tail.2)

/-- The v2 function-encoding loop; the extra-info reference is written as the
literal sentinel (the C++ asserts the input's is the sentinel and pushes
`{~0U}`). -/
def encodeFunctionsV2 : List FunctionInfo2 → List ResourceInfo →
    List Nat → List Nat → List EncodedFunctionInfo2 × List Nat × List Nat
  | [], _, blob, ibuf => ([], blob, ibuf)
  | f :: rest, resList, blob, ibuf =>
    let r := encodeFunctionCommon resList f blob ibuf
    let tail := encodeFunctionsV2 rest resList r.2.1 r.2.2
    ({ info1 := r.1, minWaveCount := f.minWaveCount,
       maxWaveCount := f.maxWaveCount,
       shaderBehaviourFlags := f.shaderBehaviourFlags,
       extraInfoRef := SENTINEL } :: tail.1, tail.2)

/-- Encode one subobject payload, dispatching on the numeric type tag as the
C++ `switch` does.  A payload variant not matching the tag reads as the
value-initialised union (all zero); an unrecognised tag leaves the union
value-initialised (`RDCWARN` case). -/
def encodeSubPayload (ty : Nat) (p : SubobjectPayload)
    (blob ibuf : List Nat) (blobs : List (List Nat)) :
    EncodedSubPayload × List Nat × List Nat × List (List Nat) :=
  if ty = subStateConfig then
    (match p with
     | .stateConfig f => .config f
     | _ => .zero, blob, ibuf, blobs)
  else if ty = subGlobalRS ∨ ty = subLocalRS then
    match p with
    | .rs data =>
      let r := MakeBytesRef blobs data
      (.rs r.1.1 r.1.2, blob, ibuf, r.2)
    | _ => (.zero, blob, ibuf, blobs)
  else if ty = subAssoc then
    match p with
    | .assoc subobj exports =>
      let rsub := StringBuffer.MakeRef true blob subobj
      let rexp := internStringRefs exports rsub.2
      let ridx := IndexArrays.MakeRef true true ibuf rexp.1 false
      (.assoc rsub.1 ridx.1, rexp.2, ridx.2, blobs)
    | _ => (.zero, blob, ibuf, blobs)
  else if ty = subRTShaderConfig then
    (match p with
     | .rtShaderConfig a b => .rtshaderconfig a b
     | _ => .zero, blob, ibuf, blobs)
  else if ty = subRTPipeConfig ∨ ty = subRTPipeConfig1 then
    (match p with
     | .rtPipeConfig a b => .rtpipeconfig a b
     | _ => .zero, blob, ibuf, blobs)
  else if ty = subHitgroup then
    match p with
    | .hitgroup t a c i =>
      let ra := StringBuffer.MakeRef true blob a
      let rc := StringBuffer.MakeRef true ra.2 c
      let ri := StringBuffer.MakeRef true rc.2 i
      (.hitgroup t ra.1 rc.1 ri.1, ri.2, ibuf, blobs)
    | _ => (.zero, blob, ibuf, blobs)
  else
    (.zero, blob, ibuf, blobs)

/-- The subobject-encoding loop: intern the name, then the payload. -/
def encodeSubobjects : List SubobjectInfo → List Nat → List Nat →
    List (List Nat) →
    List EncodedSubobjectInfo × List Nat × List Nat × List (List Nat)
  | [], blob, ibuf, blobs => ([], blob, ibuf, blobs)
  | s :: rest, blob, ibuf, blobs =>
    let rname := StringBuffer.MakeRef true blob s.name
    let rp := encodeSubPayload s.ty s.payload rname.2 ibuf blobs
    let tail := encodeSubobjects rest rp.2.1 rp.2.2.1 rp.2.2.2
    ({ ty := s.ty, name := rname.1, payload := rp.1 } :: tail.1, tail.2)

/-- `BakeRuntimePart`: skip empty payloads, else the 8-byte part header
(tag, aligned size) followed by the zero-padded payload. -/
def BakeRuntimePart (tag : Nat) (data : List Nat) : List Nat :=
  if data.length = 0 then []
  else writeU32 tag ++ writeU32 (AlignUp4 data.length) ++ pad4 data

/-- `BakeRuntimeTablePart`: skip empty tables, else the part header, the
(count, stride) table header and the packed records. -/
def BakeRuntimeTablePart (tag : Nat) (recs : List (List Nat))
    (recSize : Nat) : List Nat :=
  if recs.length = 0 then []
  else
    writeU32 tag ++ writeU32 (AlignUp4 (recs.length * recSize) + 8) ++
      writeU32 recs.length ++ writeU32 (AlignUp4 recSize) ++
      pad4 (List.flatten recs)

/-- The absolute part offsets, accumulating each part's (already aligned)
byte size from the post-header base. -/
def partOffsetList : List (List Nat) → Nat → List Nat
  | [], _ => []
  | p :: rest, base => base :: partOffsetList rest (base + p.length)

/-- `DXBCContainer::SetRuntimeData`, up to the final `ReplaceChunk` (chunk
replacement in the container is out of scope): produce the RDAT region's
byte sequence — header (version, part count, part offsets) followed by the
parts baked in the fixed order StringBuffer, ResourceTable, FunctionTable,
IndexArrays, RawBytes, SubobjectTable (empty parts omitted). -/
def SetRuntimeData (rdat : RDATData) : List Nat :=
  let r1 := encodeResources rdat.resourceInfo StringBuffer.init
  let blob1 := prepassDeps rdat.functionInfo r1.2
  let fnStage :=
    match rdat.functionVersion with
    | .version1 =>
      let fr := encodeFunctionsV1 rdat.functionInfo rdat.resourceInfo blob1 []
      (BakeRuntimeTablePart partFunctionTable (fr.1.map serializeFunction) 44,
       fr.2.1, fr.2.2)
    | .version2 =>
      let fr := encodeFunctionsV2 rdat.functionInfo rdat.resourceInfo blob1 []
      (BakeRuntimeTablePart partFunctionTable (fr.1.map serializeFunction2) 52,
       fr.2.1, fr.2.2)
  let sr := encodeSubobjects rdat.subobjectsInfo fnStage.2.1 fnStage.2.2 []
  let rawbytes := catBlobs sr.2.2.2
  let parts :=
    [BakeRuntimePart partStringBuffer sr.2.1,
     BakeRuntimeTablePart partResourceTable (r1.1.map serializeResource) 32,
     fnStage.1,
     BakeRuntimePart partIndexArrays (wordsToBytes sr.2.2.1),
     BakeRuntimePart partRawBytes rawbytes,
     BakeRuntimeTablePart partSubobjectTable (sr.1.map serializeSubobject) 24
    ].filter fun p => !p.isEmpty
  writeU32 Version1_0 ++ writeU32 parts.length ++
    wordsToBytes (partOffsetList parts (8 + 4 * parts.length)) ++
    List.flatten parts

/-- Modelled from the spec: the pipeline-state-validation payload; its
content is out of scope (only a presence check exists in the codec), so it
is carried as opaque bytes. -/
structure PSVData where
  data : List Nat
deriving DecidableEq

/-- `DXBCContainer::SetPipelineValidation`: the function body is empty — the
bytecode buffer is returned unchanged. -/
def SetPipelineValidation (byteCode : List Nat) (psv : PSVData) : List Nat :=
  byteCode

/-! ### Decoder (`DXBCContainer::GetRuntimeData`)

The decoder's `RDCASSERT`/`RDCWARN` calls log and continue in the C++; they
are modelled as `Diag` values collected alongside the result. -/

/-- The non-fatal diagnostics the decoder can log. -/
inductive Diag where
  | assertResourceStride (stride : Nat)
  | assertFunctionStride (stride : Nat)
  | assertSubobjectStride (stride : Nat)
  | assertExtraInfo
  | assertRTPipeFlags
  | warnSubobject (ty : Nat)
  | warnPart (tag : Nat)
deriving DecidableEq

/-- The decoder's result: the C++ returns a `bool` and fills the by-reference
`RDATData`; the diagnostics channel models its non-fatal logging. -/
structure DecodeResult where
  ok : Bool
  rdat : RDATData
  diags : List Diag
deriving DecidableEq

/-- The out-of-bounds resource lookup target (`rdat.resourceInfo[ix]` is
undefined behaviour in the C++ when `ix` is out of range; well-formed inputs
never reach it). -/
def defaultResourceInfo : ResourceInfo := ⟨0, 0, 0, 0, 0, 0, [], 0⟩

/-- Decode one 32-byte resource record at `base`. -/
def decodeResourceRecord (inb : List Nat) (base : Nat) (sb : List Nat) :
    ResourceInfo :=
  { nspace := readU32 inb base
    kind := readU32 inb (base + 4)
    resourceIndex := readU32 inb (base + 8)
    space := readU32 inb (base + 12)
    regStart := readU32 inb (base + 16)
    regEnd := readU32 inb (base + 20)
    name := StringBuffer.GetString sb (readU32 inb (base + 24))
    flags := readU32 inb (base + 28) }

/-- Decode the resource-table part whose table header starts at `tbase`.
The stride is asserted to be the record size but the records are read at
`sizeof`-steps regardless (the C++ indexes `infos[i]`). -/
def decodeResourceTable (inb : List Nat) (tbase : Nat) (sb : List Nat)
    (rdat : RDATData) : RDATData × List Diag :=
  let count := readU32 inb tbase
  let stride := readU32 inb (tbase + 4)
  ({ rdat with
      resourceInfo := rdat.resourceInfo ++
        (List.range count).map fun i =>
          decodeResourceRecord inb (tbase + 8 + i * 32) sb },
   if stride = 32 then [] else [Diag.assertResourceStride stride])

/-- Decode one function record at `base` (v1 fields always; v2 extras when
`isV2`).  Sentinel references yield empty lists without touching the index
table; global-resource indices are mapped through the already-decoded
resource sequence; the feature flags are reassembled from their two 32-bit
halves; the extra-info reference is unconditionally the sentinel (v2
overwrites it after the assert, v1 leaves the default). -/
def decodeFunctionRecord (inb : List Nat) (base : Nat) (isV2 : Bool)
    (sb ib : List Nat) (resList : List ResourceInfo) : FunctionInfo2 :=
  let globRef := readU32 inb (base + 8)
  let depsRef := readU32 inb (base + 12)
  { name := StringBuffer.GetString sb (readU32 inb base)
    unmangledName := StringBuffer.GetString sb (readU32 inb (base + 4))
    globalResources :=
      if globRef = SENTINEL then []
      else
        (IndexArrays.GetSpan ib globRef).map fun ix =>
          ((resList.getD ix defaultResourceInfo).nspace,
           (resList.getD ix defaultResourceInfo).resourceIndex)
    functionDependencies :=
      if depsRef = SENTINEL then []
      else (IndexArrays.GetSpan ib depsRef).map fun r =>
        StringBuffer.GetString sb r
    type := readU8 inb (base + 16)
    payloadBytes := readU32 inb (base + 20)
    attribBytes := readU32 inb (base + 24)
    featureFlags := readU32 inb (base + 28) + 4294967296 * readU32 inb (base + 32)
    shaderCompatMask := readU32 inb (base + 36)
    minShaderModel := readU16 inb (base + 40)
    minType := readU16 inb (base + 42)
    minWaveCount := if isV2 then readU8 inb (base + 44) else 0
    maxWaveCount := if isV2 then readU8 inb (base + 45) else 0
    shaderBehaviourFlags := if isV2 then readU16 inb (base + 46) else 0
    extraInfoRef := SENTINEL }

/-- Decode the function-table part whose table header starts at `tbase`:
the version is v2 exactly when the stride equals the v2 record size (52),
v1 otherwise; a stride matching neither record size is an assertion
diagnostic but decoding proceeds (as v1) regardless, stepping by the
stride. -/
def decodeFunctionTable (inb : List Nat) (tbase : Nat) (sb ib : List Nat)
    (rdat : RDATData) : RDATData × List Diag :=
  let count := readU32 inb tbase
  let stride := readU32 inb (tbase + 4)
  let isV2 := stride = 52
  ({ rdat with
      functionVersion :=
        if isV2 then FunctionInfoVersion.version2 else FunctionInfoVersion.version1,
      functionInfo := rdat.functionInfo ++
        (List.range count).map fun i =>
          decodeFunctionRecord inb (tbase + 8 + i * stride) isV2 sb ib
            rdat.resourceInfo },
   (if stride = 52 ∨ stride = 44 then [] else [Diag.assertFunctionStride stride]) ++
     (if isV2 then
       ((List.range count).filter fun i =>
         decide (readU32 inb (tbase + 8 + i * stride + 48) ≠ SENTINEL)).map
           fun _ => Diag.assertExtraInfo
      else []))

/-- Decode one 24-byte subobject record at `base`, dispatching on the type
tag. -/
def decodeSubobjectRecord (inb : List Nat) (base : Nat) (sb ib raw : List Nat) :
    SubobjectInfo × List Diag :=
  let ty := readU32 inb base
  let name := StringBuffer.GetString sb (readU32 inb (base + 4))
  if ty = subStateConfig then
    (⟨ty, name, .stateConfig (readU32 inb (base + 8))⟩, [])
  else if ty = subGlobalRS ∨ ty = subLocalRS then
    (⟨ty, name,
      .rs (readBytes raw (readU32 inb (base + 8)) (readU32 inb (base + 12)))⟩, [])
  else if ty = subAssoc then
    let exportsRef := readU32 inb (base + 12)
    (⟨ty, name,
      .assoc (StringBuffer.GetString sb (readU32 inb (base + 8)))
        (if exportsRef = SENTINEL then []
         else (IndexArrays.GetSpan ib exportsRef).map fun r =>
           StringBuffer.GetString sb r)⟩, [])
  else if ty = subRTShaderConfig then
    (⟨ty, name, .rtShaderConfig (readU32 inb (base + 8)) (readU32 inb (base + 12))⟩, [])
  else if ty = subRTPipeConfig then
    (⟨ty, name, .rtPipeConfig (readU32 inb (base + 8)) (readU32 inb (base + 12))⟩,
     if readU32 inb (base + 12) = 0 then [] else [Diag.assertRTPipeFlags])
  else if ty = subRTPipeConfig1 then
    (⟨ty, name, .rtPipeConfig (readU32 inb (base + 8)) (readU32 inb (base + 12))⟩, [])
  else if ty = subHitgroup then
    (⟨ty, name,
      .hitgroup (readU32 inb (base + 8))
        (StringBuffer.GetString sb (readU32 inb (base + 12)))
        (StringBuffer.GetString sb (readU32 inb (base + 16)))
        (StringBuffer.GetString sb (readU32 inb (base + 20)))⟩, [])
  else
    (⟨ty, name, .undecoded⟩, [Diag.warnSubobject ty])

/-- Decode the subobject-table part whose table header starts at `tbase`
(records read at `sizeof`-steps of 24, stride asserted only). -/
def decodeSubobjectTable (inb : List Nat) (tbase : Nat) (sb ib raw : List Nat)
    (rdat : RDATData) : RDATData × List Diag :=
  let count := readU32 inb tbase
  let stride := readU32 inb (tbase + 4)
  let recs := (List.range count).map fun i =>
    decodeSubobjectRecord inb (tbase + 8 + i * 24) sb ib raw
  ({ rdat with subobjectsInfo := rdat.subobjectsInfo ++ recs.map (·.1) },
   (if stride = 24 then [] else [Diag.assertSubobjectStride stride]) ++
     (recs.map (·.2)).flatten)

/-- The three tables loaded by decode pass 1. -/
structure LoadedTables where
  stringbuffer : List Nat
  indexArrays : List Nat
  rawbytes : List Nat
deriving DecidableEq

/-- The pass-1 initial state: a fresh `StringBuffer(true)` (blob `"\0"`), a
fresh `IndexArrays(true, true)` (empty) and empty raw bytes. -/
def initTables : LoadedTables :=
  { stringbuffer := StringBuffer.init, indexArrays := [], rawbytes := [] }

/-- Decode pass 1: load the three intern tables; every other part tag is
ignored in this pass. -/
def loadPass (inb : List Nat) (offsets : List Nat) : LoadedTables :=
  offsets.foldl
    (fun st po =>
      let tag := readU32 inb po
      let size := readU32 inb (po + 4)
      if tag = partStringBuffer then
        { st with stringbuffer := readBytes inb (po + 8) size }
      else if tag = partIndexArrays then
        { st with indexArrays := bytesToWords (readBytes inb (po + 8) size) size }
      else if tag = partRawBytes then
        { st with rawbytes := readBytes inb (po + 8) size }
      else st)
    initTables

/-- Decode pass 2: decode the structured tables against the loaded intern
tables; the three blob tags are no-ops here; any other tag warns that the
part will not round-trip. -/
def decodePass (inb : List Nat) (offsets : List Nat) (t : LoadedTables)
    (rdat : RDATData) : RDATData × List Diag :=
  offsets.foldl
    (fun acc po =>
      let tag := readU32 inb po
      if tag = partStringBuffer ∨ tag = partIndexArrays ∨ tag = partRawBytes then
        acc
      else if tag = partResourceTable then
        let r := decodeResourceTable inb (po + 8) t.stringbuffer acc.1
        (r.1, acc.2 ++ r.2)
      else if tag = partFunctionTable then
        let r := decodeFunctionTable inb (po + 8) t.stringbuffer t.indexArrays acc.1
        (r.1, acc.2 ++ r.2)
      else if tag = partSubobjectTable then
        let r := decodeSubobjectTable inb (po + 8) t.stringbuffer t.indexArrays
          t.rawbytes acc.1
        (r.1, acc.2 ++ r.2)
      else (acc.1, acc.2 ++ [Diag.warnPart tag]))
    (rdat, [])

/-- `DXBCContainer::GetRuntimeData`: fail (`false`, untouched data) when the
RDAT region is absent (`m_RDATOffset == 0`) or its version word is not the
single supported value; otherwise run the two passes over the parts. -/
def GetRuntimeData (shaderBlob : List Nat) (rdatOffset : Nat)
    (rdat : RDATData) : DecodeResult :=
  if rdatOffset = 0 then ⟨false, rdat, []⟩
  else
    let inb := shaderBlob.drop rdatOffset
    if readU32 inb 0 ≠ Version1_0 then ⟨false, rdat, []⟩
    else
      let numParts := readU32 inb 4
      let offsets := (List.range numParts).map fun i => readU32 inb (8 + 4 * i)
      let t := loadPass inb offsets
      let r := decodePass inb offsets t rdat
      ⟨true, r.1, r.2⟩

/-! ### Round-trip development: reference validity

`StrRef`/`IdxRef`/`BytesRef` state that a reference produced by an interning
call designates the interned value in a buffer; each is stable under the
buffer growth produced by later interning calls. -/

/-- `r` designates the string `s` in blob `b`. -/
def StrRef (b : List Nat) (r : Nat) (s : List Nat) : Prop :=
  r < b.length ∧ StringBuffer.GetString b r = s

/-- `r` designates the length-prefixed array `vals` in word buffer `ib`. -/
def IdxRef (ib : List Nat) (r : Nat) (vals : List Nat) : Prop :=
  r + 1 + vals.length ≤ ib.length ∧ ib.getD r 0 = vals.length ∧
    IndexArrays.GetSpan ib r = vals

/-- `(off, sz)` designates `bytes` in the concatenation of the blob list. -/
def BytesRef (bl : List (List Nat)) (off sz : Nat) (bytes : List Nat) : Prop :=
  off + sz ≤ blobsByteSize bl ∧ sz = bytes.length ∧
    readBytes (catBlobs bl) off sz = bytes

theorem StrRef_mono (b b2 : List Nat) (r : Nat) (s : List Nat)
    (hw : StringBuffer.Wf b) (hext : ∃ ext, b2 = b ++ ext)
    (h : StrRef b r s) : StrRef b2 r s := by
  obtain ⟨ext, rfl⟩ := hext
  exact ⟨by have := h.1; simp only [List.length_append]; omega,
    by rw [StringBuffer.GetString_stable b ext r hw h.1]; exact h.2⟩

theorem GetSpan_mono (ib ext : List Nat) (r : Nat)
    (hb : r + 1 + ib.getD r 0 ≤ ib.length) :
    IndexArrays.GetSpan (ib ++ ext) r = IndexArrays.GetSpan ib r := by
  unfold IndexArrays.GetSpan
  rw [getD_append_lt ib ext r (by omega)]
  exact readBytes_append_lt ib ext (r + 1) (ib.getD r 0) (by omega)

theorem IdxRef_mono (ib ib2 : List Nat) (r : Nat) (vals : List Nat)
    (hext : ∃ ext, ib2 = ib ++ ext) (h : IdxRef ib r vals) : IdxRef ib2 r vals := by
  obtain ⟨ext, rfl⟩ := hext
  obtain ⟨h1, h2, h3⟩ := h
  refine ⟨by simp only [List.length_append]; omega,
    by rw [getD_append_lt ib ext r (by omega)]; exact h2, ?_⟩
  rw [GetSpan_mono ib ext r (by omega)]
  exact h3

theorem BytesRef_mono (bl bl2 : List (List Nat)) (off sz : Nat)
    (bytes : List Nat) (hext : ∃ ext, bl2 = bl ++ ext)
    (h : BytesRef bl off sz bytes) : BytesRef bl2 off sz bytes := by
  obtain ⟨ext, rfl⟩ := hext
  obtain ⟨h1, h2, h3⟩ := h
  refine ⟨by rw [blobsByteSize_append]; omega, h2, ?_⟩
  rw [catBlobs_append, readBytes_append_lt _ _ off sz (by rw [length_catBlobs]; omega)]
  exact h3

/-- `MakeRef` restated through `StrRef`. -/
theorem strMakeRef_ref (dedup : Bool) (b s : List Nat) (hs : nulFree s = true) :
    (∃ ext, (StringBuffer.MakeRef dedup b s).2 = b ++ ext) ∧
      StrRef (StringBuffer.MakeRef dedup b s).2 (StringBuffer.MakeRef dedup b s).1 s ∧
      (StringBuffer.Wf b → StringBuffer.Wf (StringBuffer.MakeRef dedup b s).2) := by
  obtain ⟨h1, h2, h3, h4⟩ := StringBuffer.MakeRef_spec dedup b s hs
  exact ⟨h1, ⟨h3, h2⟩, h4⟩

/-- Prefixed `MakeRef` restated through `IdxRef` (outside the sentinel
case). -/
theorem idxMakeRef_ref (dedup : Bool) (b vals : List Nat) (eIN : Bool)
    (hb : IndexArrays.WfIdx b) (hne : ¬(eIN = true ∧ vals = [])) :
    (∃ ext, (IndexArrays.MakeRef dedup true b vals eIN).2 = b ++ ext) ∧
      IdxRef (IndexArrays.MakeRef dedup true b vals eIN).2
        (IndexArrays.MakeRef dedup true b vals eIN).1 vals ∧
      IndexArrays.WfIdx (IndexArrays.MakeRef dedup true b vals eIN).2 := by
  obtain ⟨h1, h2, h3, h4, h5⟩ := IndexArrays.MakeRef_spec_prefixed dedup b vals eIN hb hne
  exact ⟨h1, ⟨h3, h4, h5⟩, h2⟩

/-- `MakeBytesRef` restated through `BytesRef` (nonempty bytes). -/
theorem makeBytesRef_ref (bl : List (List Nat)) (bytes : List Nat)
    (hb : bytes ≠ []) :
    (∃ ext, (MakeBytesRef bl bytes).2 = bl ++ ext) ∧
      BytesRef (MakeBytesRef bl bytes).2 (MakeBytesRef bl bytes).1.1
        (MakeBytesRef bl bytes).1.2 bytes := by
  obtain ⟨h1, h2, h3, h4⟩ := MakeBytesRef_spec bl bytes hb
  refine ⟨h1, ⟨?_, h2, ?_⟩⟩
  · rw [h2]
    exact h3
  · rw [h2]
    exact h4

/-! ### Round-trip development: encoder stage invariants -/

/-- `MakeRef` only ever appends (unconditionally). -/
theorem strMakeRef_ext (dedup : Bool) (b s : List Nat) :
    ∃ ext, (StringBuffer.MakeRef dedup b s).2 = b ++ ext := by
  cases hf : (if dedup then StringBuffer.Find b s else none) with
  | some o =>
    rw [StringBuffer.MakeRef_eq_found_str dedup b s o hf]
    exact ⟨[], by simp⟩
  | none =>
    rw [StringBuffer.MakeRef_eq_append_str dedup b s hf]
    exact ⟨s ++ [0], by simp⟩

theorem internStrings_ext (ss : List (List Nat)) (blob : List Nat) :
    ∃ ext, internStrings ss blob = blob ++ ext := by
  induction ss generalizing blob with
  | nil => exact ⟨[], by simp [internStrings]⟩
  | cons s rest ih =>
    obtain ⟨e1, he1⟩ := strMakeRef_ext true blob s
    obtain ⟨e2, he2⟩ := ih (StringBuffer.MakeRef true blob s).2
    exact ⟨e1 ++ e2, by rw [internStrings, he2, he1, List.append_assoc]⟩

theorem internStrings_wf (ss : List (List Nat)) (blob : List Nat)
    (hnf : ∀ s ∈ ss, nulFree s = true) (hw : StringBuffer.Wf blob) :
    StringBuffer.Wf (internStrings ss blob) := by
  induction ss generalizing blob with
  | nil => exact hw
  | cons s rest ih =>
    rw [internStrings]
    exact ih (StringBuffer.MakeRef true blob s).2 (fun t ht => hnf t (by simp [ht]))
      ((strMakeRef_ref true blob s (hnf s (by simp))).2.2 hw)

/-- Every string interned by `internStrings` is reachable in the resulting
blob. -/
theorem internStrings_mem (ss : List (List Nat)) (blob : List Nat)
    (hnf : ∀ s ∈ ss, nulFree s = true) (hw : StringBuffer.Wf blob) :
    ∀ s ∈ ss, ∃ o, StrRef (internStrings ss blob) o s := by
  induction ss generalizing blob with
  | nil => intro s hs; simp at hs
  | cons t rest ih =>
    intro s hs
    rw [internStrings]
    rcases List.mem_cons.mp hs with rfl | hs'
    · obtain ⟨hext, href, hwf⟩ := strMakeRef_ref true blob s (hnf s (by simp))
      exact ⟨(StringBuffer.MakeRef true blob s).1,
        StrRef_mono _ _ _ _ (hwf hw)
          (internStrings_ext rest (StringBuffer.MakeRef true blob s).2) href⟩
    · exact ih (StringBuffer.MakeRef true blob t).2
        (fun u hu => hnf u (by simp [hu]))
        ((strMakeRef_ref true blob t (hnf t (by simp))).2.2 hw) s hs'

theorem prepassDeps_ext (fs : List FunctionInfo2) (blob : List Nat) :
    ∃ ext, prepassDeps fs blob = blob ++ ext := by
  induction fs generalizing blob with
  | nil => exact ⟨[], by simp [prepassDeps]⟩
  | cons f rest ih =>
    obtain ⟨e1, he1⟩ := internStrings_ext f.functionDependencies blob
    obtain ⟨e2, he2⟩ := ih (internStrings f.functionDependencies blob)
    exact ⟨e1 ++ e2, by rw [prepassDeps, he2, he1, List.append_assoc]⟩

theorem prepassDeps_wf (fs : List FunctionInfo2) (blob : List Nat)
    (hnf : ∀ f ∈ fs, ∀ d ∈ f.functionDependencies, nulFree d = true)
    (hw : StringBuffer.Wf blob) : StringBuffer.Wf (prepassDeps fs blob) := by
  induction fs generalizing blob with
  | nil => exact hw
  | cons f rest ih =>
    rw [prepassDeps]
    exact ih (internStrings f.functionDependencies blob)
      (fun g hg => hnf g (by simp [hg]))
      (internStrings_wf f.functionDependencies blob (hnf f (by simp)) hw)

/-- After the dependency pre-pass, every dependency name of every function is
already present in the string blob. -/
theorem prepassDeps_mem (fs : List FunctionInfo2) (blob : List Nat)
    (hnf : ∀ f ∈ fs, ∀ d ∈ f.functionDependencies, nulFree d = true)
    (hw : StringBuffer.Wf blob) :
    ∀ f ∈ fs, ∀ d ∈ f.functionDependencies,
      ∃ o, StrRef (prepassDeps fs blob) o d := by
  induction fs generalizing blob with
  | nil => intro f hf; simp at hf
  | cons g rest ih =>
    intro f hf d hd
    rw [prepassDeps]
    rcases List.mem_cons.mp hf with rfl | hf'
    · obtain ⟨o, ho⟩ := internStrings_mem f.functionDependencies blob
        (hnf f (by simp)) hw d hd
      exact ⟨o, StrRef_mono _ _ _ _
        (internStrings_wf f.functionDependencies blob (hnf f (by simp)) hw)
        (prepassDeps_ext rest (internStrings f.functionDependencies blob)) ho⟩
    · exact ih (internStrings g.functionDependencies blob)
        (fun u hu => hnf u (by simp [hu]))
        (internStrings_wf g.functionDependencies blob (hnf g (by simp)) hw)
        f hf' d hd

/-- Specification of `internStringRefs`: the blob grows well-formedly and
each returned offset designates the corresponding input string in the
resulting blob. -/
theorem internStringRefs_spec (ss : List (List Nat)) (blob : List Nat)
    (hnf : ∀ s ∈ ss, nulFree s = true) (hw : StringBuffer.Wf blob) :
    (∃ ext, (internStringRefs ss blob).2 = blob ++ ext) ∧
      StringBuffer.Wf (internStringRefs ss blob).2 ∧
      (internStringRefs ss blob).1.length = ss.length ∧
      ∀ i < ss.length,
        StrRef (internStringRefs ss blob).2
          ((internStringRefs ss blob).1.getD i 0) (ss.getD i []) := by
  induction ss generalizing blob with
  | nil =>
    exact ⟨⟨[], by simp [internStringRefs]⟩, hw, rfl,
      fun i hi => absurd hi (by simp)⟩
  | cons s rest ih =>
    obtain ⟨hext, href, hwf⟩ := strMakeRef_ref true blob s (hnf s (by simp))
    obtain ⟨⟨e2, he2⟩, hw2, hl2, hr2⟩ := ih (StringBuffer.MakeRef true blob s).2
      (fun u hu => hnf u (by simp [hu])) (hwf hw)
    refine ⟨?_, ?_, ?_, ?_⟩
    · obtain ⟨e1, he1⟩ := hext
      exact ⟨e1 ++ e2, by
        show (internStringRefs rest (StringBuffer.MakeRef true blob s).2).2 = _
        rw [he2, he1, List.append_assoc]⟩
    · exact hw2
    · show _ + 1 = _ + 1
      rw [hl2]
    · intro i hi
      cases i with
      | zero =>
        show StrRef (internStringRefs rest (StringBuffer.MakeRef true blob s).2).2
          (StringBuffer.MakeRef true blob s).1 s
        exact StrRef_mono _ _ _ _ (hwf hw) ⟨e2, he2⟩ href
      | succ j =>
        have h := hr2 j (by simpa using hi)
        show StrRef (internStringRefs rest (StringBuffer.MakeRef true blob s).2).2
          ((internStringRefs rest (StringBuffer.MakeRef true blob s).2).1.getD j 0)
          (rest.getD j [])
        exact h

/-- `MakeRef` only ever appends (unconditionally). -/
theorem idxMakeRef_ext (dedup pfx : Bool) (b vals : List Nat) (eIN : Bool) :
    ∃ ext, (IndexArrays.MakeRef dedup pfx b vals eIN).2 = b ++ ext := by
  by_cases hsent : eIN = true ∧ vals = []
  · rw [IndexArrays.MakeRef_eq_sentinel dedup pfx b vals eIN hsent]
    exact ⟨[], by simp⟩
  · cases hf : (if dedup then IndexArrays.Find pfx b vals else none) with
    | some o =>
      rw [IndexArrays.MakeRef_eq_found dedup pfx b vals eIN o hsent hf]
      exact ⟨[], by simp⟩
    | none =>
      rw [IndexArrays.MakeRef_eq_append dedup pfx b vals eIN hsent hf]
      exact ⟨(if pfx then [vals.length] else []) ++ vals, by simp⟩

theorem idxMakeRef_wf (dedup : Bool) (b vals : List Nat) (eIN : Bool)
    (hb : IndexArrays.WfIdx b) :
    IndexArrays.WfIdx (IndexArrays.MakeRef dedup true b vals eIN).2 := by
  by_cases hsent : eIN = true ∧ vals = []
  · rw [IndexArrays.MakeRef_eq_sentinel dedup true b vals eIN hsent]
    exact hb
  · exact (IndexArrays.MakeRef_spec_prefixed dedup b vals eIN hb hsent).2.1

theorem makeBytesRef_ext (bl : List (List Nat)) (bytes : List Nat) :
    ∃ ext, (MakeBytesRef bl bytes).2 = bl ++ ext := by
  by_cases hb : bytes = []
  · unfold MakeBytesRef
    rw [if_pos hb]
    exact ⟨[], by simp⟩
  · unfold MakeBytesRef
    rw [if_neg hb]
    cases indexOfBlob bl bytes with
    | none => exact ⟨[bytes], rfl⟩
    | some i => exact ⟨[], by simp⟩

/-! Default elements for `getD` indexing. -/

def dEncRes : EncodedResourceInfo := ⟨0, 0, 0, 0, 0, 0, 0, 0⟩

def dEncFn : EncodedFunctionInfo := ⟨0, 0, 0, 0, 0, 0, 0, 0, 0, 0, 0, 0⟩

def dEncFn2 : EncodedFunctionInfo2 := ⟨dEncFn, 0, 0, 0, 0⟩

def dEncSub : EncodedSubobjectInfo := ⟨0, 0, .zero⟩

def dFn : FunctionInfo2 :=
  { name := [], unmangledName := [], globalResources := [],
    functionDependencies := [], type := 0, payloadBytes := 0, attribBytes := 0,
    featureFlags := 0, shaderCompatMask := 0, minShaderModel := 0, minType := 0 }

def dSub : SubobjectInfo := ⟨0, [], .undecoded⟩

/-- The encoded resource record corresponds to the source `ResourceInfo`
relative to string blob `sb`. -/
def ResRecOk (sb : List Nat) (r : ResourceInfo) (e : EncodedResourceInfo) : Prop :=
  e.nspace = r.nspace ∧ e.kind = r.kind ∧ e.LinearID = r.resourceIndex ∧
    e.space = r.space ∧ e.regStart = r.regStart ∧ e.regEnd = r.regEnd ∧
    e.flags = r.flags ∧ StrRef sb e.name r.name

theorem ResRecOk_mono (sb sb2 : List Nat) (r : ResourceInfo)
    (e : EncodedResourceInfo) (hw : StringBuffer.Wf sb)
    (hext : ∃ ext, sb2 = sb ++ ext) (h : ResRecOk sb r e) : ResRecOk sb2 r e :=
  ⟨h.1, h.2.1, h.2.2.1, h.2.2.2.1, h.2.2.2.2.1, h.2.2.2.2.2.1, h.2.2.2.2.2.2.1,
    StrRef_mono sb sb2 e.name r.name hw hext h.2.2.2.2.2.2.2⟩

/-- Specification of the resource-encoding loop. -/
theorem encodeResources_spec (rs : List ResourceInfo) (blob : List Nat)
    (hnf : ∀ r ∈ rs, nulFree r.name = true) (hw : StringBuffer.Wf blob) :
    (∃ ext, (encodeResources rs blob).2 = blob ++ ext) ∧
      StringBuffer.Wf (encodeResources rs blob).2 ∧
      (encodeResources rs blob).1.length = rs.length ∧
      ∀ i < rs.length,
        ResRecOk (encodeResources rs blob).2 (rs.getD i defaultResourceInfo)
          ((encodeResources rs blob).1.getD i dEncRes) := by
  induction rs generalizing blob with
  | nil =>
    exact ⟨⟨[], by simp [encodeResources]⟩, hw, rfl,
      fun i hi => absurd hi (by simp)⟩
  | cons r rest ih =>
    obtain ⟨hext, href, hwf⟩ := strMakeRef_ref true blob r.name (hnf r (by simp))
    obtain ⟨⟨e2, he2⟩, hw2, hl2, hr2⟩ := ih (StringBuffer.MakeRef true blob r.name).2
      (fun u hu => hnf u (by simp [hu])) (hwf hw)
    refine ⟨?_, hw2, ?_, ?_⟩
    · obtain ⟨e1, he1⟩ := hext
      exact ⟨e1 ++ e2, by
        show (encodeResources rest (StringBuffer.MakeRef true blob r.name).2).2 = _
        rw [he2, he1, List.append_assoc]⟩
    · show _ + 1 = _ + 1
      rw [hl2]
    · intro i hi
      cases i with
      | zero =>
        show ResRecOk (encodeResources rest (StringBuffer.MakeRef true blob r.name).2).2 r _
        exact ⟨rfl, rfl, rfl, rfl, rfl, rfl, rfl,
          StrRef_mono _ _ _ _ (hwf hw) ⟨e2, he2⟩ href⟩
      | succ j =>
        have h := hr2 j (by simpa using hi)
        show ResRecOk (encodeResources rest (StringBuffer.MakeRef true blob r.name).2).2
          (rest.getD j defaultResourceInfo)
          ((encodeResources rest (StringBuffer.MakeRef true blob r.name).2).1.getD j dEncRes)
        exact h

/-- A found `pairIndexOfAux` result indexes a resource whose identification
pair is the sought one. -/
theorem pairIndexOfAux_some (resList : List ResourceInfo) (p : Nat × Nat)
    (j : Nat) (h : pairIndexOfAux resList p = some j) :
    j < resList.length ∧
      (resList.getD j defaultResourceInfo).nspace = p.1 ∧
      (resList.getD j defaultResourceInfo).resourceIndex = p.2 := by
  induction resList generalizing j with
  | nil => simp [pairIndexOfAux] at h
  | cons ri rest ih =>
    rw [pairIndexOfAux] at h
    by_cases hri : ri.nspace = p.1 ∧ ri.resourceIndex = p.2
    · rw [if_pos hri] at h
      cases h
      exact ⟨by simp, hri.1, hri.2⟩
    · rw [if_neg hri] at h
      cases hr : pairIndexOfAux rest p with
      | none => rw [hr] at h; simp at h
      | some j' =>
        rw [hr] at h
        simp only [Option.map_some'] at h
        have hj : j = j' + 1 := (Option.some.inj h).symm
        obtain ⟨h1, h2, h3⟩ := ih j' hr
        subst hj
        exact ⟨by simp; omega, h2, h3⟩

/-- The encoded function record corresponds to the source `FunctionInfo2`
relative to string blob `sb`, index buffer `ib` and the resource sequence. -/
def FnRecOk (sb ib : List Nat) (resList : List ResourceInfo) (f : FunctionInfo2)
    (e : EncodedFunctionInfo) : Prop :=
  StrRef sb e.name f.name ∧ StrRef sb e.unmangledName f.unmangledName ∧
    e.type = f.type ∧ e.payloadBytes = f.payloadBytes ∧
    e.attribBytes = f.attribBytes ∧
    e.featureFlags0 = f.featureFlags % 4294967296 ∧
    e.featureFlags1 = f.featureFlags / 4294967296 ∧
    e.shaderCompatMask = f.shaderCompatMask ∧
    e.minShaderModel = f.minShaderModel ∧ e.minType = f.minType ∧
    (if f.globalResources = [] then e.globalResourcesIndexArrayRef = SENTINEL
     else IdxRef ib e.globalResourcesIndexArrayRef
       (f.globalResources.map (pairIndexOf resList))) ∧
    (∃ refs : List Nat, refs.length = f.functionDependencies.length ∧
      (if f.functionDependencies = [] then
        e.functionDependenciesArrayRef = SENTINEL
       else IdxRef ib e.functionDependenciesArrayRef refs) ∧
      ∀ i < refs.length,
        StrRef sb (refs.getD i 0) (f.functionDependencies.getD i []))

theorem FnRecOk_mono (sb sb2 ib ib2 : List Nat) (resList : List ResourceInfo)
    (f : FunctionInfo2) (e : EncodedFunctionInfo) (hwsb : StringBuffer.Wf sb)
    (hsb : ∃ ext, sb2 = sb ++ ext) (hib : ∃ ext, ib2 = ib ++ ext)
    (h : FnRecOk sb ib resList f e) : FnRecOk sb2 ib2 resList f e := by
  obtain ⟨h1, h2, h3, h4, h5, h6, h7, h8, h9, h10, h11, refs, hr1, hr2, hr3⟩ := h
  refine ⟨StrRef_mono _ _ _ _ hwsb hsb h1, StrRef_mono _ _ _ _ hwsb hsb h2,
    h3, h4, h5, h6, h7, h8, h9, h10, ?_, refs, hr1, ?_, ?_⟩
  · by_cases hg : f.globalResources = []
    · rw [if_pos hg] at h11 ⊢
      exact h11
    · rw [if_neg hg] at h11 ⊢
      exact IdxRef_mono _ _ _ _ hib h11
  · by_cases hf : f.functionDependencies = []
    · rw [if_pos hf] at hr2 ⊢
      exact hr2
    · rw [if_neg hf] at hr2 ⊢
      exact IdxRef_mono _ _ _ _ hib hr2
  · intro i hi
    exact StrRef_mono _ _ _ _ hwsb hsb (hr3 i hi)

/-- Specification of the shared per-function encoding. -/
theorem encodeFunctionCommon_spec (resList : List ResourceInfo)
    (f : FunctionInfo2) (blob ibuf : List Nat) (hn : nulFree f.name = true)
    (hu : nulFree f.unmangledName = true)
    (hd : ∀ d ∈ f.functionDependencies, nulFree d = true)
    (hw : StringBuffer.Wf blob) (hwi : IndexArrays.WfIdx ibuf) :
    (∃ ext, (encodeFunctionCommon resList f blob ibuf).2.1 = blob ++ ext) ∧
      StringBuffer.Wf (encodeFunctionCommon resList f blob ibuf).2.1 ∧
      (∃ ext, (encodeFunctionCommon resList f blob ibuf).2.2 = ibuf ++ ext) ∧
      IndexArrays.WfIdx (encodeFunctionCommon resList f blob ibuf).2.2 ∧
      FnRecOk (encodeFunctionCommon resList f blob ibuf).2.1
        (encodeFunctionCommon resList f blob ibuf).2.2 resList f
        (encodeFunctionCommon resList f blob ibuf).1 := by
  obtain ⟨hdext, hdwf, hdlen, hdrefs⟩ :=
    internStringRefs_spec f.functionDependencies blob hd hw
  obtain ⟨hnext, hnref, hnwf⟩ :=
    strMakeRef_ref true (internStringRefs f.functionDependencies blob).2 f.name hn
  obtain ⟨huext, huref, huwf⟩ :=
    strMakeRef_ref true
      (StringBuffer.MakeRef true (internStringRefs f.functionDependencies blob).2
        f.name).2 f.unmangledName hu
  have hgext := idxMakeRef_ext true true ibuf
    (f.globalResources.map (pairIndexOf resList)) true
  have hgwf := idxMakeRef_wf true ibuf
    (f.globalResources.map (pairIndexOf resList)) true hwi
  have hdpext := idxMakeRef_ext true true
    (IndexArrays.MakeRef true true ibuf
      (f.globalResources.map (pairIndexOf resList)) true).2
    (internStringRefs f.functionDependencies blob).1 true
  have hdpwf := idxMakeRef_wf true
    (IndexArrays.MakeRef true true ibuf
      (f.globalResources.map (pairIndexOf resList)) true).2
    (internStringRefs f.functionDependencies blob).1 true hgwf
  simp only [encodeFunctionCommon]
  refine ⟨?_, ?_, ?_, ?_, ?_⟩
  · obtain ⟨e1, he1⟩ := hdext
    obtain ⟨e2, he2⟩ := hnext
    obtain ⟨e3, he3⟩ := huext
    exact ⟨e1 ++ (e2 ++ e3), by rw [he3, he2, he1]; simp⟩
  · exact huwf (hnwf hdwf)
  · obtain ⟨e1, he1⟩ := hgext
    obtain ⟨e2, he2⟩ := hdpext
    exact ⟨e1 ++ e2, by rw [he2, he1]; simp⟩
  · exact hdpwf
  · refine ⟨?_, huref, rfl, rfl, rfl, rfl, rfl, rfl, rfl, rfl, ?_, ?_⟩
    · exact StrRef_mono _ _ _ _ (hnwf hdwf) huext hnref
    · by_cases hg : f.globalResources = []
      · rw [if_pos hg]
        have : f.globalResources.map (pairIndexOf resList) = [] := by
          rw [hg]
          rfl
        rw [this, IndexArrays.MakeRef_eq_sentinel true true ibuf [] true ⟨rfl, rfl⟩]
      · rw [if_neg hg]
        have hne : ¬(true = true ∧ f.globalResources.map (pairIndexOf resList) = []) := by
          rintro ⟨-, hmap⟩
          exact hg (List.map_eq_nil_iff.mp hmap)
        obtain ⟨-, hidx, -⟩ := idxMakeRef_ref true ibuf
          (f.globalResources.map (pairIndexOf resList)) true hwi hne
        exact IdxRef_mono _ _ _ _ hdpext hidx
    · refine ⟨(internStringRefs f.functionDependencies blob).1, hdlen, ?_, ?_⟩
      · by_cases hf : f.functionDependencies = []
        · rw [if_pos hf]
          have hempty : (internStringRefs f.functionDependencies blob).1 = [] := by
            rw [hf]
            rfl
          rw [hempty,
            IndexArrays.MakeRef_eq_sentinel true true _ [] true ⟨rfl, rfl⟩]
        · rw [if_neg hf]
          have hne : ¬(true = true ∧
              (internStringRefs f.functionDependencies blob).1 = []) := by
            rintro ⟨-, hrefs⟩
            apply hf
            have := hdlen
            rw [hrefs] at this
            exact List.eq_nil_of_length_eq_zero this.symm
          obtain ⟨-, hidx, -⟩ := idxMakeRef_ref true
            (IndexArrays.MakeRef true true ibuf
              (f.globalResources.map (pairIndexOf resList)) true).2
            (internStringRefs f.functionDependencies blob).1 true hgwf hne
          exact hidx
      · intro i hi
        rw [hdlen] at hi
        exact StrRef_mono _ _ _ _ (hnwf hdwf) huext
          (StrRef_mono _ _ _ _ hdwf hnext (hdrefs i hi))

/-- `FnRecOk` extended with the v2-only fields: the wave counts and behaviour
flags are copied from the source and the extra-info ref is the literal
sentinel. -/
def Fn2RecOk (sb ib : List Nat) (resList : List ResourceInfo)
    (f : FunctionInfo2) (e2 : EncodedFunctionInfo2) : Prop :=
  FnRecOk sb ib resList f e2.info1 ∧ e2.minWaveCount = f.minWaveCount ∧
    e2.maxWaveCount = f.maxWaveCount ∧
    e2.shaderBehaviourFlags = f.shaderBehaviourFlags ∧
    e2.extraInfoRef = SENTINEL

theorem Fn2RecOk_mono (sb sb2 ib ib2 : List Nat) (resList : List ResourceInfo)
    (f : FunctionInfo2) (e2 : EncodedFunctionInfo2) (hwsb : StringBuffer.Wf sb)
    (hsb : ∃ ext, sb2 = sb ++ ext) (hib : ∃ ext, ib2 = ib ++ ext)
    (h : Fn2RecOk sb ib resList f e2) : Fn2RecOk sb2 ib2 resList f e2 :=
  ⟨FnRecOk_mono sb sb2 ib ib2 resList f e2.info1 hwsb hsb hib h.1,
    h.2.1, h.2.2.1, h.2.2.2.1, h.2.2.2.2⟩

/-- Specification of the v1 function-encoding loop. -/
theorem encodeFunctionsV1_spec (fs : List FunctionInfo2)
    (resList : List ResourceInfo) (blob ibuf : List Nat)
    (hnf : ∀ f ∈ fs, nulFree f.name = true ∧ nulFree f.unmangledName = true ∧
      ∀ d ∈ f.functionDependencies, nulFree d = true)
    (hw : StringBuffer.Wf blob) (hwi : IndexArrays.WfIdx ibuf) :
    (∃ ext, (encodeFunctionsV1 fs resList blob ibuf).2.1 = blob ++ ext) ∧
      StringBuffer.Wf (encodeFunctionsV1 fs resList blob ibuf).2.1 ∧
      (∃ ext, (encodeFunctionsV1 fs resList blob ibuf).2.2 = ibuf ++ ext) ∧
      IndexArrays.WfIdx (encodeFunctionsV1 fs resList blob ibuf).2.2 ∧
      (encodeFunctionsV1 fs resList blob ibuf).1.length = fs.length ∧
      ∀ i < fs.length,
        FnRecOk (encodeFunctionsV1 fs resList blob ibuf).2.1
          (encodeFunctionsV1 fs resList blob ibuf).2.2 resList
          (fs.getD i dFn) ((encodeFunctionsV1 fs resList blob ibuf).1.getD i dEncFn) := by
  induction fs generalizing blob ibuf with
  | nil =>
    exact ⟨⟨[], by simp [encodeFunctionsV1]⟩, hw, ⟨[], by simp [encodeFunctionsV1]⟩,
      hwi, rfl, fun i hi => absurd hi (by simp)⟩
  | cons f rest ih =>
    obtain ⟨hb1, hw1, hi1, hwi1, hrec⟩ := encodeFunctionCommon_spec resList f blob
      ibuf (hnf f (by simp)).1 (hnf f (by simp)).2.1 (hnf f (by simp)).2.2 hw hwi
    obtain ⟨hb2, hw2, hi2, hwi2, hl2, hr2⟩ := ih
      (encodeFunctionCommon resList f blob ibuf).2.1
      (encodeFunctionCommon resList f blob ibuf).2.2
      (fun g hg => hnf g (by simp [hg])) hw1 hwi1
    refine ⟨?_, hw2, ?_, hwi2, ?_, ?_⟩
    · obtain ⟨e1, he1⟩ := hb1
      obtain ⟨e2, he2⟩ := hb2
      exact ⟨e1 ++ e2, by
        show (encodeFunctionsV1 rest resList _ _).2.1 = _
        rw [he2, he1, List.append_assoc]⟩
    · obtain ⟨e1, he1⟩ := hi1
      obtain ⟨e2, he2⟩ := hi2
      exact ⟨e1 ++ e2, by
        show (encodeFunctionsV1 rest resList _ _).2.2 = _
        rw [he2, he1, List.append_assoc]⟩
    · show _ + 1 = _ + 1
      rw [hl2]
    · intro i hi
      cases i with
      | zero =>
        show FnRecOk (encodeFunctionsV1 rest resList _ _).2.1
          (encodeFunctionsV1 rest resList _ _).2.2 resList f
          (encodeFunctionCommon resList f blob ibuf).1
        exact FnRecOk_mono _ _ _ _ _ _ _ hw1 hb2 hi2 hrec
      | succ j =>
        have h := hr2 j (by simpa using hi)
        show FnRecOk (encodeFunctionsV1 rest resList _ _).2.1
          (encodeFunctionsV1 rest resList _ _).2.2 resList
          (rest.getD j dFn)
          ((encodeFunctionsV1 rest resList
            (encodeFunctionCommon resList f blob ibuf).2.1
            (encodeFunctionCommon resList f blob ibuf).2.2).1.getD j dEncFn)
        exact h

/-- Specification of the v2 function-encoding loop. -/
theorem encodeFunctionsV2_spec (fs : List FunctionInfo2)
    (resList : List ResourceInfo) (blob ibuf : List Nat)
    (hnf : ∀ f ∈ fs, nulFree f.name = true ∧ nulFree f.unmangledName = true ∧
      ∀ d ∈ f.functionDependencies, nulFree d = true)
    (hw : StringBuffer.Wf blob) (hwi : IndexArrays.WfIdx ibuf) :
    (∃ ext, (encodeFunctionsV2 fs resList blob ibuf).2.1 = blob ++ ext) ∧
      StringBuffer.Wf (encodeFunctionsV2 fs resList blob ibuf).2.1 ∧
      (∃ ext, (encodeFunctionsV2 fs resList blob ibuf).2.2 = ibuf ++ ext) ∧
      IndexArrays.WfIdx (encodeFunctionsV2 fs resList blob ibuf).2.2 ∧
      (encodeFunctionsV2 fs resList blob ibuf).1.length = fs.length ∧
      ∀ i < fs.length,
        Fn2RecOk (encodeFunctionsV2 fs resList blob ibuf).2.1
          (encodeFunctionsV2 fs resList blob ibuf).2.2 resList
          (fs.getD i dFn) ((encodeFunctionsV2 fs resList blob ibuf).1.getD i dEncFn2) := by
  induction fs generalizing blob ibuf with
  | nil =>
    exact ⟨⟨[], by simp [encodeFunctionsV2]⟩, hw, ⟨[], by simp [encodeFunctionsV2]⟩,
      hwi, rfl, fun i hi => absurd hi (by simp)⟩
  | cons f rest ih =>
    obtain ⟨hb1, hw1, hi1, hwi1, hrec⟩ := encodeFunctionCommon_spec resList f blob
      ibuf (hnf f (by simp)).1 (hnf f (by simp)).2.1 (hnf f (by simp)).2.2 hw hwi
    obtain ⟨hb2, hw2, hi2, hwi2, hl2, hr2⟩ := ih
      (encodeFunctionCommon resList f blob ibuf).2.1
      (encodeFunctionCommon resList f blob ibuf).2.2
      (fun g hg => hnf g (by simp [hg])) hw1 hwi1
    refine ⟨?_, hw2, ?_, hwi2, ?_, ?_⟩
    · obtain ⟨e1, he1⟩ := hb1
      obtain ⟨e2, he2⟩ := hb2
      exact ⟨e1 ++ e2, by
        show (encodeFunctionsV2 rest resList _ _).2.1 = _
        rw [he2, he1, List.append_assoc]⟩
    · obtain ⟨e1, he1⟩ := hi1
      obtain ⟨e2, he2⟩ := hi2
      exact ⟨e1 ++ e2, by
        show (encodeFunctionsV2 rest resList _ _).2.2 = _
        rw [he2, he1, List.append_assoc]⟩
    · show _ + 1 = _ + 1
      rw [hl2]
    · intro i hi
      cases i with
      | zero =>
        show Fn2RecOk (encodeFunctionsV2 rest resList _ _).2.1
          (encodeFunctionsV2 rest resList _ _).2.2 resList f
          { info1 := (encodeFunctionCommon resList f blob ibuf).1,
            minWaveCount := f.minWaveCount, maxWaveCount := f.maxWaveCount,
            shaderBehaviourFlags := f.shaderBehaviourFlags,
            extraInfoRef := SENTINEL }
        exact ⟨FnRecOk_mono _ _ _ _ _ _ _ hw1 hb2 hi2 hrec, rfl, rfl, rfl, rfl⟩
      | succ j =>
        have h := hr2 j (by simpa using hi)
        show Fn2RecOk (encodeFunctionsV2 rest resList _ _).2.1
          (encodeFunctionsV2 rest resList _ _).2.2 resList
          (rest.getD j dFn)
          ((encodeFunctionsV2 rest resList
            (encodeFunctionCommon resList f blob ibuf).2.1
            (encodeFunctionCommon resList f blob ibuf).2.2).1.getD j dEncFn2)
        exact h

/-- Well-formedness of one subobject for round-tripping: the payload variant
matches the numeric type tag (no unknown type, no mismatched union read) and
all payload strings are NUL-free. -/
def SubPayloadWf (ty : Nat) (p : SubobjectPayload) : Prop :=
  match p with
  | .stateConfig _ => ty = subStateConfig
  | .rs _ => ty = subGlobalRS ∨ ty = subLocalRS
  | .assoc subobj exports =>
    ty = subAssoc ∧ nulFree subobj = true ∧ ∀ e ∈ exports, nulFree e = true
  | .rtShaderConfig _ _ => ty = subRTShaderConfig
  | .rtPipeConfig _ _ => ty = subRTPipeConfig ∨ ty = subRTPipeConfig1
  | .hitgroup _ a c i =>
    ty = subHitgroup ∧ nulFree a = true ∧ nulFree c = true ∧ nulFree i = true
  | .undecoded => False

/-- The encoded subobject payload corresponds to the source payload. -/
def PayOk (sb ib : List Nat) (bl : List (List Nat)) :
    SubobjectPayload → EncodedSubPayload → Prop
  | .stateConfig f, .config f' => f' = f
  | .rs data, .rs off sz =>
    (data = [] → sz = 0) ∧ (data ≠ [] → BytesRef bl off sz data)
  | .assoc subobj exports, .assoc a b =>
    StrRef sb a subobj ∧
      ∃ refs : List Nat, refs.length = exports.length ∧ IdxRef ib b refs ∧
        ∀ i < refs.length, StrRef sb (refs.getD i 0) (exports.getD i [])
  | .rtShaderConfig x y, .rtshaderconfig x' y' => x' = x ∧ y' = y
  | .rtPipeConfig x y, .rtpipeconfig x' y' => x' = x ∧ y' = y
  | .hitgroup t a c i, .hitgroup t' a' c' i' =>
    t' = t ∧ StrRef sb a' a ∧ StrRef sb c' c ∧ StrRef sb i' i
  | _, _ => False

/-- The encoded subobject record corresponds to the source `SubobjectInfo`. -/
def SubRecOk (sb ib : List Nat) (bl : List (List Nat)) (s : SubobjectInfo)
    (e : EncodedSubobjectInfo) : Prop :=
  e.ty = s.ty ∧ StrRef sb e.name s.name ∧ PayOk sb ib bl s.payload e.payload

theorem PayOk_mono (sb sb2 ib ib2 : List Nat) (bl bl2 : List (List Nat))
    (p : SubobjectPayload) (ep : EncodedSubPayload) (hwsb : StringBuffer.Wf sb)
    (hsb : ∃ ext, sb2 = sb ++ ext) (hib : ∃ ext, ib2 = ib ++ ext)
    (hbl : ∃ ext, bl2 = bl ++ ext) (h : PayOk sb ib bl p ep) :
    PayOk sb2 ib2 bl2 p ep := by
  cases p <;> cases ep <;> simp only [PayOk] at h ⊢ <;> try exact h
  · exact ⟨h.1, fun hne => BytesRef_mono _ _ _ _ _ hbl (h.2 hne)⟩
  · obtain ⟨h1, refs, hr1, hr2, hr3⟩ := h
    exact ⟨StrRef_mono _ _ _ _ hwsb hsb h1, refs, hr1,
      IdxRef_mono _ _ _ _ hib hr2,
      fun i hi => StrRef_mono _ _ _ _ hwsb hsb (hr3 i hi)⟩
  · exact ⟨h.1, StrRef_mono _ _ _ _ hwsb hsb h.2.1,
      StrRef_mono _ _ _ _ hwsb hsb h.2.2.1,
      StrRef_mono _ _ _ _ hwsb hsb h.2.2.2⟩

theorem SubRecOk_mono (sb sb2 ib ib2 : List Nat) (bl bl2 : List (List Nat))
    (s : SubobjectInfo) (e : EncodedSubobjectInfo) (hwsb : StringBuffer.Wf sb)
    (hsb : ∃ ext, sb2 = sb ++ ext) (hib : ∃ ext, ib2 = ib ++ ext)
    (hbl : ∃ ext, bl2 = bl ++ ext) (h : SubRecOk sb ib bl s e) :
    SubRecOk sb2 ib2 bl2 s e :=
  ⟨h.1, StrRef_mono _ _ _ _ hwsb hsb h.2.1,
    PayOk_mono _ _ _ _ _ _ _ _ hwsb hsb hib hbl h.2.2⟩

/-- Specification of the per-subobject payload encoding. -/
theorem encodeSubPayload_spec (ty : Nat) (p : SubobjectPayload)
    (blob ibuf : List Nat) (bl : List (List Nat)) (hp : SubPayloadWf ty p)
    (hw : StringBuffer.Wf blob) (hwi : IndexArrays.WfIdx ibuf) :
    (∃ ext, (encodeSubPayload ty p blob ibuf bl).2.1 = blob ++ ext) ∧
      StringBuffer.Wf (encodeSubPayload ty p blob ibuf bl).2.1 ∧
      (∃ ext, (encodeSubPayload ty p blob ibuf bl).2.2.1 = ibuf ++ ext) ∧
      IndexArrays.WfIdx (encodeSubPayload ty p blob ibuf bl).2.2.1 ∧
      (∃ ext, (encodeSubPayload ty p blob ibuf bl).2.2.2 = bl ++ ext) ∧
      PayOk (encodeSubPayload ty p blob ibuf bl).2.1
        (encodeSubPayload ty p blob ibuf bl).2.2.1
        (encodeSubPayload ty p blob ibuf bl).2.2.2 p
        (encodeSubPayload ty p blob ibuf bl).1 := by
  cases p with
  | stateConfig f =>
    rw [SubPayloadWf] at hp
    subst hp
    simp only [encodeSubPayload, if_pos rfl, if_true]
    exact ⟨⟨[], by simp⟩, hw, ⟨[], by simp⟩, hwi, ⟨[], by simp⟩, rfl⟩
  | rs data =>
    have hne : ¬(ty = subStateConfig) := by
      rw [SubPayloadWf] at hp
      rcases hp with rfl | rfl <;> decide
    have hgl : ty = subGlobalRS ∨ ty = subLocalRS := by
      rw [SubPayloadWf] at hp
      exact hp
    simp only [encodeSubPayload, if_neg hne, if_pos hgl]
    by_cases hdata : data = []
    · subst hdata
      have hmk : MakeBytesRef bl [] = ((SENTINEL, 0), bl) := by
        unfold MakeBytesRef
        rw [if_pos rfl]
      simp only [hmk]
      exact ⟨⟨[], by simp⟩, hw, ⟨[], by simp⟩, hwi, ⟨[], by simp⟩,
        fun _ => rfl, fun hne' => absurd rfl hne'⟩
    · obtain ⟨hext, href⟩ := makeBytesRef_ref bl data hdata
      exact ⟨⟨[], by simp⟩, hw, ⟨[], by simp⟩, hwi, hext,
        fun h => absurd h hdata, fun _ => href⟩
  | assoc subobj exports =>
    rw [SubPayloadWf] at hp
    obtain ⟨rfl, hnsub, hnexp⟩ := hp
    have h1 : ¬(subAssoc = subStateConfig) := by decide
    have h2 : ¬(subAssoc = subGlobalRS ∨ subAssoc = subLocalRS) := by decide
    simp only [encodeSubPayload, if_neg h1, if_neg h2, if_pos rfl, if_true]
    obtain ⟨hsext, hsref, hswf⟩ := strMakeRef_ref true blob subobj hnsub
    obtain ⟨⟨e2, he2⟩, hw2, hl2, hr2⟩ := internStringRefs_spec exports
      (StringBuffer.MakeRef true blob subobj).2 hnexp (hswf hw)
    have hneidx : ¬(false = true ∧
        (internStringRefs exports (StringBuffer.MakeRef true blob subobj).2).1 = []) := by
      rintro ⟨h, -⟩
      cases h
    obtain ⟨hiext, hidx, hiwf⟩ := idxMakeRef_ref true ibuf
      (internStringRefs exports (StringBuffer.MakeRef true blob subobj).2).1
      false hwi hneidx
    refine ⟨?_, hw2, hiext, hiwf, ⟨[], by simp⟩, ?_, ?_⟩
    · obtain ⟨e1, he1⟩ := hsext
      exact ⟨e1 ++ e2, by rw [he2, he1, List.append_assoc]⟩
    · exact StrRef_mono _ _ _ _ (hswf hw) ⟨e2, he2⟩ hsref
    · exact ⟨(internStringRefs exports (StringBuffer.MakeRef true blob subobj).2).1,
        hl2, hidx, fun i hi => hr2 i (by rw [hl2] at hi; exact hi)⟩
  | rtShaderConfig x y =>
    rw [SubPayloadWf] at hp
    subst hp
    have h1 : ¬(subRTShaderConfig = subStateConfig) := by decide
    have h2 : ¬(subRTShaderConfig = subGlobalRS ∨ subRTShaderConfig = subLocalRS) := by decide
    have h3 : ¬(subRTShaderConfig = subAssoc) := by decide
    simp only [encodeSubPayload, if_neg h1, if_neg h2, if_neg h3, if_pos rfl,
      if_true]
    exact ⟨⟨[], by simp⟩, hw, ⟨[], by simp⟩, hwi, ⟨[], by simp⟩, rfl, rfl⟩
  | rtPipeConfig x y =>
    rw [SubPayloadWf] at hp
    have h1 : ¬(ty = subStateConfig) := by rcases hp with rfl | rfl <;> decide
    have h2 : ¬(ty = subGlobalRS ∨ ty = subLocalRS) := by
      rcases hp with rfl | rfl <;> decide
    have h3 : ¬(ty = subAssoc) := by rcases hp with rfl | rfl <;> decide
    have h4 : ¬(ty = subRTShaderConfig) := by rcases hp with rfl | rfl <;> decide
    have h5 : ty = subRTPipeConfig ∨ ty = subRTPipeConfig1 := hp
    simp only [encodeSubPayload, if_neg h1, if_neg h2, if_neg h3, if_neg h4,
      if_pos h5, if_true]
    exact ⟨⟨[], by simp⟩, hw, ⟨[], by simp⟩, hwi, ⟨[], by simp⟩, rfl, rfl⟩
  | hitgroup t a c i =>
    rw [SubPayloadWf] at hp
    obtain ⟨rfl, hna, hnc, hni⟩ := hp
    have h1 : ¬(subHitgroup = subStateConfig) := by decide
    have h2 : ¬(subHitgroup = subGlobalRS ∨ subHitgroup = subLocalRS) := by decide
    have h3 : ¬(subHitgroup = subAssoc) := by decide
    have h4 : ¬(subHitgroup = subRTShaderConfig) := by decide
    have h5 : ¬(subHitgroup = subRTPipeConfig ∨ subHitgroup = subRTPipeConfig1) := by
      decide
    simp only [encodeSubPayload, if_neg h1, if_neg h2, if_neg h3, if_neg h4,
      if_neg h5, if_pos rfl, if_true]
    obtain ⟨haext, haref, hawf⟩ := strMakeRef_ref true blob a hna
    obtain ⟨hcext, hcref, hcwf⟩ := strMakeRef_ref true
      (StringBuffer.MakeRef true blob a).2 c hnc
    obtain ⟨hiext, hiref, hiwf⟩ := strMakeRef_ref true
      (StringBuffer.MakeRef true (StringBuffer.MakeRef true blob a).2 c).2 i hni
    refine ⟨?_, hiwf (hcwf (hawf hw)), ⟨[], by simp⟩, hwi, ⟨[], by simp⟩,
      rfl, ?_, ?_, hiref⟩
    · obtain ⟨e1, he1⟩ := haext
      obtain ⟨e2, he2⟩ := hcext
      obtain ⟨e3, he3⟩ := hiext
      exact ⟨e1 ++ (e2 ++ e3), by rw [he3, he2, he1]; simp⟩
    · exact StrRef_mono _ _ _ _ (hcwf (hawf hw)) hiext
        (StrRef_mono _ _ _ _ (hawf hw) hcext haref)
    · exact StrRef_mono _ _ _ _ (hcwf (hawf hw)) hiext hcref
  | undecoded =>
    rw [SubPayloadWf] at hp
    exact absurd hp (by simp)

/-- Specification of the subobject-encoding loop. -/
theorem encodeSubobjects_spec (subs : List SubobjectInfo) (blob ibuf : List Nat)
    (bl : List (List Nat))
    (hnf : ∀ s ∈ subs, nulFree s.name = true ∧ SubPayloadWf s.ty s.payload)
    (hw : StringBuffer.Wf blob) (hwi : IndexArrays.WfIdx ibuf) :
    (∃ ext, (encodeSubobjects subs blob ibuf bl).2.1 = blob ++ ext) ∧
      StringBuffer.Wf (encodeSubobjects subs blob ibuf bl).2.1 ∧
      (∃ ext, (encodeSubobjects subs blob ibuf bl).2.2.1 = ibuf ++ ext) ∧
      IndexArrays.WfIdx (encodeSubobjects subs blob ibuf bl).2.2.1 ∧
      (∃ ext, (encodeSubobjects subs blob ibuf bl).2.2.2 = bl ++ ext) ∧
      (encodeSubobjects subs blob ibuf bl).1.length = subs.length ∧
      ∀ i < subs.length,
        SubRecOk (encodeSubobjects subs blob ibuf bl).2.1
          (encodeSubobjects subs blob ibuf bl).2.2.1
          (encodeSubobjects subs blob ibuf bl).2.2.2 (subs.getD i dSub)
          ((encodeSubobjects subs blob ibuf bl).1.getD i dEncSub) := by
  induction subs generalizing blob ibuf bl with
  | nil =>
    exact ⟨⟨[], by simp [encodeSubobjects]⟩, hw, ⟨[], by simp [encodeSubobjects]⟩,
      hwi, ⟨[], by simp [encodeSubobjects]⟩, rfl, fun i hi => absurd hi (by simp)⟩
  | cons s rest ih =>
    obtain ⟨hnext, hnref, hnwf⟩ := strMakeRef_ref true blob s.name (hnf s (by simp)).1
    obtain ⟨hp1, hpw1, hp2, hpw2, hp3, hpok⟩ := encodeSubPayload_spec s.ty s.payload
      (StringBuffer.MakeRef true blob s.name).2 ibuf bl (hnf s (by simp)).2
      (hnwf hw) hwi
    obtain ⟨hb2, hw2, hi2, hwi2, hl2c, hl2, hr2⟩ := ih
      (encodeSubPayload s.ty s.payload (StringBuffer.MakeRef true blob s.name).2 ibuf bl).2.1
      (encodeSubPayload s.ty s.payload (StringBuffer.MakeRef true blob s.name).2 ibuf bl).2.2.1
      (encodeSubPayload s.ty s.payload (StringBuffer.MakeRef true blob s.name).2 ibuf bl).2.2.2
      (fun u hu => hnf u (by simp [hu])) hpw1 hpw2
    refine ⟨?_, hw2, ?_, hwi2, ?_, ?_, ?_⟩
    · obtain ⟨e0, he0⟩ := hnext
      obtain ⟨e1, he1⟩ := hp1
      obtain ⟨e2, he2⟩ := hb2
      exact ⟨e0 ++ (e1 ++ e2), by
        show (encodeSubobjects rest _ _ _).2.1 = _
        rw [he2, he1, he0]
        simp⟩
    · obtain ⟨e1, he1⟩ := hp2
      obtain ⟨e2, he2⟩ := hi2
      exact ⟨e1 ++ e2, by
        show (encodeSubobjects rest _ _ _).2.2.1 = _
        rw [he2, he1, List.append_assoc]⟩
    · obtain ⟨e1, he1⟩ := hp3
      obtain ⟨e2, he2⟩ := hl2c
      exact ⟨e1 ++ e2, by
        show (encodeSubobjects rest _ _ _).2.2.2 = _
        rw [he2, he1, List.append_assoc]⟩
    · show _ + 1 = _ + 1
      rw [hl2]
    · intro i hi
      cases i with
      | zero =>
        show SubRecOk (encodeSubobjects rest _ _ _).2.1
          (encodeSubobjects rest _ _ _).2.2.1 (encodeSubobjects rest _ _ _).2.2.2 s
          { ty := s.ty, name := (StringBuffer.MakeRef true blob s.name).1,
            payload := (encodeSubPayload s.ty s.payload
              (StringBuffer.MakeRef true blob s.name).2 ibuf bl).1 }
        refine SubRecOk_mono _ _ _ _ _ _ _ _ hpw1 hb2 hi2 hl2c ⟨rfl, ?_, hpok⟩
        exact StrRef_mono _ _ _ _ (hnwf hw) hp1 hnref
      | succ j =>
        have h := hr2 j (by simpa using hi)
        show SubRecOk (encodeSubobjects rest _ _ _).2.1
          (encodeSubobjects rest _ _ _).2.2.1 (encodeSubobjects rest _ _ _).2.2.2
          (rest.getD j dSub)
          ((encodeSubobjects rest
            (encodeSubPayload s.ty s.payload (StringBuffer.MakeRef true blob s.name).2 ibuf bl).2.1
            (encodeSubPayload s.ty s.payload (StringBuffer.MakeRef true blob s.name).2 ibuf bl).2.2.1
            (encodeSubPayload s.ty s.payload (StringBuffer.MakeRef true blob s.name).2 ibuf bl).2.2.2).1.getD
            j dEncSub)
        exact h

/-! ### Round-trip development: decoding a table part

A table part's payload is the word list `[count, stride] ++ records`, the
records a flattening of uniform-length word lists; these lemmas read one
field of one record. -/

theorem getD_map_lt {α β : Type} (f : α → β)
    (l : List α) (i : Nat) (h : i < l.length) (d : α) (d' : β) :
    (l.map f).getD i d' = f (l.getD i d) := by
  rw [List.getD_eq_getElem _ _ (by simpa using h), List.getD_eq_getElem _ _ h,
    List.getElem_map]

theorem getD_mem (L : List (List Nat)) (i : Nat) (h : i < L.length) :
    L.getD i [] ∈ L := by
  rw [List.getD_eq_getElem _ _ h]
  exact List.getElem_mem h

theorem tableWords_getD (hdr : List Nat) (L : List (List Nat)) (m : Nat)
    (hm : ∀ r ∈ L, r.length = m) (i w : Nat) (hi : i < L.length) (hw : w < m) :
    (hdr ++ L.flatten).getD (hdr.length + (m * i + w)) 0 =
      (L.getD i []).getD w 0 := by
  rw [getD_append_skip]
  obtain ⟨hdec, hlen⟩ := flatten_uniform_decomp L m hm i hi
  rw [hdec, List.append_assoc, show m * i + w = (L.take i).flatten.length + w by omega,
    getD_append_skip, getD_append_lt]
  rw [hm (L.getD i []) (getD_mem L i hi)]
  exact hw

theorem tableWords_length (hdr : List Nat) (L : List (List Nat)) (m : Nat)
    (hm : ∀ r ∈ L, r.length = m) :
    (hdr ++ L.flatten).length = hdr.length + m * L.length := by
  rw [List.length_append, flatten_length_uniform L m hm]

theorem tableIndex_lt (hdr : List Nat) (L : List (List Nat)) (m : Nat)
    (hm : ∀ r ∈ L, r.length = m) (i w : Nat) (hi : i < L.length) (hw : w < m) :
    hdr.length + (m * i + w) < (hdr ++ L.flatten).length := by
  rw [tableWords_length hdr L m hm]
  have h1 : m * i + w < m * (i + 1) := by
    have hms : m * (i + 1) = m * i + m := by ring
    omega
  have h2 : m * (i + 1) ≤ m * L.length := Nat.mul_le_mul_left m (by omega)
  omega

theorem table_readU32 (inb : List Nat) (tbase : Nat) (hdr : List Nat)
    (L : List (List Nat)) (m : Nat)
    (hW : WordsAt inb tbase (hdr ++ L.flatten)) (hm : ∀ r ∈ L, r.length = m)
    (i w : Nat) (hi : i < L.length) (hw : w < m) :
    readU32 inb (tbase + 4 * (hdr.length + (m * i + w))) =
      (L.getD i []).getD w 0 % 4294967296 := by
  have h := WordsAt_readU32 inb tbase _ _ hW (tableIndex_lt hdr L m hm i w hi hw)
  rw [tableWords_getD hdr L m hm i w hi hw] at h
  exact h

theorem table_readU8_0 (inb : List Nat) (tbase : Nat) (hdr : List Nat)
    (L : List (List Nat)) (m : Nat)
    (hW : WordsAt inb tbase (hdr ++ L.flatten)) (hm : ∀ r ∈ L, r.length = m)
    (i w : Nat) (hi : i < L.length) (hw : w < m) :
    readU8 inb (tbase + 4 * (hdr.length + (m * i + w))) =
      (L.getD i []).getD w 0 % 256 := by
  have h := WordsAt_readU8_0 inb tbase _ _ hW (tableIndex_lt hdr L m hm i w hi hw)
  rw [tableWords_getD hdr L m hm i w hi hw] at h
  exact h

theorem table_readU8_1 (inb : List Nat) (tbase : Nat) (hdr : List Nat)
    (L : List (List Nat)) (m : Nat)
    (hW : WordsAt inb tbase (hdr ++ L.flatten)) (hm : ∀ r ∈ L, r.length = m)
    (i w : Nat) (hi : i < L.length) (hw : w < m) :
    readU8 inb (tbase + 4 * (hdr.length + (m * i + w)) + 1) =
      (L.getD i []).getD w 0 / 256 % 256 := by
  have h := WordsAt_readU8_1 inb tbase _ _ hW (tableIndex_lt hdr L m hm i w hi hw)
  rw [tableWords_getD hdr L m hm i w hi hw] at h
  exact h

theorem table_readU16_0 (inb : List Nat) (tbase : Nat) (hdr : List Nat)
    (L : List (List Nat)) (m : Nat)
    (hW : WordsAt inb tbase (hdr ++ L.flatten)) (hm : ∀ r ∈ L, r.length = m)
    (i w : Nat) (hi : i < L.length) (hw : w < m) :
    readU16 inb (tbase + 4 * (hdr.length + (m * i + w))) =
      (L.getD i []).getD w 0 % 65536 := by
  have h := WordsAt_readU16_0 inb tbase _ _ hW (tableIndex_lt hdr L m hm i w hi hw)
  rw [tableWords_getD hdr L m hm i w hi hw] at h
  exact h

theorem table_readU16_2 (inb : List Nat) (tbase : Nat) (hdr : List Nat)
    (L : List (List Nat)) (m : Nat)
    (hW : WordsAt inb tbase (hdr ++ L.flatten)) (hm : ∀ r ∈ L, r.length = m)
    (i w : Nat) (hi : i < L.length) (hw : w < m) :
    readU16 inb (tbase + 4 * (hdr.length + (m * i + w)) + 2) =
      (L.getD i []).getD w 0 / 65536 % 65536 := by
  have h := WordsAt_readU16_2 inb tbase _ _ hW (tableIndex_lt hdr L m hm i w hi hw)
  rw [tableWords_getD hdr L m hm i w hi hw] at h
  exact h

theorem WordsAt_take (inb : List Nat) (base : Nat) (A B : List Nat)
    (h : WordsAt inb base (A ++ B)) : WordsAt inb base A := by
  obtain ⟨front, tail, hb, hl⟩ := h
  refine ⟨front, wordsToBytes B ++ tail, ?_, hl⟩
  rw [hb, wordsToBytes_append]
  simp

/-- The `i`-th record of a table part is itself a word segment of the input
buffer. -/
theorem WordsAt_record (inb : List Nat) (tbase : Nat) (hdr : List Nat)
    (L : List (List Nat)) (m : Nat) (hm : ∀ r ∈ L, r.length = m)
    (hW : WordsAt inb tbase (hdr ++ L.flatten)) (i : Nat) (hi : i < L.length) :
    WordsAt inb (tbase + 4 * (hdr.length + m * i)) (L.getD i []) := by
  obtain ⟨hdec, hlen⟩ := flatten_uniform_decomp L m hm i hi
  have h1 : WordsAt inb tbase
      ((hdr ++ (L.take i).flatten) ++
        (L.getD i [] ++ (L.drop (i + 1)).flatten)) := by
    rw [hdec] at hW
    have : (hdr ++ (L.take i).flatten) ++
        (L.getD i [] ++ (L.drop (i + 1)).flatten) =
          hdr ++ ((L.take i).flatten ++ L.getD i [] ++ (L.drop (i + 1)).flatten) := by
      simp [List.append_assoc]
    rw [this]
    exact hW
  have h2 := WordsAt_shift inb tbase _ _ h1
  rw [List.length_append, hlen] at h2
  exact WordsAt_take inb _ _ _ h2

theorem map_id_of_mem {α : Type} (l : List α) (g : α → α)
    (h : ∀ x ∈ l, g x = x) : l.map g = l := by
  induction l with
  | nil => rfl
  | cons a rest ih =>
    simp only [List.map_cons]
    rw [h a (by simp), ih (fun x hx => h x (by simp [hx]))]

/-- Numeric-field bounds of a `ResourceInfo` (each field is a `uint32_t` on
the wire). -/
def ResBounded (r : ResourceInfo) : Prop :=
  r.nspace < 4294967296 ∧ r.kind < 4294967296 ∧ r.resourceIndex < 4294967296 ∧
    r.space < 4294967296 ∧ r.regStart < 4294967296 ∧ r.regEnd < 4294967296 ∧
    r.flags < 4294967296

/-- Decoding the resource table recovers exactly the encoded resources. -/
theorem decodeResourceTable_correct (inb : List Nat) (tbase : Nat)
    (sb : List Nat) (rdat : RDATData) (rs : List ResourceInfo)
    (encs : List EncodedResourceInfo)
    (hW : WordsAt inb tbase ([encs.length, 32] ++ (encs.map resourceWords).flatten))
    (hlen : encs.length = rs.length) (hcount : encs.length < 4294967296)
    (hok : ∀ i < rs.length,
      ResRecOk sb (rs.getD i defaultResourceInfo) (encs.getD i dEncRes))
    (hbnd : ∀ i < rs.length, ResBounded (rs.getD i defaultResourceInfo))
    (hrefb : ∀ i < rs.length, (encs.getD i dEncRes).name < 4294967296) :
    decodeResourceTable inb tbase sb rdat =
      ({ rdat with resourceInfo := rdat.resourceInfo ++ rs }, []) := by
  have hm : ∀ r ∈ encs.map resourceWords, r.length = 8 := by
    intro r hr
    obtain ⟨e, -, rfl⟩ := List.mem_map.mp hr
    rfl
  have hLlen : (encs.map resourceWords).length = encs.length := by simp
  have hread : ∀ i < encs.length, ∀ w < 8,
      readU32 inb (tbase + 4 * (2 + (8 * i + w))) =
        (resourceWords (encs.getD i dEncRes)).getD w 0 % 4294967296 := by
    intro i hi w hw
    have h := table_readU32 inb tbase [encs.length, 32] (encs.map resourceWords) 8
      hW hm i w (by omega) hw
    rw [getD_map_lt resourceWords encs i hi dEncRes []] at h
    exact h
  have hcnt : readU32 inb tbase = encs.length := by
    have h := WordsAt_readU32 inb tbase _ 0 hW (by simp)
    rw [show tbase + 4 * 0 = tbase by omega] at h
    rw [h]
    show encs.length % 4294967296 = encs.length
    omega
  have hstr : readU32 inb (tbase + 4) = 32 := by
    have h := WordsAt_readU32 inb tbase _ 1 hW (by simp)
    rw [show tbase + 4 * 1 = tbase + 4 by omega] at h
    rw [h]
    simp
  unfold decodeResourceTable
  rw [hcnt, hstr]
  dsimp only
  rw [if_pos rfl]
  refine congrArg (fun l => (({ rdat with
    resourceInfo := rdat.resourceInfo ++ l } : RDATData), ([] : List Diag))) ?_
  apply List.ext_getElem
  · simp
    omega
  · intro i h1 h2
    simp only [List.getElem_map, List.getElem_range]
    have hi : i < encs.length := by simpa using h1
    have hirs : i < rs.length := by omega
    obtain ⟨f1, f2, f3, f4, f5, f6, f7, f8⟩ := hok i hirs
    obtain ⟨b1, b2, b3, b4, b5, b6, b7⟩ := hbnd i hirs
    have hfield : ∀ w < 8, readU32 inb (tbase + 8 + i * 32 + 4 * w) =
        (resourceWords (encs.getD i dEncRes)).getD w 0 % 4294967296 := by
      intro w hw
      have := hread i hi w hw
      rw [show tbase + 4 * (2 + (8 * i + w)) = tbase + 8 + i * 32 + 4 * w by ring] at this
      exact this
    rw [← List.getD_eq_getElem rs defaultResourceInfo hirs]
    unfold decodeResourceRecord
    have hw0 := hfield 0 (by omega)
    have hw1 := hfield 1 (by omega)
    have hw2 := hfield 2 (by omega)
    have hw3 := hfield 3 (by omega)
    have hw4 := hfield 4 (by omega)
    have hw5 := hfield 5 (by omega)
    have hw6 := hfield 6 (by omega)
    have hw7 := hfield 7 (by omega)
    rw [show tbase + 8 + i * 32 = tbase + 8 + i * 32 + 4 * 0 by omega]
    rw [hw0,
      show tbase + 8 + i * 32 + 4 * 0 + 4 = tbase + 8 + i * 32 + 4 * 1 by omega,
      hw1,
      show tbase + 8 + i * 32 + 4 * 0 + 8 = tbase + 8 + i * 32 + 4 * 2 by omega,
      hw2,
      show tbase + 8 + i * 32 + 4 * 0 + 12 = tbase + 8 + i * 32 + 4 * 3 by omega,
      hw3,
      show tbase + 8 + i * 32 + 4 * 0 + 16 = tbase + 8 + i * 32 + 4 * 4 by omega,
      hw4,
      show tbase + 8 + i * 32 + 4 * 0 + 20 = tbase + 8 + i * 32 + 4 * 5 by omega,
      hw5,
      show tbase + 8 + i * 32 + 4 * 0 + 24 = tbase + 8 + i * 32 + 4 * 6 by omega,
      hw6,
      show tbase + 8 + i * 32 + 4 * 0 + 28 = tbase + 8 + i * 32 + 4 * 7 by omega,
      hw7]
    have g0 : (resourceWords (encs.getD i dEncRes)).getD 0 0 =
        (encs.getD i dEncRes).nspace := rfl
    have g1 : (resourceWords (encs.getD i dEncRes)).getD 1 0 =
        (encs.getD i dEncRes).kind := rfl
    have g2 : (resourceWords (encs.getD i dEncRes)).getD 2 0 =
        (encs.getD i dEncRes).LinearID := rfl
    have g3 : (resourceWords (encs.getD i dEncRes)).getD 3 0 =
        (encs.getD i dEncRes).space := rfl
    have g4 : (resourceWords (encs.getD i dEncRes)).getD 4 0 =
        (encs.getD i dEncRes).regStart := rfl
    have g5 : (resourceWords (encs.getD i dEncRes)).getD 5 0 =
        (encs.getD i dEncRes).regEnd := rfl
    have g6 : (resourceWords (encs.getD i dEncRes)).getD 6 0 =
        (encs.getD i dEncRes).name := rfl
    have g7 : (resourceWords (encs.getD i dEncRes)).getD 7 0 =
        (encs.getD i dEncRes).flags := rfl
    rw [g0, g1, g2, g3, g4, g5, g6, g7, f1, f2, f3, f4, f5, f6, f7]
    have hne : (encs.getD i dEncRes).name % 4294967296 = (encs.getD i dEncRes).name := by
      have := hrefb i hirs
      omega
    rw [hne, f8.2, Nat.mod_eq_of_lt b1, Nat.mod_eq_of_lt b2, Nat.mod_eq_of_lt b3,
      Nat.mod_eq_of_lt b4, Nat.mod_eq_of_lt b5, Nat.mod_eq_of_lt b6,
      Nat.mod_eq_of_lt b7]

/-- Numeric-field bounds of a `FunctionInfo2` (wire widths: u8 type and wave
counts, u16 model/type/behaviour words, u32/u64 otherwise). -/
def FnBounded (f : FunctionInfo2) : Prop :=
  f.type < 256 ∧ f.payloadBytes < 4294967296 ∧ f.attribBytes < 4294967296 ∧
    f.featureFlags < 18446744073709551616 ∧ f.shaderCompatMask < 4294967296 ∧
    f.minShaderModel < 65536 ∧ f.minType < 65536 ∧ f.minWaveCount < 256 ∧
    f.maxWaveCount < 256 ∧ f.shaderBehaviourFlags < 65536

set_option maxHeartbeats 1000000 in
/-- Decoding one v2 function record over a segment holding its encoding
recovers the source `FunctionInfo2`. -/
theorem decodeFunctionRecord_v2 (inb : List Nat) (base : Nat) (sb ib : List Nat)
    (resList : List ResourceInfo) (f : FunctionInfo2) (e2 : EncodedFunctionInfo2)
    (hW : WordsAt inb base (function2Words e2))
    (hok : Fn2RecOk sb ib resList f e2)
    (hsbb : sb.length < 4294967296) (hibb : ib.length < 4294967296)
    (hfound : ∀ p ∈ f.globalResources, ∃ j, pairIndexOfAux resList p = some j)
    (hbnd : FnBounded f) (hext : f.extraInfoRef = SENTINEL) :
    decodeFunctionRecord inb base true sb ib resList = f := by
  obtain ⟨⟨hn, hu, h3, h4, h5, h6, h7, h8, h9, h10, h11, refs, hr1, hr2, hr3⟩,
    hv1, hv2, hv3, hv4⟩ := hok
  obtain ⟨b1, b2, b3, b4, b5, b6, b7, b8, b9, b10⟩ := hbnd
  have hsent : SENTINEL = 4294967295 := rfl
  have hsmod : SENTINEL % 4294967296 = SENTINEL := rfl
  have hlen13 : (function2Words e2).length = 13 := rfl
  have hread : ∀ w, w < 13 →
      readU32 inb (base + 4 * w) = (function2Words e2).getD w 0 % 4294967296 := by
    intro w hw
    exact WordsAt_readU32 inb base _ w hW (by rw [hlen13]; omega)
  have g0 : (function2Words e2).getD 0 0 = e2.info1.name := rfl
  have g1 : (function2Words e2).getD 1 0 = e2.info1.unmangledName := rfl
  have g2 : (function2Words e2).getD 2 0 =
      e2.info1.globalResourcesIndexArrayRef := rfl
  have g3 : (function2Words e2).getD 3 0 =
      e2.info1.functionDependenciesArrayRef := rfl
  have g4 : (function2Words e2).getD 4 0 = e2.info1.type % 256 := rfl
  have g5 : (function2Words e2).getD 5 0 = e2.info1.payloadBytes := rfl
  have g6 : (function2Words e2).getD 6 0 = e2.info1.attribBytes := rfl
  have g7 : (function2Words e2).getD 7 0 = e2.info1.featureFlags0 := rfl
  have g8 : (function2Words e2).getD 8 0 = e2.info1.featureFlags1 := rfl
  have g9 : (function2Words e2).getD 9 0 = e2.info1.shaderCompatMask := rfl
  have g10 : (function2Words e2).getD 10 0 =
      e2.info1.minShaderModel % 65536 + 65536 * (e2.info1.minType % 65536) := rfl
  have g11 : (function2Words e2).getD 11 0 =
      e2.minWaveCount % 256 + 256 * (e2.maxWaveCount % 256) +
        65536 * (e2.shaderBehaviourFlags % 65536) := rfl
  have hnb : e2.info1.name < 4294967296 := lt_trans hn.1 hsbb
  have hub : e2.info1.unmangledName < 4294967296 := lt_trans hu.1 hsbb
  have hname : StringBuffer.GetString sb (readU32 inb base) = f.name := by
    have h := hread 0 (by omega)
    rw [show base + 4 * 0 = base by omega, g0] at h
    rw [h, Nat.mod_eq_of_lt hnb]
    exact hn.2
  have hunm : StringBuffer.GetString sb (readU32 inb (base + 4)) =
      f.unmangledName := by
    have h := hread 1 (by omega)
    rw [show base + 4 * 1 = base + 4 by omega, g1] at h
    rw [h, Nat.mod_eq_of_lt hub]
    exact hu.2
  have hglob :
      (if readU32 inb (base + 8) = SENTINEL then []
       else (IndexArrays.GetSpan ib (readU32 inb (base + 8))).map fun ix =>
         ((resList.getD ix defaultResourceInfo).nspace,
          (resList.getD ix defaultResourceInfo).resourceIndex)) =
        f.globalResources := by
    have h := hread 2 (by omega)
    rw [show base + 4 * 2 = base + 8 by omega, g2] at h
    by_cases hg : f.globalResources = []
    · rw [if_pos hg] at h11
      rw [h, h11, if_pos hsmod]
      exact hg.symm
    · rw [if_neg hg] at h11
      obtain ⟨hi1, hi2, hi3⟩ := h11
      have hrb : e2.info1.globalResourcesIndexArrayRef % 4294967296 =
          e2.info1.globalResourcesIndexArrayRef := by omega
      have hrs : e2.info1.globalResourcesIndexArrayRef ≠ SENTINEL := by
        rw [hsent]
        omega
      rw [h, hrb, if_neg hrs, hi3, List.map_map]
      apply map_id_of_mem
      intro p hp
      obtain ⟨j, hj⟩ := hfound p hp
      obtain ⟨hj1, hj2, hj3⟩ := pairIndexOfAux_some resList p j hj
      simp only [Function.comp]
      rw [pairIndexOf, hj]
      simp only [Option.getD_some]
      rw [hj2, hj3]
  have hdeps :
      (if readU32 inb (base + 12) = SENTINEL then []
       else (IndexArrays.GetSpan ib (readU32 inb (base + 12))).map fun r =>
         StringBuffer.GetString sb r) = f.functionDependencies := by
    have h := hread 3 (by omega)
    rw [show base + 4 * 3 = base + 12 by omega, g3] at h
    by_cases hd : f.functionDependencies = []
    · rw [if_pos hd] at hr2
      rw [h, hr2, if_pos hsmod]
      exact hd.symm
    · rw [if_neg hd] at hr2
      obtain ⟨hi1, hi2, hi3⟩ := hr2
      have hrb : e2.info1.functionDependenciesArrayRef % 4294967296 =
          e2.info1.functionDependenciesArrayRef := by omega
      have hrs : e2.info1.functionDependenciesArrayRef ≠ SENTINEL := by
        rw [hsent]
        omega
      rw [h, hrb, if_neg hrs, hi3]
      apply List.ext_getElem
      · rw [List.length_map, hr1]
      · intro i hix1 hix2
        rw [List.getElem_map]
        have hi' : i < refs.length := by simpa using hix1
        have hi2' : i < f.functionDependencies.length := by
          rw [← hr1]
          exact hi'
        rw [← List.getD_eq_getElem refs 0 hi',
          ← List.getD_eq_getElem f.functionDependencies [] hi2']
        exact (hr3 i hi').2
  have htype : readU8 inb (base + 16) = f.type := by
    have h := WordsAt_readU8_0 inb base _ 4 hW (by rw [hlen13]; omega)
    rw [show base + 4 * 4 = base + 16 by omega, g4] at h
    rw [h, h3]
    omega
  have hpb : readU32 inb (base + 20) = f.payloadBytes := by
    have h := hread 5 (by omega)
    rw [show base + 4 * 5 = base + 20 by omega, g5] at h
    rw [h, h4]
    omega
  have hab : readU32 inb (base + 24) = f.attribBytes := by
    have h := hread 6 (by omega)
    rw [show base + 4 * 6 = base + 24 by omega, g6] at h
    rw [h, h5]
    omega
  have hff : readU32 inb (base + 28) + 4294967296 * readU32 inb (base + 32) =
      f.featureFlags := by
    have ha := hread 7 (by omega)
    rw [show base + 4 * 7 = base + 28 by omega, g7] at ha
    have hb := hread 8 (by omega)
    rw [show base + 4 * 8 = base + 32 by omega, g8] at hb
    rw [ha, hb, h6, h7]
    omega
  have hscm : readU32 inb (base + 36) = f.shaderCompatMask := by
    have h := hread 9 (by omega)
    rw [show base + 4 * 9 = base + 36 by omega, g9] at h
    rw [h, h8]
    omega
  have hmsm : readU16 inb (base + 40) = f.minShaderModel := by
    have h := WordsAt_readU16_0 inb base _ 10 hW (by rw [hlen13]; omega)
    rw [show base + 4 * 10 = base + 40 by omega, g10] at h
    rw [h, h9, h10]
    omega
  have hmt : readU16 inb (base + 42) = f.minType := by
    have h := WordsAt_readU16_2 inb base _ 10 hW (by rw [hlen13]; omega)
    rw [show base + 4 * 10 + 2 = base + 42 by omega, g10] at h
    rw [h, h9, h10]
    omega
  have hmwc : (if (true : Bool) = true then readU8 inb (base + 44) else 0) =
      f.minWaveCount := by
    rw [if_pos rfl]
    have h := WordsAt_readU8_0 inb base _ 11 hW (by rw [hlen13]; omega)
    rw [show base + 4 * 11 = base + 44 by omega, g11] at h
    rw [h, hv1, hv2, hv3]
    omega
  have hmxc : (if (true : Bool) = true then readU8 inb (base + 45) else 0) =
      f.maxWaveCount := by
    rw [if_pos rfl]
    have h := WordsAt_readU8_1 inb base _ 11 hW (by rw [hlen13]; omega)
    rw [show base + 4 * 11 + 1 = base + 45 by omega, g11] at h
    rw [h, hv1, hv2, hv3]
    omega
  have hsbf : (if (true : Bool) = true then readU16 inb (base + 46) else 0) =
      f.shaderBehaviourFlags := by
    rw [if_pos rfl]
    have h := WordsAt_readU16_2 inb base _ 11 hW (by rw [hlen13]; omega)
    rw [show base + 4 * 11 + 2 = base + 46 by omega, g11] at h
    rw [h, hv1, hv2, hv3]
    omega
  unfold decodeFunctionRecord
  dsimp only
  rw [hname, hunm, hglob, hdeps, htype, hpb, hab, hff, hscm, hmsm, hmt,
    hmwc, hmxc, hsbf, ← hext]

/-- Decoding one v1 function record over a segment holding its encoding
recovers the source `FunctionInfo2`, whose v2-only fields sit at their
defaults. -/
theorem decodeFunctionRecord_v1 (inb : List Nat) (base : Nat) (sb ib : List Nat)
    (resList : List ResourceInfo) (f : FunctionInfo2) (e : EncodedFunctionInfo)
    (hW : WordsAt inb base (functionWords e))
    (hok : FnRecOk sb ib resList f e)
    (hsbb : sb.length < 4294967296) (hibb : ib.length < 4294967296)
    (hfound : ∀ p ∈ f.globalResources, ∃ j, pairIndexOfAux resList p = some j)
    (hbnd : FnBounded f) (hdef : f.minWaveCount = 0 ∧ f.maxWaveCount = 0 ∧
      f.shaderBehaviourFlags = 0 ∧ f.extraInfoRef = SENTINEL) :
    decodeFunctionRecord inb base false sb ib resList = f := by
  obtain ⟨hn, hu, h3, h4, h5, h6, h7, h8, h9, h10, h11, refs, hr1, hr2, hr3⟩ := hok
  obtain ⟨b1, b2, b3, b4, b5, b6, b7, b8, b9, b10⟩ := hbnd
  obtain ⟨hd1, hd2, hd3, hd4⟩ := hdef
  have hsent : SENTINEL = 4294967295 := rfl
  have hsmod : SENTINEL % 4294967296 = SENTINEL := rfl
  have hlen11 : (functionWords e).length = 11 := rfl
  have hread : ∀ w, w < 11 →
      readU32 inb (base + 4 * w) = (functionWords e).getD w 0 % 4294967296 := by
    intro w hw
    exact WordsAt_readU32 inb base _ w hW (by rw [hlen11]; omega)
  have g0 : (functionWords e).getD 0 0 = e.name := rfl
  have g1 : (functionWords e).getD 1 0 = e.unmangledName := rfl
  have g2 : (functionWords e).getD 2 0 = e.globalResourcesIndexArrayRef := rfl
  have g3 : (functionWords e).getD 3 0 = e.functionDependenciesArrayRef := rfl
  have g4 : (functionWords e).getD 4 0 = e.type % 256 := rfl
  have g5 : (functionWords e).getD 5 0 = e.payloadBytes := rfl
  have g6 : (functionWords e).getD 6 0 = e.attribBytes := rfl
  have g7 : (functionWords e).getD 7 0 = e.featureFlags0 := rfl
  have g8 : (functionWords e).getD 8 0 = e.featureFlags1 := rfl
  have g9 : (functionWords e).getD 9 0 = e.shaderCompatMask := rfl
  have g10 : (functionWords e).getD 10 0 =
      e.minShaderModel % 65536 + 65536 * (e.minType % 65536) := rfl
  have hnb : e.name < 4294967296 := lt_trans hn.1 hsbb
  have hub : e.unmangledName < 4294967296 := lt_trans hu.1 hsbb
  have hname : StringBuffer.GetString sb (readU32 inb base) = f.name := by
    have h := hread 0 (by omega)
    rw [show base + 4 * 0 = base by omega, g0] at h
    rw [h, Nat.mod_eq_of_lt hnb]
    exact hn.2
  have hunm : StringBuffer.GetString sb (readU32 inb (base + 4)) =
      f.unmangledName := by
    have h := hread 1 (by omega)
    rw [show base + 4 * 1 = base + 4 by omega, g1] at h
    rw [h, Nat.mod_eq_of_lt hub]
    exact hu.2
  have hglob :
      (if readU32 inb (base + 8) = SENTINEL then []
       else (IndexArrays.GetSpan ib (readU32 inb (base + 8))).map fun ix =>
         ((resList.getD ix defaultResourceInfo).nspace,
          (resList.getD ix defaultResourceInfo).resourceIndex)) =
        f.globalResources := by
    have h := hread 2 (by omega)
    rw [show base + 4 * 2 = base + 8 by omega, g2] at h
    by_cases hg : f.globalResources = []
    · rw [if_pos hg] at h11
      rw [h, h11, if_pos hsmod]
      exact hg.symm
    · rw [if_neg hg] at h11
      obtain ⟨hi1, hi2, hi3⟩ := h11
      have hrb : e.globalResourcesIndexArrayRef % 4294967296 =
          e.globalResourcesIndexArrayRef := by omega
      have hrs : e.globalResourcesIndexArrayRef ≠ SENTINEL := by
        rw [hsent]
        omega
      rw [h, hrb, if_neg hrs, hi3, List.map_map]
      apply map_id_of_mem
      intro p hp
      obtain ⟨j, hj⟩ := hfound p hp
      obtain ⟨hj1, hj2, hj3⟩ := pairIndexOfAux_some resList p j hj
      simp only [Function.comp]
      rw [pairIndexOf, hj]
      simp only [Option.getD_some]
      rw [hj2, hj3]
  have hdeps :
      (if readU32 inb (base + 12) = SENTINEL then []
       else (IndexArrays.GetSpan ib (readU32 inb (base + 12))).map fun r =>
         StringBuffer.GetString sb r) = f.functionDependencies := by
    have h := hread 3 (by omega)
    rw [show base + 4 * 3 = base + 12 by omega, g3] at h
    by_cases hd : f.functionDependencies = []
    · rw [if_pos hd] at hr2
      rw [h, hr2, if_pos hsmod]
      exact hd.symm
    · rw [if_neg hd] at hr2
      obtain ⟨hi1, hi2, hi3⟩ := hr2
      have hrb : e.functionDependenciesArrayRef % 4294967296 =
          e.functionDependenciesArrayRef := by omega
      have hrs : e.functionDependenciesArrayRef ≠ SENTINEL := by
        rw [hsent]
        omega
      rw [h, hrb, if_neg hrs, hi3]
      apply List.ext_getElem
      · rw [List.length_map, hr1]
      · intro i hix1 hix2
        rw [List.getElem_map]
        have hi' : i < refs.length := by simpa using hix1
        have hi2' : i < f.functionDependencies.length := by
          rw [← hr1]
          exact hi'
        rw [← List.getD_eq_getElem refs 0 hi',
          ← List.getD_eq_getElem f.functionDependencies [] hi2']
        exact (hr3 i hi').2
  have htype : readU8 inb (base + 16) = f.type := by
    have h := WordsAt_readU8_0 inb base _ 4 hW (by rw [hlen11]; omega)
    rw [show base + 4 * 4 = base + 16 by omega, g4] at h
    rw [h, h3]
    omega
  have hpb : readU32 inb (base + 20) = f.payloadBytes := by
    have h := hread 5 (by omega)
    rw [show base + 4 * 5 = base + 20 by omega, g5] at h
    rw [h, h4]
    omega
  have hab : readU32 inb (base + 24) = f.attribBytes := by
    have h := hread 6 (by omega)
    rw [show base + 4 * 6 = base + 24 by omega, g6] at h
    rw [h, h5]
    omega
  have hff : readU32 inb (base + 28) + 4294967296 * readU32 inb (base + 32) =
      f.featureFlags := by
    have ha := hread 7 (by omega)
    rw [show base + 4 * 7 = base + 28 by omega, g7] at ha
    have hb := hread 8 (by omega)
    rw [show base + 4 * 8 = base + 32 by omega, g8] at hb
    rw [ha, hb, h6, h7]
    omega
  have hscm : readU32 inb (base + 36) = f.shaderCompatMask := by
    have h := hread 9 (by omega)
    rw [show base + 4 * 9 = base + 36 by omega, g9] at h
    rw [h, h8]
    omega
  have hmsm : readU16 inb (base + 40) = f.minShaderModel := by
    have h := WordsAt_readU16_0 inb base _ 10 hW (by rw [hlen11]; omega)
    rw [show base + 4 * 10 = base + 40 by omega, g10] at h
    rw [h, h9, h10]
    omega
  have hmt : readU16 inb (base + 42) = f.minType := by
    have h := WordsAt_readU16_2 inb base _ 10 hW (by rw [hlen11]; omega)
    rw [show base + 4 * 10 + 2 = base + 42 by omega, g10] at h
    rw [h, h9, h10]
    omega
  have hmwc : (if (false : Bool) = true then readU8 inb (base + 44) else 0) =
      f.minWaveCount := by
    rw [if_neg (by simp), hd1]
  have hmxc : (if (false : Bool) = true then readU8 inb (base + 45) else 0) =
      f.maxWaveCount := by
    rw [if_neg (by simp), hd2]
  have hsbf : (if (false : Bool) = true then readU16 inb (base + 46) else 0) =
      f.shaderBehaviourFlags := by
    rw [if_neg (by simp), hd3]
  unfold decodeFunctionRecord
  dsimp only
  rw [hname, hunm, hglob, hdeps, htype, hpb, hab, hff, hscm, hmsm, hmt,
    hmwc, hmxc, hsbf, ← hd4]

/-- Decoding the function table at stride 52 recovers exactly the encoded v2
functions: version 2 is detected and the extra-info asserts are silent. -/
theorem decodeFunctionTable_v2_correct (inb : List Nat) (tbase : Nat)
    (sb ib : List Nat) (rdat : RDATData) (fs : List FunctionInfo2)
    (encs : List EncodedFunctionInfo2)
    (hW : WordsAt inb tbase
      ([encs.length, 52] ++ (encs.map function2Words).flatten))
    (hlen : encs.length = fs.length) (hcount : encs.length < 4294967296)
    (hok : ∀ i < fs.length,
      Fn2RecOk sb ib rdat.resourceInfo (fs.getD i dFn) (encs.getD i dEncFn2))
    (hbnd : ∀ i < fs.length, FnBounded (fs.getD i dFn))
    (hfound : ∀ i < fs.length, ∀ p ∈ (fs.getD i dFn).globalResources,
      ∃ j, pairIndexOfAux rdat.resourceInfo p = some j)
    (hextr : ∀ i < fs.length, (fs.getD i dFn).extraInfoRef = SENTINEL)
    (hsbb : sb.length < 4294967296) (hibb : ib.length < 4294967296) :
    decodeFunctionTable inb tbase sb ib rdat =
      ({ rdat with
          functionVersion := FunctionInfoVersion.version2
          functionInfo := rdat.functionInfo ++ fs }, []) := by
  have hm : ∀ r ∈ encs.map function2Words, r.length = 13 := by
    intro r hr
    obtain ⟨e, -, rfl⟩ := List.mem_map.mp hr
    rfl
  have hcnt : readU32 inb tbase = encs.length := by
    have h := WordsAt_readU32 inb tbase _ 0 hW (by simp)
    rw [show tbase + 4 * 0 = tbase by omega] at h
    rw [h]
    show encs.length % 4294967296 = encs.length
    omega
  have hstr : readU32 inb (tbase + 4) = 52 := by
    have h := WordsAt_readU32 inb tbase _ 1 hW (by simp)
    rw [show tbase + 4 * 1 = tbase + 4 by omega] at h
    rw [h]
    simp
  have hrec : ∀ i < encs.length,
      decodeFunctionRecord inb (tbase + 8 + i * 52) true sb ib rdat.resourceInfo =
        fs.getD i dFn := by
    intro i hi
    have hwr := WordsAt_record inb tbase [encs.length, 52]
      (encs.map function2Words) 13 hm hW i (by simpa using hi)
    rw [getD_map_lt function2Words encs i hi dEncFn2 []] at hwr
    rw [show tbase + 4 * (([encs.length, 52] : List Nat).length + 13 * i) =
      tbase + 8 + i * 52 by simp; ring] at hwr
    exact decodeFunctionRecord_v2 inb (tbase + 8 + i * 52) sb ib
      rdat.resourceInfo (fs.getD i dFn) (encs.getD i dEncFn2) hwr
      (hok i (by omega)) hsbb hibb (hfound i (by omega)) (hbnd i (by omega))
      (hextr i (by omega))
  have hxread : ∀ i < encs.length,
      readU32 inb (tbase + 8 + i * 52 + 48) = SENTINEL := by
    intro i hi
    have h := table_readU32 inb tbase [encs.length, 52]
      (encs.map function2Words) 13 hW hm i 12 (by simpa using hi) (by omega)
    rw [show tbase + 4 * (([encs.length, 52] : List Nat).length + (13 * i + 12)) =
      tbase + 8 + i * 52 + 48 by simp; ring] at h
    rw [getD_map_lt function2Words encs i hi dEncFn2 []] at h
    have hg : (function2Words (encs.getD i dEncFn2)).getD 12 0 =
        (encs.getD i dEncFn2).extraInfoRef := rfl
    rw [hg] at h
    have hx : (encs.getD i dEncFn2).extraInfoRef = SENTINEL :=
      (hok i (by omega)).2.2.2.2
    rw [hx] at h
    rw [h]
    rfl
  unfold decodeFunctionTable
  rw [hcnt, hstr]
  dsimp only
  have hdec : (decide ((52 : Nat) = 52)) = true := by decide
  have hfilter : ((List.range encs.length).filter fun i =>
      decide (readU32 inb (tbase + 8 + i * 52 + 48) ≠ SENTINEL)) = [] := by
    rw [List.filter_eq_nil_iff]
    intro i hi
    have hi' : i < encs.length := List.mem_range.mp hi
    simp only [hxread i hi', decide_not]
    simp
  rw [if_pos rfl, if_pos (Or.inl rfl), if_pos rfl, hfilter]
  simp only [hdec, List.map_nil, List.append_nil]
  refine congrArg (fun l => (({ rdat with
      functionVersion := FunctionInfoVersion.version2
      functionInfo := rdat.functionInfo ++ l } : RDATData), ([] : List Diag))) ?_
  apply List.ext_getElem
  · simp
    omega
  · intro i h1 h2
    simp only [List.getElem_map, List.getElem_range]
    have hi : i < encs.length := by simpa using h1
    show decodeFunctionRecord inb (tbase + 8 + i * 52) true sb ib
      rdat.resourceInfo = fs[i]
    rw [hrec i hi, List.getD_eq_getElem fs dFn (by omega)]

/-- Decoding the function table at stride 44 recovers exactly the encoded v1
functions (v2-only fields at their defaults) and detects version 1. -/
theorem decodeFunctionTable_v1_correct (inb : List Nat) (tbase : Nat)
    (sb ib : List Nat) (rdat : RDATData) (fs : List FunctionInfo2)
    (encs : List EncodedFunctionInfo)
    (hW : WordsAt inb tbase
      ([encs.length, 44] ++ (encs.map functionWords).flatten))
    (hlen : encs.length = fs.length) (hcount : encs.length < 4294967296)
    (hok : ∀ i < fs.length,
      FnRecOk sb ib rdat.resourceInfo (fs.getD i dFn) (encs.getD i dEncFn))
    (hbnd : ∀ i < fs.length, FnBounded (fs.getD i dFn))
    (hfound : ∀ i < fs.length, ∀ p ∈ (fs.getD i dFn).globalResources,
      ∃ j, pairIndexOfAux rdat.resourceInfo p = some j)
    (hdef : ∀ i < fs.length, (fs.getD i dFn).minWaveCount = 0 ∧
      (fs.getD i dFn).maxWaveCount = 0 ∧
      (fs.getD i dFn).shaderBehaviourFlags = 0 ∧
      (fs.getD i dFn).extraInfoRef = SENTINEL)
    (hsbb : sb.length < 4294967296) (hibb : ib.length < 4294967296) :
    decodeFunctionTable inb tbase sb ib rdat =
      ({ rdat with
          functionVersion := FunctionInfoVersion.version1
          functionInfo := rdat.functionInfo ++ fs }, []) := by
  have hm : ∀ r ∈ encs.map functionWords, r.length = 11 := by
    intro r hr
    obtain ⟨e, -, rfl⟩ := List.mem_map.mp hr
    rfl
  have hcnt : readU32 inb tbase = encs.length := by
    have h := WordsAt_readU32 inb tbase _ 0 hW (by simp)
    rw [show tbase + 4 * 0 = tbase by omega] at h
    rw [h]
    show encs.length % 4294967296 = encs.length
    omega
  have hstr : readU32 inb (tbase + 4) = 44 := by
    have h := WordsAt_readU32 inb tbase _ 1 hW (by simp)
    rw [show tbase + 4 * 1 = tbase + 4 by omega] at h
    rw [h]
    simp
  have hrec : ∀ i < encs.length,
      decodeFunctionRecord inb (tbase + 8 + i * 44) false sb ib rdat.resourceInfo =
        fs.getD i dFn := by
    intro i hi
    have hwr := WordsAt_record inb tbase [encs.length, 44]
      (encs.map functionWords) 11 hm hW i (by simpa using hi)
    rw [getD_map_lt functionWords encs i hi dEncFn []] at hwr
    rw [show tbase + 4 * (([encs.length, 44] : List Nat).length + 11 * i) =
      tbase + 8 + i * 44 by simp; ring] at hwr
    exact decodeFunctionRecord_v1 inb (tbase + 8 + i * 44) sb ib
      rdat.resourceInfo (fs.getD i dFn) (encs.getD i dEncFn) hwr
      (hok i (by omega)) hsbb hibb (hfound i (by omega)) (hbnd i (by omega))
      (hdef i (by omega))
  unfold decodeFunctionTable
  rw [hcnt, hstr]
  dsimp only
  have hdec : (decide ((44 : Nat) = 52)) = false := by decide
  rw [if_neg (by omega), if_pos (Or.inr rfl), if_neg (by omega)]
  simp only [hdec, List.nil_append]
  refine congrArg (fun l => (({ rdat with
      functionVersion := FunctionInfoVersion.version1
      functionInfo := rdat.functionInfo ++ l } : RDATData), ([] : List Diag))) ?_
  apply List.ext_getElem
  · simp
    omega
  · intro i h1 h2
    simp only [List.getElem_map, List.getElem_range]
    have hi : i < encs.length := by simpa using h1
    show decodeFunctionRecord inb (tbase + 8 + i * 44) false sb ib
      rdat.resourceInfo = fs[i]
    rw [hrec i hi, List.getD_eq_getElem fs dFn (by omega)]

/-- Numeric-field bounds of a subobject payload (wire u32 widths); the
rtPipeConfig flags word must be zero under the tag whose decoder asserts
it. -/
def SubPayloadBounded (ty : Nat) : SubobjectPayload → Prop
  | .stateConfig f => f < 4294967296
  | .rs _ => True
  | .assoc _ _ => True
  | .rtShaderConfig a b => a < 4294967296 ∧ b < 4294967296
  | .rtPipeConfig a b => a < 4294967296 ∧ b < 4294967296 ∧
      (ty = subRTPipeConfig → b = 0)
  | .hitgroup t _ _ _ => t < 4294967296
  | .undecoded => True

/-- Numeric-field bounds of a `SubobjectInfo`. -/
def SubBounded (s : SubobjectInfo) : Prop :=
  s.ty < 4294967296 ∧ SubPayloadBounded s.ty s.payload

set_option maxHeartbeats 1000000 in
/-- Decoding one subobject record over a segment holding its encoding
recovers the source `SubobjectInfo` with no diagnostic. -/
theorem decodeSubobjectRecord_correct (inb : List Nat) (base : Nat)
    (sb ib raw : List Nat) (bl : List (List Nat)) (s : SubobjectInfo)
    (e : EncodedSubobjectInfo)
    (hW : WordsAt inb base (subobjectWords e))
    (hok : SubRecOk sb ib bl s e) (hwf : SubPayloadWf s.ty s.payload)
    (hraw : ∃ ext, raw = catBlobs bl ++ ext)
    (hsbb : sb.length < 4294967296) (hibb : ib.length < 4294967296)
    (hblb : blobsByteSize bl < 4294967296) (hbnd : SubBounded s) :
    decodeSubobjectRecord inb base sb ib raw = (s, []) := by
  obtain ⟨ht, hn, hp⟩ := hok
  obtain ⟨htb, hpb⟩ := hbnd
  have hsent : SENTINEL = 4294967295 := rfl
  have hs : s = ⟨s.ty, s.name, s.payload⟩ := rfl
  have hpl : ∀ p : EncodedSubPayload, (subPayloadWords p).length = 4 := by
    intro p
    cases p <;> rfl
  have hlen6 : (subobjectWords e).length = 6 := by
    show ([e.ty, e.name] ++ subPayloadWords e.payload).length = 6
    rw [List.length_append, hpl]
    rfl
  have hread : ∀ w, w < 6 →
      readU32 inb (base + 4 * w) = (subobjectWords e).getD w 0 % 4294967296 := by
    intro w hw
    exact WordsAt_readU32 inb base _ w hW (by rw [hlen6]; omega)
  have g0 : (subobjectWords e).getD 0 0 = e.ty := rfl
  have g1 : (subobjectWords e).getD 1 0 = e.name := rfl
  have g2 : (subobjectWords e).getD 2 0 =
      (subPayloadWords e.payload).getD 0 0 := rfl
  have g3 : (subobjectWords e).getD 3 0 =
      (subPayloadWords e.payload).getD 1 0 := rfl
  have g4 : (subobjectWords e).getD 4 0 =
      (subPayloadWords e.payload).getD 2 0 := rfl
  have g5 : (subobjectWords e).getD 5 0 =
      (subPayloadWords e.payload).getD 3 0 := rfl
  have hty : readU32 inb base = s.ty := by
    have h := hread 0 (by omega)
    rw [show base + 4 * 0 = base by omega, g0] at h
    rw [h, ht]
    omega
  have hname : StringBuffer.GetString sb (readU32 inb (base + 4)) = s.name := by
    have h := hread 1 (by omega)
    rw [show base + 4 * 1 = base + 4 by omega, g1] at h
    have hnb : e.name < 4294967296 := lt_trans hn.1 hsbb
    rw [h, Nat.mod_eq_of_lt hnb]
    exact hn.2
  have hr8 : readU32 inb (base + 8) =
      (subPayloadWords e.payload).getD 0 0 % 4294967296 := by
    have h := hread 2 (by omega)
    rw [show base + 4 * 2 = base + 8 by omega, g2] at h
    exact h
  have hr12 : readU32 inb (base + 12) =
      (subPayloadWords e.payload).getD 1 0 % 4294967296 := by
    have h := hread 3 (by omega)
    rw [show base + 4 * 3 = base + 12 by omega, g3] at h
    exact h
  have hr16 : readU32 inb (base + 16) =
      (subPayloadWords e.payload).getD 2 0 % 4294967296 := by
    have h := hread 4 (by omega)
    rw [show base + 4 * 4 = base + 16 by omega, g4] at h
    exact h
  have hr20 : readU32 inb (base + 20) =
      (subPayloadWords e.payload).getD 3 0 % 4294967296 := by
    have h := hread 5 (by omega)
    rw [show base + 4 * 5 = base + 20 by omega, g5] at h
    exact h
  unfold decodeSubobjectRecord
  dsimp only
  rw [hty, hname]
  cases hps : s.payload with
  | stateConfig f =>
    rw [hps] at hwf hp hpb
    simp only [SubPayloadWf] at hwf
    simp only [SubPayloadBounded] at hpb
    cases hpe : e.payload <;> rw [hpe] at hp <;> simp only [PayOk] at hp
    rename_i f'
    rw [hpe] at hr8
    have w0 : (subPayloadWords (EncodedSubPayload.config f')).getD 0 0 = f' := rfl
    rw [w0] at hr8
    rw [hwf, if_pos rfl, hr8, hp, Nat.mod_eq_of_lt hpb]
    conv_rhs => rw [hs, hps, hwf]
  | rs data =>
    rw [hps] at hwf hp hpb
    simp only [SubPayloadWf] at hwf
    cases hpe : e.payload <;> rw [hpe] at hp <;> simp only [PayOk] at hp
    rename_i off sz
    rw [hpe] at hr8 hr12
    have w0 : (subPayloadWords (EncodedSubPayload.rs off sz)).getD 0 0 = off := rfl
    have w1 : (subPayloadWords (EncodedSubPayload.rs off sz)).getD 1 0 = sz := rfl
    rw [w0] at hr8
    rw [w1] at hr12
    have hbody : readBytes raw (readU32 inb (base + 8))
        (readU32 inb (base + 12)) = data := by
      by_cases hd : data = []
      · have hsz : sz = 0 := hp.1 hd
        rw [hr12, hsz, hd]
        rfl
      · obtain ⟨hle, hszl, hrd⟩ := hp.2 hd
        obtain ⟨ext, rfl⟩ := hraw
        have hoffb : off < 4294967296 := by omega
        have hszb : sz < 4294967296 := by omega
        rw [hr8, hr12, Nat.mod_eq_of_lt hoffb, Nat.mod_eq_of_lt hszb,
          readBytes_append_lt _ _ _ _ (by rw [length_catBlobs]; omega)]
        exact hrd
    rcases hwf with hw1 | hw1
    · rw [hw1, if_neg (by decide), if_pos (Or.inl rfl), hbody]
      conv_rhs => rw [hs, hps, hw1]
    · rw [hw1, if_neg (by decide), if_pos (Or.inr rfl), hbody]
      conv_rhs => rw [hs, hps, hw1]
  | assoc subobj exports =>
    rw [hps] at hwf hp hpb
    simp only [SubPayloadWf] at hwf
    cases hpe : e.payload <;> rw [hpe] at hp <;> simp only [PayOk] at hp
    rename_i a b
    rw [hpe] at hr8 hr12
    have w0 : (subPayloadWords (EncodedSubPayload.assoc a b)).getD 0 0 = a := rfl
    have w1 : (subPayloadWords (EncodedSubPayload.assoc a b)).getD 1 0 = b := rfl
    rw [w0] at hr8
    rw [w1] at hr12
    obtain ⟨hstr, refs, hrl, hidx, hrs⟩ := hp
    have hab : a < 4294967296 := lt_trans hstr.1 hsbb
    have hbb : b % 4294967296 = b := by
      have := hidx.1
      omega
    have hbs : b ≠ SENTINEL := by
      have := hidx.1
      rw [hsent]
      omega
    have hsub : StringBuffer.GetString sb (readU32 inb (base + 8)) = subobj := by
      rw [hr8, Nat.mod_eq_of_lt hab]
      exact hstr.2
    have hexp : (IndexArrays.GetSpan ib (readU32 inb (base + 12))).map
        (fun r => StringBuffer.GetString sb r) = exports := by
      rw [hr12, hbb, hidx.2.2]
      apply List.ext_getElem
      · rw [List.length_map, hrl]
      · intro i h1 h2
        rw [List.getElem_map]
        have hi' : i < refs.length := by simpa using h1
        have hi2' : i < exports.length := by
          rw [← hrl]
          exact hi'
        rw [← List.getD_eq_getElem refs 0 hi',
          ← List.getD_eq_getElem exports [] hi2']
        exact (hrs i hi').2
    rw [hwf.1, if_neg (by decide), if_neg (by decide), if_pos rfl]
    rw [if_neg (by rw [hr12, hbb]; exact hbs), hexp, hsub]
    conv_rhs => rw [hs, hps, hwf.1]
  | rtShaderConfig x y =>
    rw [hps] at hwf hp hpb
    simp only [SubPayloadWf] at hwf
    simp only [SubPayloadBounded] at hpb
    cases hpe : e.payload <;> rw [hpe] at hp <;> simp only [PayOk] at hp
    rename_i x' y'
    rw [hpe] at hr8 hr12
    have w0 : (subPayloadWords (EncodedSubPayload.rtshaderconfig x' y')).getD 0 0 = x' := rfl
    have w1 : (subPayloadWords (EncodedSubPayload.rtshaderconfig x' y')).getD 1 0 = y' := rfl
    rw [w0] at hr8
    rw [w1] at hr12
    rw [hwf, if_neg (by decide), if_neg (by decide), if_neg (by decide),
      if_pos rfl, hr8, hr12, hp.1, hp.2, Nat.mod_eq_of_lt hpb.1,
      Nat.mod_eq_of_lt hpb.2]
    conv_rhs => rw [hs, hps, hwf]
  | rtPipeConfig x y =>
    rw [hps] at hwf hp hpb
    simp only [SubPayloadWf] at hwf
    simp only [SubPayloadBounded] at hpb
    cases hpe : e.payload <;> rw [hpe] at hp <;> simp only [PayOk] at hp
    rename_i x' y'
    rw [hpe] at hr8 hr12
    have w0 : (subPayloadWords (EncodedSubPayload.rtpipeconfig x' y')).getD 0 0 = x' := rfl
    have w1 : (subPayloadWords (EncodedSubPayload.rtpipeconfig x' y')).getD 1 0 = y' := rfl
    rw [w0] at hr8
    rw [w1] at hr12
    rcases hwf with hw1 | hw1
    · have hy0 : y = 0 := hpb.2.2 hw1
      rw [hw1, if_neg (by decide), if_neg (by decide), if_neg (by decide),
        if_neg (by decide), if_pos rfl, hr8, hr12, hp.1, hp.2,
        Nat.mod_eq_of_lt hpb.1, Nat.mod_eq_of_lt hpb.2.1, hy0,
        if_pos rfl]
      conv_rhs => rw [hs, hps, hw1, hy0]
    · rw [hw1, if_neg (by decide), if_neg (by decide), if_neg (by decide),
        if_neg (by decide), if_neg (by decide), if_pos rfl, hr8, hr12,
        hp.1, hp.2, Nat.mod_eq_of_lt hpb.1, Nat.mod_eq_of_lt hpb.2.1]
      conv_rhs => rw [hs, hps, hw1]
  | hitgroup t anyHit closestHit intersection =>
    rw [hps] at hwf hp hpb
    simp only [SubPayloadWf] at hwf
    simp only [SubPayloadBounded] at hpb
    cases hpe : e.payload <;> rw [hpe] at hp <;> simp only [PayOk] at hp
    rename_i t' a' c' i'
    rw [hpe] at hr8 hr12 hr16 hr20
    have w0 : (subPayloadWords (EncodedSubPayload.hitgroup t' a' c' i')).getD 0 0 = t' := rfl
    have w1 : (subPayloadWords (EncodedSubPayload.hitgroup t' a' c' i')).getD 1 0 = a' := rfl
    have w2 : (subPayloadWords (EncodedSubPayload.hitgroup t' a' c' i')).getD 2 0 = c' := rfl
    have w3 : (subPayloadWords (EncodedSubPayload.hitgroup t' a' c' i')).getD 3 0 = i' := rfl
    rw [w0] at hr8
    rw [w1] at hr12
    rw [w2] at hr16
    rw [w3] at hr20
    obtain ⟨hpt, hpa, hpc, hpi⟩ := hp
    have hga : StringBuffer.GetString sb (readU32 inb (base + 12)) = anyHit := by
      rw [hr12, Nat.mod_eq_of_lt (lt_trans hpa.1 hsbb)]
      exact hpa.2
    have hgc : StringBuffer.GetString sb (readU32 inb (base + 16)) = closestHit := by
      rw [hr16, Nat.mod_eq_of_lt (lt_trans hpc.1 hsbb)]
      exact hpc.2
    have hgi : StringBuffer.GetString sb (readU32 inb (base + 20)) = intersection := by
      rw [hr20, Nat.mod_eq_of_lt (lt_trans hpi.1 hsbb)]
      exact hpi.2
    rw [hwf.1, if_neg (by decide), if_neg (by decide), if_neg (by decide),
      if_neg (by decide), if_neg (by decide), if_neg (by decide),
      if_pos rfl, hr8, hpt, Nat.mod_eq_of_lt hpb, hga, hgc, hgi]
    conv_rhs => rw [hs, hps, hwf.1]
  | undecoded =>
    rw [hps] at hwf
    simp only [SubPayloadWf] at hwf

theorem subobjectWords_length (e : EncodedSubobjectInfo) :
    (subobjectWords e).length = 6 := by
  show ([e.ty, e.name] ++ subPayloadWords e.payload).length = 6
  rw [List.length_append]
  have h : (subPayloadWords e.payload).length = 4 := by
    cases e.payload <;> rfl
  rw [h]
  rfl

/-- Decoding the subobject table recovers exactly the encoded subobjects,
with no diagnostics. -/
theorem decodeSubobjectTable_correct (inb : List Nat) (tbase : Nat)
    (sb ib raw : List Nat) (bl : List (List Nat)) (rdat : RDATData)
    (subs : List SubobjectInfo) (encs : List EncodedSubobjectInfo)
    (hW : WordsAt inb tbase
      ([encs.length, 24] ++ (encs.map subobjectWords).flatten))
    (hlen : encs.length = subs.length) (hcount : encs.length < 4294967296)
    (hok : ∀ i < subs.length,
      SubRecOk sb ib bl (subs.getD i dSub) (encs.getD i dEncSub))
    (hwf : ∀ i < subs.length,
      SubPayloadWf (subs.getD i dSub).ty (subs.getD i dSub).payload)
    (hbnd : ∀ i < subs.length, SubBounded (subs.getD i dSub))
    (hraw : ∃ ext, raw = catBlobs bl ++ ext)
    (hsbb : sb.length < 4294967296) (hibb : ib.length < 4294967296)
    (hblb : blobsByteSize bl < 4294967296) :
    decodeSubobjectTable inb tbase sb ib raw rdat =
      ({ rdat with subobjectsInfo := rdat.subobjectsInfo ++ subs }, []) := by
  have hm : ∀ r ∈ encs.map subobjectWords, r.length = 6 := by
    intro r hr
    obtain ⟨x, -, rfl⟩ := List.mem_map.mp hr
    exact subobjectWords_length x
  have hcnt : readU32 inb tbase = encs.length := by
    have h := WordsAt_readU32 inb tbase _ 0 hW (by simp)
    rw [show tbase + 4 * 0 = tbase by omega] at h
    rw [h]
    show encs.length % 4294967296 = encs.length
    omega
  have hstr : readU32 inb (tbase + 4) = 24 := by
    have h := WordsAt_readU32 inb tbase _ 1 hW (by simp)
    rw [show tbase + 4 * 1 = tbase + 4 by omega] at h
    rw [h]
    simp
  have hrec : ∀ i < encs.length,
      decodeSubobjectRecord inb (tbase + 8 + i * 24) sb ib raw =
        (subs.getD i dSub, []) := by
    intro i hi
    have hwr := WordsAt_record inb tbase [encs.length, 24]
      (encs.map subobjectWords) 6 hm hW i (by simpa using hi)
    rw [getD_map_lt subobjectWords encs i hi dEncSub []] at hwr
    rw [show tbase + 4 * (([encs.length, 24] : List Nat).length + 6 * i) =
      tbase + 8 + i * 24 by simp; ring] at hwr
    exact decodeSubobjectRecord_correct inb (tbase + 8 + i * 24) sb ib raw bl
      (subs.getD i dSub) (encs.getD i dEncSub) hwr (hok i (by omega))
      (hwf i (by omega)) hraw hsbb hibb hblb (hbnd i (by omega))
  unfold decodeSubobjectTable
  rw [hcnt, hstr]
  dsimp only
  rw [if_pos rfl]
  have hflat : (((List.range encs.length).map fun i =>
      decodeSubobjectRecord inb (tbase + 8 + i * 24) sb ib raw).map
        fun r => r.2).flatten = ([] : List Diag) := by
    rw [List.map_map, List.flatten_eq_nil_iff]
    intro x hx
    obtain ⟨i, hi, hix⟩ := List.mem_map.mp hx
    have hi' : i < encs.length := List.mem_range.mp hi
    rw [← hix]
    show (decodeSubobjectRecord inb (tbase + 8 + i * 24) sb ib raw).2 = []
    rw [hrec i hi']
  rw [hflat]
  simp only [List.nil_append]
  refine congrArg (fun l => (({ rdat with
    subobjectsInfo := rdat.subobjectsInfo ++ l } : RDATData),
      ([] : List Diag))) ?_
  rw [List.map_map]
  apply List.ext_getElem
  · simp
    omega
  · intro i h1 h2
    simp only [List.getElem_map, List.getElem_range, Function.comp]
    show (decodeSubobjectRecord inb (tbase + 8 + i * 24) sb ib raw).1 =
      subs[i]
    have hi : i < encs.length := by simpa using h1
    rw [hrec i hi]
    exact List.getD_eq_getElem subs dSub (by omega)

/-! ### Round-trip development: index-buffer entry bounds

The IndexArrays part round-trips through bytes only if every stored word
fits in a u32; these lemmas bound every entry the encoder stores. -/

theorem mem_getD_forall {l : List Nat} (P : Nat → Prop)
    (h : ∀ i < l.length, P (l.getD i 0)) : ∀ v ∈ l, P v := by
  intro v hv
  obtain ⟨i, hi, hveq⟩ := List.getElem_of_mem hv
  have hp := h i hi
  rw [List.getD_eq_getElem l 0 hi, hveq] at hp
  exact hp

theorem pairIndexOf_bounded (resList : List ResourceInfo) (p : Nat × Nat)
    (h : resList.length ≤ 4294967296) :
    pairIndexOf resList p < 4294967296 := by
  unfold pairIndexOf
  cases hx : pairIndexOfAux resList p with
  | none =>
    simp only [Option.getD_none]
    decide
  | some j =>
    simp only [Option.getD_some]
    have := (pairIndexOfAux_some resList p j hx).1
    omega

theorem idxMakeRef_bounded (dedup pfx : Bool) (ib vals : List Nat)
    (eIN : Bool) (hin : ∀ v ∈ ib, v < 4294967296)
    (hv : ∀ v ∈ vals, v < 4294967296) (hl : vals.length < 4294967296) :
    ∀ v ∈ (IndexArrays.MakeRef dedup pfx ib vals eIN).2, v < 4294967296 := by
  intro v hv'
  unfold IndexArrays.MakeRef at hv'
  by_cases h1 : eIN = true ∧ vals = []
  · rw [if_pos h1] at hv'
    exact hin v hv'
  · rw [if_neg h1] at hv'
    cases hfind : (if dedup then IndexArrays.Find pfx ib vals else none) with
    | some o =>
      rw [hfind] at hv'
      exact hin v hv'
    | none =>
      rw [hfind] at hv'
      have hv'' : v ∈ ib ++ (if pfx then [vals.length] else []) ++ vals := hv'
      simp only [List.mem_append] at hv''
      rcases hv'' with (hv'' | hv'') | hv''
      · exact hin v hv''
      · cases pfx
        · simp at hv''
        · simp at hv''
          omega
      · exact hv v hv''

/-- Every index-buffer entry written by the shared per-function encoding is a
u32 value, provided the output string blob fits a u32's range. -/
theorem encodeFunctionCommon_ibound (resList : List ResourceInfo)
    (f : FunctionInfo2) (blob ibuf : List Nat)
    (hnf : ∀ d ∈ f.functionDependencies, nulFree d = true)
    (hw : StringBuffer.Wf blob)
    (hin : ∀ v ∈ ibuf, v < 4294967296)
    (hres : resList.length ≤ 4294967296)
    (hgl : f.globalResources.length < 4294967296)
    (hdl : f.functionDependencies.length < 4294967296)
    (hbl : (encodeFunctionCommon resList f blob ibuf).2.1.length ≤ 4294967296) :
    ∀ v ∈ (encodeFunctionCommon resList f blob ibuf).2.2, v < 4294967296 := by
  obtain ⟨⟨ed, hed⟩, hwd, hld, hrd⟩ :=
    internStringRefs_spec f.functionDependencies blob hnf hw
  obtain ⟨e1, he1⟩ := strMakeRef_ext true
    (internStringRefs f.functionDependencies blob).2 f.name
  obtain ⟨e2, he2⟩ := strMakeRef_ext true
    (StringBuffer.MakeRef true
      (internStringRefs f.functionDependencies blob).2 f.name).2
    f.unmangledName
  have hblout : (encodeFunctionCommon resList f blob ibuf).2.1 =
      (internStringRefs f.functionDependencies blob).2 ++ (e1 ++ e2) := by
    show (StringBuffer.MakeRef true (StringBuffer.MakeRef true
      (internStringRefs f.functionDependencies blob).2 f.name).2
        f.unmangledName).2 = _
    rw [he2, he1, List.append_assoc]
  have hdlen :
      (internStringRefs f.functionDependencies blob).2.length ≤ 4294967296 := by
    rw [hblout, List.length_append] at hbl
    omega
  have hdref : ∀ v ∈ (internStringRefs f.functionDependencies blob).1,
      v < 4294967296 := by
    apply mem_getD_forall
    intro i hi
    have hir : i < f.functionDependencies.length := by
      rw [← hld]
      exact hi
    have := (hrd i hir).1
    omega
  show ∀ v ∈ (IndexArrays.MakeRef true true (IndexArrays.MakeRef true true ibuf
    (f.globalResources.map (pairIndexOf resList)) true).2
    (internStringRefs f.functionDependencies blob).1 true).2, v < 4294967296
  apply idxMakeRef_bounded
  · apply idxMakeRef_bounded
    · exact hin
    · intro v hv
      obtain ⟨p, -, rfl⟩ := List.mem_map.mp hv
      exact pairIndexOf_bounded resList p hres
    · rw [List.length_map]
      exact hgl
  · exact hdref
  · rw [hld]
    exact hdl

/-- Index-buffer entry bound for the v1 function loop. -/
theorem encodeFunctionsV1_ibound (fs : List FunctionInfo2)
    (resList : List ResourceInfo) (blob ibuf : List Nat)
    (hnf : ∀ f ∈ fs, nulFree f.name = true ∧ nulFree f.unmangledName = true ∧
      ∀ d ∈ f.functionDependencies, nulFree d = true)
    (hw : StringBuffer.Wf blob) (hwi : IndexArrays.WfIdx ibuf)
    (hin : ∀ v ∈ ibuf, v < 4294967296)
    (hres : resList.length ≤ 4294967296)
    (hcnt : ∀ f ∈ fs, f.globalResources.length < 4294967296 ∧
      f.functionDependencies.length < 4294967296)
    (hbl : (encodeFunctionsV1 fs resList blob ibuf).2.1.length ≤ 4294967296) :
    ∀ v ∈ (encodeFunctionsV1 fs resList blob ibuf).2.2, v < 4294967296 := by
  induction fs generalizing blob ibuf with
  | nil =>
    intro v hv
    exact hin v hv
  | cons f rest ih =>
    obtain ⟨hb1, hw1, hi1, hwi1, hrec⟩ := encodeFunctionCommon_spec resList f blob
      ibuf (hnf f (by simp)).1 (hnf f (by simp)).2.1 (hnf f (by simp)).2.2 hw hwi
    obtain ⟨e2, he2⟩ := (encodeFunctionsV1_spec rest resList
      (encodeFunctionCommon resList f blob ibuf).2.1
      (encodeFunctionCommon resList f blob ibuf).2.2
      (fun u hu => hnf u (by simp [hu])) hw1 hwi1).1
    have hstep : (encodeFunctionsV1 (f :: rest) resList blob ibuf).2.1 =
        (encodeFunctionsV1 rest resList
          (encodeFunctionCommon resList f blob ibuf).2.1
          (encodeFunctionCommon resList f blob ibuf).2.2).2.1 := rfl
    rw [hstep] at hbl
    have hcb : (encodeFunctionCommon resList f blob ibuf).2.1.length ≤
        4294967296 := by
      rw [he2, List.length_append] at hbl
      omega
    have hib := encodeFunctionCommon_ibound resList f blob ibuf
      (hnf f (by simp)).2.2 hw hin hres (hcnt f (by simp)).1
      (hcnt f (by simp)).2 hcb
    intro v hv
    exact ih (encodeFunctionCommon resList f blob ibuf).2.1
      (encodeFunctionCommon resList f blob ibuf).2.2
      (fun u hu => hnf u (by simp [hu])) hw1 hwi1 hib
      (fun u hu => hcnt u (by simp [hu])) hbl v hv

/-- Index-buffer entry bound for the v2 function loop. -/
theorem encodeFunctionsV2_ibound (fs : List FunctionInfo2)
    (resList : List ResourceInfo) (blob ibuf : List Nat)
    (hnf : ∀ f ∈ fs, nulFree f.name = true ∧ nulFree f.unmangledName = true ∧
      ∀ d ∈ f.functionDependencies, nulFree d = true)
    (hw : StringBuffer.Wf blob) (hwi : IndexArrays.WfIdx ibuf)
    (hin : ∀ v ∈ ibuf, v < 4294967296)
    (hres : resList.length ≤ 4294967296)
    (hcnt : ∀ f ∈ fs, f.globalResources.length < 4294967296 ∧
      f.functionDependencies.length < 4294967296)
    (hbl : (encodeFunctionsV2 fs resList blob ibuf).2.1.length ≤ 4294967296) :
    ∀ v ∈ (encodeFunctionsV2 fs resList blob ibuf).2.2, v < 4294967296 := by
  induction fs generalizing blob ibuf with
  | nil =>
    intro v hv
    exact hin v hv
  | cons f rest ih =>
    obtain ⟨hb1, hw1, hi1, hwi1, hrec⟩ := encodeFunctionCommon_spec resList f blob
      ibuf (hnf f (by simp)).1 (hnf f (by simp)).2.1 (hnf f (by simp)).2.2 hw hwi
    obtain ⟨e2, he2⟩ := (encodeFunctionsV2_spec rest resList
      (encodeFunctionCommon resList f blob ibuf).2.1
      (encodeFunctionCommon resList f blob ibuf).2.2
      (fun u hu => hnf u (by simp [hu])) hw1 hwi1).1
    have hstep : (encodeFunctionsV2 (f :: rest) resList blob ibuf).2.1 =
        (encodeFunctionsV2 rest resList
          (encodeFunctionCommon resList f blob ibuf).2.1
          (encodeFunctionCommon resList f blob ibuf).2.2).2.1 := rfl
    rw [hstep] at hbl
    have hcb : (encodeFunctionCommon resList f blob ibuf).2.1.length ≤
        4294967296 := by
      rw [he2, List.length_append] at hbl
      omega
    have hib := encodeFunctionCommon_ibound resList f blob ibuf
      (hnf f (by simp)).2.2 hw hin hres (hcnt f (by simp)).1
      (hcnt f (by simp)).2 hcb
    intro v hv
    exact ih (encodeFunctionCommon resList f blob ibuf).2.1
      (encodeFunctionCommon resList f blob ibuf).2.2
      (fun u hu => hnf u (by simp [hu])) hw1 hwi1 hib
      (fun u hu => hcnt u (by simp [hu])) hbl v hv

/-- Index-buffer entry bound for one subobject payload encoding. -/
theorem encodeSubPayload_ibound (ty : Nat) (p : SubobjectPayload)
    (blob ibuf : List Nat) (bl : List (List Nat)) (hp : SubPayloadWf ty p)
    (hw : StringBuffer.Wf blob)
    (hin : ∀ v ∈ ibuf, v < 4294967296)
    (hexp : ∀ subobj exports, p = SubobjectPayload.assoc subobj exports →
      exports.length < 4294967296)
    (hbl : (encodeSubPayload ty p blob ibuf bl).2.1.length ≤ 4294967296) :
    ∀ v ∈ (encodeSubPayload ty p blob ibuf bl).2.2.1, v < 4294967296 := by
  cases p with
  | stateConfig f =>
    rw [SubPayloadWf] at hp
    subst hp
    intro v hv
    rw [encodeSubPayload, if_pos rfl] at hv
    exact hin v hv
  | rs data =>
    rw [SubPayloadWf] at hp
    have hne : ¬(ty = subStateConfig) := by
      rcases hp with h | h <;> rw [h] <;> decide
    intro v hv
    rw [encodeSubPayload, if_neg hne, if_pos hp] at hv
    exact hin v hv
  | assoc subobj exports =>
    rw [SubPayloadWf] at hp
    obtain ⟨hty, hns, hne⟩ := hp
    subst hty
    obtain ⟨hext0, hrefsub, hwsub⟩ := strMakeRef_ref true blob subobj hns
    obtain ⟨⟨ee, hee⟩, hwe, hle, hre⟩ :=
      internStringRefs_spec exports (StringBuffer.MakeRef true blob subobj).2
        hne (hwsub hw)
    intro v hv
    rw [encodeSubPayload, if_neg (by decide), if_neg (by decide),
      if_pos rfl] at hv
    have hblo : (encodeSubPayload subAssoc
        (SubobjectPayload.assoc subobj exports) blob ibuf bl).2.1 =
        (internStringRefs exports (StringBuffer.MakeRef true blob subobj).2).2 := by
      rw [encodeSubPayload, if_neg (by decide), if_neg (by decide), if_pos rfl]
    rw [hblo] at hbl
    refine idxMakeRef_bounded true true ibuf
      (internStringRefs exports (StringBuffer.MakeRef true blob subobj).2).1
      false hin ?_ ?_ v hv
    · apply mem_getD_forall
      intro i hi
      have hir : i < exports.length := by
        rw [← hle]
        exact hi
      have := (hre i hir).1
      omega
    · rw [hle]
      exact hexp subobj exports rfl
  | rtShaderConfig a b =>
    rw [SubPayloadWf] at hp
    subst hp
    intro v hv
    rw [encodeSubPayload, if_neg (by decide), if_neg (by decide),
      if_neg (by decide), if_pos rfl] at hv
    exact hin v hv
  | rtPipeConfig a b =>
    rw [SubPayloadWf] at hp
    have h0 : ¬(ty = subStateConfig) := by
      rcases hp with h | h <;> rw [h] <;> decide
    have h1 : ¬(ty = subGlobalRS ∨ ty = subLocalRS) := by
      rcases hp with h | h <;> rw [h] <;> decide
    have h2 : ¬(ty = subAssoc) := by
      rcases hp with h | h <;> rw [h] <;> decide
    have h3 : ¬(ty = subRTShaderConfig) := by
      rcases hp with h | h <;> rw [h] <;> decide
    intro v hv
    rw [encodeSubPayload, if_neg h0, if_neg h1, if_neg h2, if_neg h3,
      if_pos hp] at hv
    exact hin v hv
  | hitgroup t a c i =>
    rw [SubPayloadWf] at hp
    obtain ⟨hty, -, -, -⟩ := hp
    subst hty
    intro v hv
    rw [encodeSubPayload, if_neg (by decide), if_neg (by decide),
      if_neg (by decide), if_neg (by decide), if_neg (by decide),
      if_pos rfl] at hv
    exact hin v hv
  | undecoded =>
    rw [SubPayloadWf] at hp
    exact hp.elim

/-- Index-buffer entry bound for the subobject loop. -/
theorem encodeSubobjects_ibound (subs : List SubobjectInfo)
    (blob ibuf : List Nat) (bl : List (List Nat))
    (hnf : ∀ s ∈ subs, nulFree s.name = true ∧ SubPayloadWf s.ty s.payload)
    (hw : StringBuffer.Wf blob) (hwi : IndexArrays.WfIdx ibuf)
    (hin : ∀ v ∈ ibuf, v < 4294967296)
    (hexp : ∀ s ∈ subs, ∀ subobj exports,
      s.payload = SubobjectPayload.assoc subobj exports →
        exports.length < 4294967296)
    (hbl : (encodeSubobjects subs blob ibuf bl).2.1.length ≤ 4294967296) :
    ∀ v ∈ (encodeSubobjects subs blob ibuf bl).2.2.1, v < 4294967296 := by
  induction subs generalizing blob ibuf bl with
  | nil =>
    intro v hv
    exact hin v hv
  | cons s rest ih =>
    obtain ⟨hnext, hnref, hnwf⟩ := strMakeRef_ref true blob s.name
      (hnf s (by simp)).1
    obtain ⟨hp1, hpw1, hp2, hpw2, hp3, hpok⟩ := encodeSubPayload_spec s.ty
      s.payload (StringBuffer.MakeRef true blob s.name).2 ibuf bl
      (hnf s (by simp)).2 (hnwf hw) hwi
    obtain ⟨e2, he2⟩ := (encodeSubobjects_spec rest
      (encodeSubPayload s.ty s.payload
        (StringBuffer.MakeRef true blob s.name).2 ibuf bl).2.1
      (encodeSubPayload s.ty s.payload
        (StringBuffer.MakeRef true blob s.name).2 ibuf bl).2.2.1
      (encodeSubPayload s.ty s.payload
        (StringBuffer.MakeRef true blob s.name).2 ibuf bl).2.2.2
      (fun u hu => hnf u (by simp [hu])) hpw1 hpw2).1
    have hstep : (encodeSubobjects (s :: rest) blob ibuf bl).2.1 =
        (encodeSubobjects rest
          (encodeSubPayload s.ty s.payload
            (StringBuffer.MakeRef true blob s.name).2 ibuf bl).2.1
          (encodeSubPayload s.ty s.payload
            (StringBuffer.MakeRef true blob s.name).2 ibuf bl).2.2.1
          (encodeSubPayload s.ty s.payload
            (StringBuffer.MakeRef true blob s.name).2 ibuf bl).2.2.2).2.1 := rfl
    rw [hstep] at hbl
    have hcb : (encodeSubPayload s.ty s.payload
        (StringBuffer.MakeRef true blob s.name).2 ibuf bl).2.1.length ≤
          4294967296 := by
      rw [he2, List.length_append] at hbl
      omega
    have hib := encodeSubPayload_ibound s.ty s.payload
      (StringBuffer.MakeRef true blob s.name).2 ibuf bl (hnf s (by simp)).2
      (hnwf hw) hin (fun u e he => hexp s (by simp) u e he) hcb
    intro v hv
    exact ih
      (encodeSubPayload s.ty s.payload
        (StringBuffer.MakeRef true blob s.name).2 ibuf bl).2.1
      (encodeSubPayload s.ty s.payload
        (StringBuffer.MakeRef true blob s.name).2 ibuf bl).2.2.1
      (encodeSubPayload s.ty s.payload
        (StringBuffer.MakeRef true blob s.name).2 ibuf bl).2.2.2
      (fun u hu => hnf u (by simp [hu])) hpw1 hpw2 hib
      (fun u hu => hexp u (by simp [hu])) hbl v hv

/-! ### Round-trip development: part framing and the two passes

A baked non-empty part is uniformly `writeU32 tag ++ writeU32 bodyLen ++
body`; the descriptor list (tag, body) of the baked parts drives closed-form
models of the two decode passes. -/

theorem length_pad4 (l : List Nat) : (pad4 l).length = AlignUp4 l.length := by
  unfold pad4 AlignUp4
  simp only [List.length_append, List.length_replicate]
  omega

theorem AlignUp4_exact (n : Nat) (h : n % 4 = 0) : AlignUp4 n = n := by
  unfold AlignUp4
  omega

theorem pad4_eq_self (l : List Nat) (h : l.length % 4 = 0) : pad4 l = l := by
  unfold pad4
  rw [AlignUp4_exact l.length h]
  simp

theorem bytesToWords_wordsToBytes (ws : List Nat)
    (hb : ∀ v ∈ ws, v < 4294967296) :
    bytesToWords (wordsToBytes ws) (4 * ws.length) = ws := by
  unfold bytesToWords
  rw [show 4 * ws.length / 4 = ws.length by omega]
  apply List.ext_getElem
  · simp
  · intro i h1 h2
    simp only [List.getElem_map, List.getElem_range]
    have hW : WordsAt (wordsToBytes ws) 0 ws := ⟨[], [], by simp, rfl⟩
    have h := WordsAt_readU32 (wordsToBytes ws) 0 ws i hW (by simpa using h1)
    rw [show 0 + 4 * i = 4 * i by omega] at h
    rw [h, ← List.getD_eq_getElem ws 0 (by simpa using h1)]
    exact Nat.mod_eq_of_lt (hb _ (by
      rw [List.getD_eq_getElem ws 0 (by simpa using h1)]
      exact List.getElem_mem _))

/-- The uniform frame of a non-empty baked part. -/
def mkPart (t : Nat) (body : List Nat) : List Nat :=
  writeU32 t ++ writeU32 body.length ++ body

theorem mkPart_not_empty (t : Nat) (body : List Nat) :
    (mkPart t body).isEmpty = false := rfl

theorem length_mkPart (t : Nat) (body : List Nat) :
    (mkPart t body).length = 8 + body.length := by
  unfold mkPart
  simp only [List.length_append, length_writeU32]

theorem BakeRuntimePart_nil (tag : Nat) : BakeRuntimePart tag [] = [] := rfl

theorem BakeRuntimePart_eq (tag : Nat) (data : List Nat) (h : ¬(data.length = 0)) :
    BakeRuntimePart tag data = mkPart tag (pad4 data) := by
  unfold BakeRuntimePart mkPart
  rw [if_neg h, length_pad4]

theorem flatten_map_wordsToBytes (L : List (List Nat)) :
    (L.map wordsToBytes).flatten = wordsToBytes L.flatten := by
  induction L with
  | nil => rfl
  | cons a rest ih =>
    simp only [List.map_cons, List.flatten_cons, wordsToBytes_append, ih]

theorem BakeRuntimeTablePart_eq (tag : Nat) (recs : List (List Nat)) (m : Nat)
    (hne : ¬(recs.length = 0)) (hm : ∀ r ∈ recs, r.length = m)
    (h4 : m % 4 = 0) :
    BakeRuntimeTablePart tag recs m =
      mkPart tag (writeU32 recs.length ++ writeU32 m ++ recs.flatten) := by
  unfold BakeRuntimeTablePart mkPart
  rw [if_neg hne]
  have hfl : recs.flatten.length = m * recs.length :=
    flatten_length_uniform recs m hm
  have hdvd : recs.flatten.length % 4 = 0 := by
    rw [hfl, Nat.mul_mod, h4]
    simp
  rw [pad4_eq_self recs.flatten hdvd, AlignUp4_exact m h4,
    AlignUp4_exact (recs.length * m) (by rw [Nat.mul_mod, h4]; simp)]
  have hlen : (writeU32 recs.length ++ writeU32 m ++ recs.flatten).length =
      recs.length * m + 8 := by
    simp only [List.length_append, length_writeU32, hfl]
    ring
  rw [hlen]
  simp [List.append_assoc]

/-- The parts list of `SetRuntimeData`, described by (tag, body)
descriptors. -/
theorem filter_map_parts (l : List (List Nat × List (Nat × List Nat)))
    (h : ∀ pr ∈ l, (pr.1 = [] ∧ pr.2 = []) ∨
      ∃ t b, pr.2 = [(t, b)] ∧ pr.1 = mkPart t b) :
    ((l.map fun pr => pr.1).filter fun p => !p.isEmpty) =
      ((l.map fun pr => pr.2).flatten.map fun td => mkPart td.1 td.2) := by
  induction l with
  | nil => rfl
  | cons pr rest ih =>
    simp only [List.map_cons, List.flatten_cons, List.filter_cons,
      List.map_append]
    rcases h pr (by simp) with ⟨h1, h2⟩ | ⟨t, b, h2, h1⟩
    · rw [h1, h2]
      simp only [List.isEmpty_nil, Bool.not_true, List.map_nil,
        List.nil_append]
      rw [if_neg (by simp)]
      exact ih fun u hu => h u (by simp [hu])
    · rw [h1, h2, if_pos (by rw [mkPart_not_empty]; rfl)]
      simp only [List.map_cons, List.cons_append, List.nil_append]
      rw [ih fun u hu => h u (by simp [hu])]
      simp

theorem length_partOffsetList (ps : List (List Nat)) (base : Nat) :
    (partOffsetList ps base).length = ps.length := by
  induction ps generalizing base with
  | nil => rfl
  | cons p rest ih =>
    simp only [partOffsetList, List.length_cons, ih]

theorem partOffsetList_le (ps : List (List Nat)) (base : Nat) :
    ∀ v ∈ partOffsetList ps base, v ≤ base + ps.flatten.length := by
  induction ps generalizing base with
  | nil => simp [partOffsetList]
  | cons p rest ih =>
    intro v hv
    simp only [partOffsetList, List.mem_cons] at hv
    rcases hv with rfl | hv
    · simp only [List.flatten_cons, List.length_append]
      omega
    · have := ih (base + p.length) v hv
      simp only [List.flatten_cons, List.length_append]
      omega

/-- The baked parts of descriptor list `ds` sit consecutively in `inb`
starting at byte `base`. -/
def PartsLocated (inb : List Nat) (base : Nat)
    (ds : List (Nat × List Nat)) : Prop :=
  ∃ front tail, inb = front ++ (ds.map fun td => mkPart td.1 td.2).flatten ++
    tail ∧ front.length = base

theorem PartsLocated_cons (inb : List Nat) (base t : Nat) (b : List Nat)
    (rest : List (Nat × List Nat))
    (h : PartsLocated inb base ((t, b) :: rest)) :
    (∃ front tail, inb = front ++ mkPart t b ++ tail ∧ front.length = base) ∧
      PartsLocated inb (base + (8 + b.length)) rest := by
  obtain ⟨front, tail, heq, hlen⟩ := h
  simp only [List.map_cons, List.flatten_cons] at heq
  constructor
  · exact ⟨front, (rest.map fun td => mkPart td.1 td.2).flatten ++ tail,
      by rw [heq]; simp [List.append_assoc], hlen⟩
  · refine ⟨front ++ mkPart t b, tail, by rw [heq]; simp [List.append_assoc], ?_⟩
    simp only [List.length_append, length_mkPart, hlen]

theorem part_reads (inb : List Nat) (off t : Nat) (b : List Nat)
    (h : ∃ front tail, inb = front ++ mkPart t b ++ tail ∧ front.length = off)
    (htag : t < 4294967296) (hbl : b.length < 4294967296) :
    readU32 inb off = t ∧ readU32 inb (off + 4) = b.length ∧
      readBytes inb (off + 8) b.length = b ∧
      (∃ front tail, inb = front ++ b ++ tail ∧ front.length = off + 8) := by
  obtain ⟨front, tail, heq, hlen⟩ := h
  have hsplit : inb = front ++ wordsToBytes [t, b.length] ++ (b ++ tail) := by
    rw [heq]
    unfold mkPart
    rw [wordsToBytes_cons, wordsToBytes_cons, wordsToBytes_nil]
    simp [List.append_assoc]
  have hW : WordsAt inb off [t, b.length] :=
    ⟨front, b ++ tail, hsplit, hlen⟩
  refine ⟨?_, ?_, ?_, ?_⟩
  · have h0 := WordsAt_readU32 inb off [t, b.length] 0 hW (by simp)
    rw [show off + 4 * 0 = off by omega] at h0
    rw [h0]
    show t % 4294967296 = t
    omega
  · have h1 := WordsAt_readU32 inb off [t, b.length] 1 hW (by simp)
    rw [show off + 4 * 1 = off + 4 by omega] at h1
    rw [h1]
    show b.length % 4294967296 = b.length
    omega
  · have hfl : (front ++ wordsToBytes [t, b.length]).length = off + 8 := by
      simp only [List.length_append, length_wordsToBytes, hlen]
      simp
    rw [hsplit,
      show off + 8 = (front ++ wordsToBytes [t, b.length]).length + 0 by
        rw [hfl], readBytes_append_skip]
    exact readBytes_append_exact b tail
  · refine ⟨front ++ wordsToBytes [t, b.length], tail, ?_, ?_⟩
    · rw [hsplit]
      simp [List.append_assoc]
    · simp only [List.length_append, length_wordsToBytes, hlen]
      simp

/-- Pass 1's fold step as a named function. -/
def loadStep (inb : List Nat) (st : LoadedTables) (po : Nat) : LoadedTables :=
  let tag := readU32 inb po
  let size := readU32 inb (po + 4)
  if tag = partStringBuffer then
    { st with stringbuffer := readBytes inb (po + 8) size }
  else if tag = partIndexArrays then
    { st with indexArrays := bytesToWords (readBytes inb (po + 8) size) size }
  else if tag = partRawBytes then
    { st with rawbytes := readBytes inb (po + 8) size }
  else st

theorem loadPass_eq_foldl (inb : List Nat) (os : List Nat) :
    loadPass inb os = os.foldl (loadStep inb) initTables := rfl

/-- Pass 2's fold step as a named function. -/
def decodeStep (inb : List Nat) (t : LoadedTables)
    (acc : RDATData × List Diag) (po : Nat) : RDATData × List Diag :=
  let tag := readU32 inb po
  if tag = partStringBuffer ∨ tag = partIndexArrays ∨ tag = partRawBytes then
    acc
  else if tag = partResourceTable then
    let r := decodeResourceTable inb (po + 8) t.stringbuffer acc.1
    (r.1, acc.2 ++ r.2)
  else if tag = partFunctionTable then
    let r := decodeFunctionTable inb (po + 8) t.stringbuffer t.indexArrays acc.1
    (r.1, acc.2 ++ r.2)
  else if tag = partSubobjectTable then
    let r := decodeSubobjectTable inb (po + 8) t.stringbuffer t.indexArrays
      t.rawbytes acc.1
    (r.1, acc.2 ++ r.2)
  else (acc.1, acc.2 ++ [Diag.warnPart tag])

theorem decodePass_eq_foldl (inb : List Nat) (os : List Nat)
    (t : LoadedTables) (rdat : RDATData) :
    decodePass inb os t rdat = os.foldl (decodeStep inb t) (rdat, []) := rfl

/-- Closed form of pass 1 over the part descriptors. -/
def modelLoad : List (Nat × List Nat) → LoadedTables → LoadedTables
  | [], st => st
  | (t, b) :: rest, st =>
    modelLoad rest
      (if t = partStringBuffer then { st with stringbuffer := b }
       else if t = partIndexArrays then
         { st with indexArrays := bytesToWords b b.length }
       else if t = partRawBytes then { st with rawbytes := b }
       else st)

/-- Closed form of pass 2 over the part descriptors. -/
def modelDecode (inb : List Nat) (t : LoadedTables) :
    List (Nat × List Nat) → Nat → RDATData × List Diag → RDATData × List Diag
  | [], _, acc => acc
  | (tag, b) :: rest, base, acc =>
    modelDecode inb t rest (base + (8 + b.length))
      (if tag = partStringBuffer ∨ tag = partIndexArrays ∨ tag = partRawBytes
       then acc
       else if tag = partResourceTable then
         ((decodeResourceTable inb (base + 8) t.stringbuffer acc.1).1,
          acc.2 ++ (decodeResourceTable inb (base + 8) t.stringbuffer acc.1).2)
       else if tag = partFunctionTable then
         ((decodeFunctionTable inb (base + 8) t.stringbuffer t.indexArrays
            acc.1).1,
          acc.2 ++ (decodeFunctionTable inb (base + 8) t.stringbuffer
            t.indexArrays acc.1).2)
       else if tag = partSubobjectTable then
         ((decodeSubobjectTable inb (base + 8) t.stringbuffer t.indexArrays
            t.rawbytes acc.1).1,
          acc.2 ++ (decodeSubobjectTable inb (base + 8) t.stringbuffer
            t.indexArrays t.rawbytes acc.1).2)
       else (acc.1, acc.2 ++ [Diag.warnPart tag]))

theorem loadPass_model (inb : List Nat) (ds : List (Nat × List Nat))
    (base : Nat) (st : LoadedTables) (hloc : PartsLocated inb base ds)
    (hsz : ∀ td ∈ ds, td.1 < 4294967296 ∧ td.2.length < 4294967296) :
    ((partOffsetList (ds.map fun td => mkPart td.1 td.2) base).foldl
      (loadStep inb) st) = modelLoad ds st := by
  induction ds generalizing base st with
  | nil => rfl
  | cons td rest ih =>
    obtain ⟨t, b⟩ := td
    obtain ⟨hat, hrest⟩ := PartsLocated_cons inb base t b rest hloc
    obtain ⟨hr0, hr4, hrb, -⟩ := part_reads inb base t b hat
      (hsz (t, b) (by simp)).1 (hsz (t, b) (by simp)).2
    simp only [List.map_cons, partOffsetList, List.foldl_cons]
    rw [length_mkPart]
    have hstep : loadStep inb st base =
        (if t = partStringBuffer then { st with stringbuffer := b }
         else if t = partIndexArrays then
           { st with indexArrays := bytesToWords b b.length }
         else if t = partRawBytes then { st with rawbytes := b }
         else st) := by
      unfold loadStep
      dsimp only
      rw [hr0, hr4, hrb]
    rw [hstep]
    show (partOffsetList (rest.map fun td => mkPart td.1 td.2)
      (base + (8 + b.length))).foldl (loadStep inb) _ = _
    exact ih (base + (8 + b.length)) _ hrest
      (fun u hu => hsz u (by simp [hu]))

theorem decodePass_model (inb : List Nat) (t : LoadedTables)
    (ds : List (Nat × List Nat)) (base : Nat) (acc : RDATData × List Diag)
    (hloc : PartsLocated inb base ds)
    (hsz : ∀ td ∈ ds, td.1 < 4294967296 ∧ td.2.length < 4294967296) :
    ((partOffsetList (ds.map fun td => mkPart td.1 td.2) base).foldl
      (decodeStep inb t) acc) = modelDecode inb t ds base acc := by
  induction ds generalizing base acc with
  | nil => rfl
  | cons td rest ih =>
    obtain ⟨tg, b⟩ := td
    obtain ⟨hat, hrest⟩ := PartsLocated_cons inb base tg b rest hloc
    obtain ⟨hr0, -, -, -⟩ := part_reads inb base tg b hat
      (hsz (tg, b) (by simp)).1 (hsz (tg, b) (by simp)).2
    simp only [List.map_cons, partOffsetList, List.foldl_cons]
    rw [length_mkPart]
    have hstep : decodeStep inb t acc base =
        (if tg = partStringBuffer ∨ tg = partIndexArrays ∨ tg = partRawBytes
         then acc
         else if tg = partResourceTable then
           ((decodeResourceTable inb (base + 8) t.stringbuffer acc.1).1,
            acc.2 ++ (decodeResourceTable inb (base + 8) t.stringbuffer
              acc.1).2)
         else if tg = partFunctionTable then
           ((decodeFunctionTable inb (base + 8) t.stringbuffer t.indexArrays
              acc.1).1,
            acc.2 ++ (decodeFunctionTable inb (base + 8) t.stringbuffer
              t.indexArrays acc.1).2)
         else if tg = partSubobjectTable then
           ((decodeSubobjectTable inb (base + 8) t.stringbuffer t.indexArrays
              t.rawbytes acc.1).1,
            acc.2 ++ (decodeSubobjectTable inb (base + 8) t.stringbuffer
              t.indexArrays t.rawbytes acc.1).2)
         else (acc.1, acc.2 ++ [Diag.warnPart tg])) := by
      unfold decodeStep
      dsimp only
      rw [hr0]
    rw [hstep]
    show (partOffsetList (rest.map fun td => mkPart td.1 td.2)
      (base + (8 + b.length))).foldl (decodeStep inb t) _ = _
    rw [ih (base + (8 + b.length)) _ hrest (fun u hu => hsz u (by simp [hu]))]
    rfl

theorem modelLoad_append (d1 d2 : List (Nat × List Nat)) (st : LoadedTables) :
    modelLoad (d1 ++ d2) st = modelLoad d2 (modelLoad d1 st) := by
  induction d1 generalizing st with
  | nil => rfl
  | cons td rest ih =>
    obtain ⟨t, b⟩ := td
    simp only [List.cons_append, modelLoad]
    exact ih _

/-- The byte size of the baked parts of a descriptor list. -/
def dsSize : List (Nat × List Nat) → Nat
  | [] => 0
  | (_, b) :: rest => 8 + b.length + dsSize rest

theorem modelDecode_append (inb : List Nat) (t : LoadedTables)
    (d1 d2 : List (Nat × List Nat)) (base : Nat) (acc : RDATData × List Diag) :
    modelDecode inb t (d1 ++ d2) base acc =
      modelDecode inb t d2 (base + dsSize d1)
        (modelDecode inb t d1 base acc) := by
  induction d1 generalizing base acc with
  | nil =>
    show modelDecode inb t d2 base acc = modelDecode inb t d2 (base + 0) acc
    rw [Nat.add_zero]
  | cons td rest ih =>
    obtain ⟨tg, b⟩ := td
    simp only [List.cons_append, modelDecode, dsSize]
    have hfix : rest.append d2 = rest ++ d2 := rfl
    rw [hfix, ih]
    have hb : base + (8 + b.length) + dsSize rest =
        base + (8 + b.length + dsSize rest) := by omega
    rw [hb]

/-! ### Round-trip development: the six baked parts of `SetRuntimeData` -/

theorem getD_mem_gen {α : Type} (l : List α) (d : α) (i : Nat)
    (h : i < l.length) : l.getD i d ∈ l := by
  rw [List.getD_eq_getElem l d h]
  exact List.getElem_mem h

theorem length_le_flatten (L : List (List Nat)) (l : List Nat) (h : l ∈ L) :
    l.length ≤ L.flatten.length := by
  obtain ⟨s, t, rfl⟩ := List.append_of_mem h
  rw [List.flatten_append, List.flatten_cons]
  simp only [List.length_append]
  omega

theorem PartsLocated_append (inb : List Nat) (base : Nat)
    (d1 d2 : List (Nat × List Nat)) (h : PartsLocated inb base (d1 ++ d2)) :
    PartsLocated inb (base + dsSize d1) d2 := by
  induction d1 generalizing base with
  | nil =>
    show PartsLocated inb (base + 0) d2
    rw [Nat.add_zero]
    exact h
  | cons td rest ih =>
    obtain ⟨t, b⟩ := td
    have h2 := (PartsLocated_cons inb base t b (rest ++ d2) h).2
    have h3 := ih (base + (8 + b.length)) h2
    show PartsLocated inb (base + (8 + b.length + dsSize rest)) d2
    rw [show base + (8 + b.length + dsSize rest) =
      base + (8 + b.length) + dsSize rest by omega]
    exact h3

theorem bakeIdxPart (ws : List Nat) (h : ¬(ws = [])) :
    BakeRuntimePart partIndexArrays (wordsToBytes ws) =
      mkPart partIndexArrays (wordsToBytes ws) := by
  have hl : (wordsToBytes ws).length = 4 * ws.length := length_wordsToBytes ws
  have hne : ¬((wordsToBytes ws).length = 0) := by
    rw [hl]
    have : ws.length ≠ 0 := by
      intro h0
      exact h (List.eq_nil_of_length_eq_zero h0)
    omega
  rw [BakeRuntimePart_eq _ _ hne, pad4_eq_self _ (by rw [hl]; omega)]

theorem bakeResourcePart (encs : List EncodedResourceInfo)
    (h : ¬(encs.length = 0)) :
    BakeRuntimeTablePart partResourceTable (encs.map serializeResource) 32 =
      mkPart partResourceTable
        (wordsToBytes ([encs.length, 32] ++ (encs.map resourceWords).flatten)) := by
  rw [BakeRuntimeTablePart_eq _ _ 32 (by simpa using h)
    (by
      intro r hr
      obtain ⟨e, -, rfl⟩ := List.mem_map.mp hr
      rfl)
    (by omega)]
  congr 1
  have hmm : encs.map serializeResource =
      (encs.map resourceWords).map wordsToBytes := by
    rw [List.map_map]
    rfl
  rw [hmm, flatten_map_wordsToBytes, wordsToBytes_append, wordsToBytes_cons,
    wordsToBytes_cons, wordsToBytes_nil]
  simp [List.append_assoc]

theorem bakeFunctionPartV1 (encs : List EncodedFunctionInfo)
    (h : ¬(encs.length = 0)) :
    BakeRuntimeTablePart partFunctionTable (encs.map serializeFunction) 44 =
      mkPart partFunctionTable
        (wordsToBytes ([encs.length, 44] ++ (encs.map functionWords).flatten)) := by
  rw [BakeRuntimeTablePart_eq _ _ 44 (by simpa using h)
    (by
      intro r hr
      obtain ⟨e, -, rfl⟩ := List.mem_map.mp hr
      rfl)
    (by omega)]
  congr 1
  have hmm : encs.map serializeFunction =
      (encs.map functionWords).map wordsToBytes := by
    rw [List.map_map]
    rfl
  rw [hmm, flatten_map_wordsToBytes, wordsToBytes_append, wordsToBytes_cons,
    wordsToBytes_cons, wordsToBytes_nil]
  simp [List.append_assoc]

theorem bakeFunctionPartV2 (encs : List EncodedFunctionInfo2)
    (h : ¬(encs.length = 0)) :
    BakeRuntimeTablePart partFunctionTable (encs.map serializeFunction2) 52 =
      mkPart partFunctionTable
        (wordsToBytes ([encs.length, 52] ++ (encs.map function2Words).flatten)) := by
  rw [BakeRuntimeTablePart_eq _ _ 52 (by simpa using h)
    (by
      intro r hr
      obtain ⟨e, -, rfl⟩ := List.mem_map.mp hr
      rfl)
    (by omega)]
  congr 1
  have hmm : encs.map serializeFunction2 =
      (encs.map function2Words).map wordsToBytes := by
    rw [List.map_map]
    rfl
  rw [hmm, flatten_map_wordsToBytes, wordsToBytes_append, wordsToBytes_cons,
    wordsToBytes_cons, wordsToBytes_nil]
  simp [List.append_assoc]

theorem bakeSubobjectPart (encs : List EncodedSubobjectInfo)
    (h : ¬(encs.length = 0)) :
    BakeRuntimeTablePart partSubobjectTable (encs.map serializeSubobject) 24 =
      mkPart partSubobjectTable
        (wordsToBytes ([encs.length, 24] ++ (encs.map subobjectWords).flatten)) := by
  rw [BakeRuntimeTablePart_eq _ _ 24 (by simpa using h)
    (by
      intro r hr
      obtain ⟨e, -, rfl⟩ := List.mem_map.mp hr
      show (wordsToBytes (subobjectWords e)).length = 24
      rw [length_wordsToBytes, subobjectWords_length])
    (by omega)]
  congr 1
  have hmm : encs.map serializeSubobject =
      (encs.map subobjectWords).map wordsToBytes := by
    rw [List.map_map]
    rfl
  rw [hmm, flatten_map_wordsToBytes, wordsToBytes_append, wordsToBytes_cons,
    wordsToBytes_cons, wordsToBytes_nil]
  simp [List.append_assoc]

/-! ### Claims -/

/-- **C2** (counterexample): the input below is an RDAT region holding one
function-table part with stride 4 — neither the v1 size (44) nor the v2 size
(52).  Decoding does not report a recoverable structural error: it succeeds,
decodes the table as version 1 with one record, and only logs the non-fatal
stride assertion.  This refutes "any other stride value is reported as a
recoverable structural error (not decoded as either version)". -/
theorem claim_C2_counterexample :
    (GetRuntimeData
        ([0] ++ writeU32 16 ++ writeU32 1 ++ writeU32 12 ++ writeU32 4 ++
          writeU32 12 ++ writeU32 1 ++ writeU32 4 ++ writeU32 0)
        1 RDATData.empty).ok = true ∧
    (GetRuntimeData
        ([0] ++ writeU32 16 ++ writeU32 1 ++ writeU32 12 ++ writeU32 4 ++
          writeU32 12 ++ writeU32 1 ++ writeU32 4 ++ writeU32 0)
        1 RDATData.empty).rdat.functionVersion = FunctionInfoVersion.version1 ∧
    (GetRuntimeData
        ([0] ++ writeU32 16 ++ writeU32 1 ++ writeU32 12 ++ writeU32 4 ++
          writeU32 12 ++ writeU32 1 ++ writeU32 4 ++ writeU32 0)
        1 RDATData.empty).rdat.functionInfo.length = 1 ∧
    (GetRuntimeData
        ([0] ++ writeU32 16 ++ writeU32 1 ++ writeU32 12 ++ writeU32 4 ++
          writeU32 12 ++ writeU32 1 ++ writeU32 4 ++ writeU32 0)
        1 RDATData.empty).diags = [Diag.assertFunctionStride 4] := by
  decide

/-- **C2** (amended): a function-table part whose stride equals the v2 record
size (52) decodes as version 2; any other stride — the v1 size 44 included —
decodes as version 1.  A stride matching neither record size raises only a
non-fatal assertion diagnostic; the table is still decoded (one record per
`count`, stepping by the stride), and no recoverable structural error is
returned. -/
theorem claim_C2 (inb : List Nat) (tbase : Nat) (sb ib : List Nat)
    (rdat : RDATData) :
    ((decodeFunctionTable inb tbase sb ib rdat).1.functionVersion =
      if readU32 inb (tbase + 4) = 52 then FunctionInfoVersion.version2
      else FunctionInfoVersion.version1) ∧
    (¬(readU32 inb (tbase + 4) = 52 ∨ readU32 inb (tbase + 4) = 44) →
      Diag.assertFunctionStride (readU32 inb (tbase + 4)) ∈
        (decodeFunctionTable inb tbase sb ib rdat).2) ∧
    ((decodeFunctionTable inb tbase sb ib rdat).1.functionInfo.length =
      rdat.functionInfo.length + readU32 inb tbase) := by
  refine ⟨rfl, ?_, ?_⟩
  · intro hne
    simp only [decodeFunctionTable]
    rw [if_neg (by tauto)]
    simp
  · simp [decodeFunctionTable]

theorem claim_C2_witness :
    ((decodeFunctionTable (writeU32 0 ++ writeU32 20) 0 [0] [] RDATData.empty).1.functionVersion =
      if readU32 (writeU32 0 ++ writeU32 20) 4 = 52 then FunctionInfoVersion.version2
      else FunctionInfoVersion.version1) ∧
    (¬(readU32 (writeU32 0 ++ writeU32 20) 4 = 52 ∨
        readU32 (writeU32 0 ++ writeU32 20) 4 = 44) →
      Diag.assertFunctionStride (readU32 (writeU32 0 ++ writeU32 20) 4) ∈
        (decodeFunctionTable (writeU32 0 ++ writeU32 20) 0 [0] [] RDATData.empty).2) ∧
    ((decodeFunctionTable (writeU32 0 ++ writeU32 20) 0 [0] [] RDATData.empty).1.functionInfo.length =
      RDATData.empty.functionInfo.length + readU32 (writeU32 0 ++ writeU32 20) 0) :=
  claim_C2 (writeU32 0 ++ writeU32 20) 0 [0] [] RDATData.empty

/-- **C3** (counterexample): an absent RDAT region (`rdatOffset = 0`) and a
present-but-malformed region (wrong version word) produce *equal* decode
results — `false` with untouched data and no diagnostics — so the two
failure cases are not distinguishable by the caller. -/
theorem claim_C3_counterexample :
    GetRuntimeData [0, 0, 0, 0, 0] 0 RDATData.empty =
      GetRuntimeData [9, 99, 0, 0, 0] 1 RDATData.empty := by
  decide

/-- **C3** (amended): the decoder reports the absence of an RDAT region and a
present-but-malformed region (wrong version word) *identically*: both return
`false` with the output data untouched and no diagnostics, so the caller
cannot distinguish the two failure cases from the result. -/
theorem claim_C3 (blob : List Nat) (rdat : RDATData) (blob' : List Nat)
    (off : Nat) (rdat' : RDATData) (hoff : off ≠ 0)
    (hver : readU32 (blob'.drop off) 0 ≠ Version1_0) :
    GetRuntimeData blob 0 rdat = ⟨false, rdat, []⟩ ∧
      GetRuntimeData blob' off rdat' = ⟨false, rdat', []⟩ := by
  constructor
  · rw [GetRuntimeData, if_pos rfl]
  · rw [GetRuntimeData, if_neg hoff, if_pos hver]

theorem claim_C3_witness :
    GetRuntimeData [7] 0 RDATData.empty = ⟨false, RDATData.empty, []⟩ ∧
      GetRuntimeData [9, 99, 0, 0, 0] 1 RDATData.empty =
        ⟨false, RDATData.empty, []⟩ :=
  claim_C3 [7] RDATData.empty [9, 99, 0, 0, 0] 1 RDATData.empty
    (by decide) (by decide)

/-- **C7** (confirmed): when the 4-byte version word of a present RDAT region
differs from the single supported constant, decode fails immediately with no
partial result: the output `RDATData` is returned exactly as it was passed
in, with no diagnostics. -/
theorem claim_C7 (blob : List Nat) (off : Nat) (rdat : RDATData)
    (hoff : off ≠ 0) (hver : readU32 (blob.drop off) 0 ≠ Version1_0) :
    GetRuntimeData blob off rdat = ⟨false, rdat, []⟩ := by
  rw [GetRuntimeData, if_neg hoff, if_pos hver]

theorem claim_C7_witness :
    GetRuntimeData [1, 2, 3, 4, 5] 1 RDATData.empty =
      ⟨false, RDATData.empty, []⟩ :=
  claim_C7 [1, 2, 3, 4, 5] 1 RDATData.empty (by decide) (by decide)

/-- **C9** (confirmed): every function record decoded from a v2 function
table (stride 52) carries `extraInfoRef = SENTINEL` in the result, regardless
of the value stored in the encoded record (the decoder asserts on it and then
overwrites with the sentinel; the newly decoded records are the ones past the
pre-existing `functionInfo` entries). -/
theorem claim_C9 (inb : List Nat) (tbase : Nat) (sb ib : List Nat)
    (rdat : RDATData) (h52 : readU32 inb (tbase + 4) = 52) :
    ∀ f ∈ ((decodeFunctionTable inb tbase sb ib rdat).1.functionInfo.drop
        rdat.functionInfo.length), f.extraInfoRef = SENTINEL := by
  intro f hf
  simp only [decodeFunctionTable] at hf
  rw [List.drop_left] at hf
  obtain ⟨i, -, rfl⟩ := List.mem_map.mp hf
  rfl

theorem claim_C9_witness :
    (decodeFunctionRecord (writeU32 1 ++ writeU32 52 ++ List.replicate 52 7) 8
        (readU32 (writeU32 1 ++ writeU32 52 ++ List.replicate 52 7) 4 = 52)
        [0] [] []).extraInfoRef = SENTINEL := by
  have h := claim_C9 (writeU32 1 ++ writeU32 52 ++ List.replicate 52 7) 0 [0] []
    RDATData.empty (by decide)
  exact h _ (by decide)

/-- **C6** (confirmed): interning an empty index array with empty-is-null
enabled returns the sentinel and leaves the buffer unchanged (whatever the
dedup/prefixing configuration); and when a decoded function record's
global-resources (resp. dependencies) reference is the sentinel, the decoded
list is empty, and with both references sentinel the decode result does not
depend on the index-array table at all (it is never read). -/
theorem claim_C6 :
    (∀ (dedup pfx : Bool) (b : List Nat),
      IndexArrays.MakeRef dedup pfx b [] true = (SENTINEL, b)) ∧
    (∀ (inb : List Nat) (base : Nat) (isV2 : Bool) (sb : List Nat)
        (resList : List ResourceInfo),
      (readU32 inb (base + 8) = SENTINEL →
        ∀ ib, (decodeFunctionRecord inb base isV2 sb ib resList).globalResources = []) ∧
      (readU32 inb (base + 12) = SENTINEL →
        ∀ ib, (decodeFunctionRecord inb base isV2 sb ib resList).functionDependencies = []) ∧
      (readU32 inb (base + 8) = SENTINEL → readU32 inb (base + 12) = SENTINEL →
        ∀ ib ib', decodeFunctionRecord inb base isV2 sb ib resList =
          decodeFunctionRecord inb base isV2 sb ib' resList)) := by
  refine ⟨fun dedup pfx b => IndexArrays.MakeRef_eq_sentinel dedup pfx b [] true ⟨rfl, rfl⟩,
    fun inb base isV2 sb resList => ⟨?_, ?_, ?_⟩⟩
  · intro h ib
    simp [decodeFunctionRecord, h]
  · intro h ib
    simp [decodeFunctionRecord, h]
  · intro h1 h2 ib ib'
    simp [decodeFunctionRecord, h1, h2]

theorem claim_C6_witness :
    IndexArrays.MakeRef true true [5] [] true = (SENTINEL, [5]) ∧
      decodeFunctionRecord (writeU32 0 ++ writeU32 0 ++ writeU32 SENTINEL ++
          writeU32 SENTINEL) 0 true [0] [7, 7, 7] [] =
        decodeFunctionRecord (writeU32 0 ++ writeU32 0 ++ writeU32 SENTINEL ++
          writeU32 SENTINEL) 0 true [0] [9] [] :=
  ⟨claim_C6.1 true true [5],
   (claim_C6.2 (writeU32 0 ++ writeU32 0 ++ writeU32 SENTINEL ++ writeU32 SENTINEL)
      0 true [0] []).2.2 (by decide) (by decide) [7, 7, 7] [9]⟩

/-- **C8** (confirmed): in unprefixed deduplicating mode, `MakeRef` with
nonempty values accepts any offset at which the buffer's contents agree with
the values on the first `values.length` elements (a subset match — more data
may follow): if such an offset exists the buffer is returned unchanged with a
matching offset; only when none exists are the values appended, without a
length prefix. -/
theorem claim_C8 (b vals : List Nat) (eIN : Bool) (hv : vals ≠ []) :
    ((∃ o, o + vals.length ≤ b.length ∧ readWords b o vals.length = vals) →
      (IndexArrays.MakeRef true false b vals eIN).2 = b ∧
      (IndexArrays.MakeRef true false b vals eIN).1 + vals.length ≤ b.length ∧
      readWords b (IndexArrays.MakeRef true false b vals eIN).1 vals.length = vals) ∧
    (¬(∃ o, o + vals.length ≤ b.length ∧ readWords b o vals.length = vals) →
      IndexArrays.MakeRef true false b vals eIN = (b.length, b ++ vals)) := by
  have hne : ¬(eIN = true ∧ vals = []) := fun h => hv h.2
  cases hf : IndexArrays.Find false b vals with
  | some o =>
    rw [IndexArrays.MakeRef_eq_found true false b vals eIN o hne (by simp [hf])]
    obtain ⟨-, h2, h3⟩ := IndexArrays.FindAux_unprefixed_some b vals _ _ _ hf
    exact ⟨fun _ => ⟨rfl, h2, h3⟩, fun hno => absurd ⟨o, h2, h3⟩ hno⟩
  | none =>
    rw [IndexArrays.MakeRef_eq_append_nopfx true b vals eIN hne (by simp [hf])]
    constructor
    · rintro ⟨o, h1, h2⟩
      have hvl : 1 ≤ vals.length := by
        cases vals with
        | nil => exact absurd rfl hv
        | cons _ _ => simp
      have := IndexArrays.FindAux_unprefixed_complete b vals hv
        (b.length + 1) 0 o (by omega) h1 h2 (by omega)
      rw [IndexArrays.Find] at hf
      rw [hf] at this
      simp at this
    · intro
      rfl

theorem claim_C8_witness :
    (IndexArrays.MakeRef true false [7, 9, 3] [7, 9] true).2 = [7, 9, 3] ∧
    (IndexArrays.MakeRef true false [7, 9, 3] [7, 9] true).1 +
        ([7, 9] : List Nat).length ≤ ([7, 9, 3] : List Nat).length ∧
    readWords [7, 9, 3] (IndexArrays.MakeRef true false [7, 9, 3] [7, 9] true).1
        ([7, 9] : List Nat).length = [7, 9] :=
  (claim_C8 [7, 9, 3] [7, 9] true (by decide)).1 ⟨0, by decide, by decide⟩

/-- **C10** (confirmed): `SetPipelineValidation` has an empty body — for
every bytecode buffer and every `PSVData` value the buffer is returned
byte-for-byte unchanged, and there is no other effect to observe. -/
theorem claim_C10 (byteCode : List Nat) (psv : PSVData) :
    SetPipelineValidation byteCode psv = byteCode := rfl

end RDATSpec
